import Mathlib

/-!
# Verification of the sybaulang lexer (`src/core/lexer.c`)

A shallow embedding of the tokenizer of `lexer.c` and machine-checked
statements about it.

Modelling conventions.

* A C string is a `List Char`; a well-formed C string holds no NUL character.
  `input[i]` with `i < len` is the head of the remaining input, `input[i + 1]`
  with `i + 1 < len` the head of its tail.
* `int` and `size_t` values are natural numbers (integers for counts that may
  be negative): texts are assumed shorter than `2 ^ 31` characters, so that no
  arithmetic of the source overflows.
* The `<ctype.h>` predicates are those of the "C" locale.
* Allocation never fails, so `tokenize` only fails to return by looping
  forever; the scanning loop is modelled with fuel and `none` stands for a run
  that never ends.
* The `TokenArray` built with `add_token` is the list of the tokens added, in
  the order of the calls.
-/

namespace Sybau

/-! ## Characters -/

/-- The newline character. -/
abbrev NL : Char := Char.ofNat 10

/-- The backslash character. -/
abbrev BSLASH : Char := Char.ofNat 92

/-- The double quote character. -/
abbrev DQUOTE : Char := Char.ofNat 34

/-- The single quote character. -/
abbrev SQUOTE : Char := Char.ofNat 39

/-- `isspace` of the "C" locale: space, `\t`, `\n`, `\v`, `\f`, `\r`. -/
def isspace (c : Char) : Bool :=
  c.toNat == 32 || (9 ≤ c.toNat && c.toNat ≤ 13)

/-- `isdigit`: `0` to `9`. -/
def isdigit (c : Char) : Bool :=
  48 ≤ c.toNat && c.toNat ≤ 57

/-- `isalpha` of the "C" locale: `A` to `Z` and `a` to `z`. -/
def isalpha (c : Char) : Bool :=
  (65 ≤ c.toNat && c.toNat ≤ 90) || (97 ≤ c.toNat && c.toNat ≤ 122)

/-- `isalnum`: a letter or a digit. -/
def isalnum (c : Char) : Bool :=
  isalpha c || isdigit c

/-- `tolower` of the "C" locale. -/
def tolower (c : Char) : Char :=
  if 65 ≤ c.toNat && c.toNat ≤ 90 then Char.ofNat (c.toNat + 32) else c

/-! ## Data model -/

/-- The enumeration `TokenType`. -/
inductive TokenType where
  | TOKEN_KEYWORD
  | TOKEN_IDENTIFIER
  | TOKEN_NUMBER
  | TOKEN_STRING
  | TOKEN_OPERATOR
  | TOKEN_DELIMITER
  | TOKEN_COMMENT
  | TOKEN_WHITESPACE
  | TOKEN_EOF
  deriving DecidableEq, Repr

/-- The struct `Token`; `value` is the owned copy of the text. -/
structure Token where
  type : TokenType
  value : List Char
  line : Nat
  column : Nat
  deriving DecidableEq, Repr

/-- The struct `TokenizerOptions`. A `char**` field is `none` for `NULL` and
otherwise the array it points to; the `_count` fields are the `int`s of the
source. -/
structure TokenizerOptions where
  include_whitespace : Bool
  include_comments : Bool
  keywords : Option (List (List Char))
  keywords_count : Int
  operators : Option (List (List Char))
  operators_count : Int
  delimiters : Option (List (List Char))
  delimiters_count : Int
  skip_unknown : Bool
  case_sensitive : Bool

/-- The struct `Tokenizer`: the options and the three tables the tokenizer
owns (each `_count` field is the length of its list). -/
structure Tokenizer where
  options : TokenizerOptions
  keywords : List (List Char)
  operators : List (List Char)
  delimiters : List (List Char)

/-! ## Utility functions -/

/-- `string_to_lower`: every character through `tolower`. -/
def string_to_lower (str : List Char) : List Char :=
  str.map tolower

/-- `is_keyword`: membership in the keyword table, exact when
`case_sensitive`, after lower-casing both sides otherwise. -/
def is_keyword (tokenizer : Tokenizer) (word : List Char) : Bool :=
  tokenizer.keywords.any fun kw =>
    if tokenizer.options.case_sensitive then kw == word
    else string_to_lower kw == string_to_lower word

/-- `create_token`. -/
def create_token (type : TokenType) (value : List Char) (line column : Nat) : Token :=
  { type := type, value := value, line := line, column := column }

/-! ## Default tables -/

/-- The array `default_keywords`. -/
def default_keywords : List (List Char) :=
  ["fn", "int", "float", "bool", "char", "string", "if", "else", "while",
   "for", "return", "print", "true", "false", "null", "undefined",
   "let", "const", "var"].map String.toList

/-- The array `default_operators`. -/
def default_operators : List (List Char) :=
  ["==", "!=", "<=", ">=", "&&", "||", "++", "--", "+=", "-=", "*=", "/=",
   "+", "-", "*", "/", "%", "=", "<", ">", "!", "&", "|", "^", "~", "?", ":"].map String.toList

/-- The array `default_delimiters`. -/
def default_delimiters : List (List Char) :=
  ["(", ")", "\x7b", "\x7d", "[", "]", ",", ";", ".", "->"].map String.toList

/-! ## Tokenizer construction -/

/-- `compare_operators`: the difference of the lengths, second minus first.
The source subtracts two `size_t` values and returns the result as an `int`;
for lengths below `2 ^ 31` the conversion gives back the signed difference. -/
def compare_operators (a b : List Char) : Int :=
  (b.length : Int) - (a.length : Int)

/-- Insertion of one entry into a table ordered by `compare_operators`. -/
def qsort_insert (x : List Char) : List (List Char) → List (List Char)
  | [] => [x]
  | y :: ys => if compare_operators x y ≤ 0 then x :: y :: ys else y :: qsort_insert x ys

/-- `qsort` with `compare_operators`. The library routine promises a
permutation ordered by the comparison and nothing about entries that compare
equal; it is modelled by a stable insertion sort. -/
def qsort_operators : List (List Char) → List (List Char)
  | [] => []
  | x :: xs => qsort_insert x (qsort_operators xs)

/-- The options `create_tokenizer` installs when it is given `NULL`. The
`_count` fields are left unset by the source; the table pointers are `NULL`,
so they are never read. -/
def default_options : TokenizerOptions :=
  { include_whitespace := false
    include_comments := false
    keywords := none
    keywords_count := 0
    operators := none
    operators_count := 0
    delimiters := none
    delimiters_count := 0
    skip_unknown := true
    case_sensitive := true }

/-- The table set-up that `create_tokenizer` repeats for its three tables: a
copy of the first `count` entries of the configured array when it is not
`NULL` and `count > 0` (the array is assumed to hold that many), a copy of the
built-in table otherwise. -/
def setup_table (table : Option (List (List Char))) (count : Int)
    (dflt : List (List Char)) : List (List Char) :=
  match table with
  | some t => if count > 0 then t.take count.toNat else dflt
  | none => dflt

/-- `create_tokenizer`; `none` is the `NULL` options pointer. -/
def create_tokenizer (options : Option TokenizerOptions) : Tokenizer :=
  let opts := match options with
    | some o => o
    | none => default_options
  { options := opts
    keywords := setup_table opts.keywords opts.keywords_count default_keywords
    operators := qsort_operators
      (setup_table opts.operators opts.operators_count default_operators)
    delimiters := setup_table opts.delimiters opts.delimiters_count default_delimiters }

/-- `is_delimiter`: some entry of the delimiter table is the one-character
string made of `ch`. -/
def is_delimiter (tokenizer : Tokenizer) (ch : Char) : Bool :=
  tokenizer.delimiters.any fun d => d == [ch]

/-! ## The scanning loops -/

/-- The line after one character: `if (ch == '\n') line++`. -/
def advance_line (ch : Char) (line : Nat) : Nat :=
  if ch == NL then line + 1 else line

/-- The column after one character:
`if (ch == '\n') column = 1; else column++`. -/
def advance_column (ch : Char) (column : Nat) : Nat :=
  if ch == NL then 1 else column + 1

/-- What an inner scanning loop leaves behind: the characters it stored in its
buffer, the input from the new `i` on, and the new `line` and `column`. -/
structure Scan where
  buf : List Char
  rest : List Char
  line : Nat
  column : Nat
  deriving DecidableEq, Repr

/-- The whitespace loop (`ws_idx` is the buffer index, bounded by 999). -/
def whitespace_loop : List Char → Nat → Nat → Nat → Scan
  | [], _, line, column => ⟨[], [], line, column⟩
  | c :: cs, ws_idx, line, column =>
    if isspace c && decide (ws_idx < 999) then
      let r := whitespace_loop cs (ws_idx + 1) (advance_line c line) (advance_column c column)
      ⟨c :: r.buf, r.rest, r.line, r.column⟩
    else ⟨[], c :: cs, line, column⟩

/-- The loop of a `//` comment: up to the newline, at most 999 characters. -/
def line_comment_loop : List Char → Nat → Nat → Nat → Scan
  | [], _, line, column => ⟨[], [], line, column⟩
  | c :: cs, comment_idx, line, column =>
    if c != NL && decide (comment_idx < 999) then
      let r := line_comment_loop cs (comment_idx + 1) line (column + 1)
      ⟨c :: r.buf, r.rest, r.line, r.column⟩
    else ⟨[], c :: cs, line, column⟩

/-- The loop of a block comment, entered after the opening `/*`: it runs
while two characters remain (`i < len - 1`) and `comment_idx < 1998`. -/
def block_comment_loop : List Char → Nat → Nat → Nat → Scan
  | a :: b :: cs, comment_idx, line, column =>
    if comment_idx < 1998 then
      if a == '*' && b == '/' then ⟨[a, b], cs, line, column + 2⟩
      else
        let r := block_comment_loop (b :: cs) (comment_idx + 1)
          (advance_line a line) (advance_column a column)
        ⟨a :: r.buf, r.rest, r.line, r.column⟩
    else ⟨[], a :: b :: cs, line, column⟩
  | rest, _, line, column => ⟨[], rest, line, column⟩

/-- The loop of a number: digits and dots, at most 99 characters. -/
def number_loop : List Char → Nat → Nat → Nat → Scan
  | [], _, line, column => ⟨[], [], line, column⟩
  | c :: cs, num_idx, line, column =>
    if (isdigit c || c == '.') && decide (num_idx < 99) then
      let r := number_loop cs (num_idx + 1) line (column + 1)
      ⟨c :: r.buf, r.rest, r.line, r.column⟩
    else ⟨[], c :: cs, line, column⟩

/-- The loop of an identifier: letters, digits and underscores, at most 255
characters. -/
def ident_loop : List Char → Nat → Nat → Nat → Scan
  | [], _, line, column => ⟨[], [], line, column⟩
  | c :: cs, ident_idx, line, column =>
    if (isalnum c || c == '_') && decide (ident_idx < 255) then
      let r := ident_loop cs (ident_idx + 1) line (column + 1)
      ⟨c :: r.buf, r.rest, r.line, r.column⟩
    else ⟨[], c :: cs, line, column⟩

/-- The loop of a string body, entered after the opening quote. A backslash
that has a successor is stored and, when the buffer has room, so is the
successor; either way the column grows by two. -/
def string_loop (quote : Char) : List Char → Nat → Nat → Nat → Scan
  | [], _, line, column => ⟨[], [], line, column⟩
  | c :: cs, str_idx, line, column =>
    if c != quote && decide (str_idx < 999) then
      match cs with
      | d :: ds =>
        if c == BSLASH then
          if str_idx + 1 < 999 then
            let r := string_loop quote ds (str_idx + 2) line (column + 2)
            ⟨c :: d :: r.buf, r.rest, r.line, r.column⟩
          else
            let r := string_loop quote (d :: ds) (str_idx + 1) line (column + 2)
            ⟨c :: r.buf, r.rest, r.line, r.column⟩
        else
          let r := string_loop quote (d :: ds) (str_idx + 1) line (column + 1)
          ⟨c :: r.buf, r.rest, r.line, r.column⟩
      | [] => ⟨[c], [], line, column + 1⟩
    else ⟨[], c :: cs, line, column⟩

/-- The operator loop: the first entry of the table, in table order, that the
remaining input starts with (`i + op_len <= len` and `strncmp` equal). -/
def find_operator : List (List Char) → List Char → Option (List Char)
  | [], _ => none
  | op :: ops, inp =>
    if decide (op.length ≤ inp.length) && inp.take op.length == op then some op
    else find_operator ops inp

/-- What one iteration of the `while` loop of `tokenize` does: the token it
adds, if any, the input from the new `i` on, and the new `line` and `column`. -/
structure StepOut where
  emit : Option Token
  rest : List Char
  line : Nat
  column : Nat
  deriving DecidableEq, Repr

/-! The branches of the loop body. Each takes the character `ch = input[i]`
and the input `rest` after it, the position `start_line`, `start_column` the
iteration started from, and the `line` and `column` already advanced over
`ch` by the tracking code at the top of the body. -/

/-- The whitespace branch. -/
def step_whitespace (tokenizer : Tokenizer) (ch : Char) (rest : List Char)
    (start_line start_column line column : Nat) : StepOut :=
  if tokenizer.options.include_whitespace then
    let r := whitespace_loop (ch :: rest) 0 line column
    ⟨some (create_token .TOKEN_WHITESPACE r.buf start_line start_column),
      r.rest, r.line, r.column⟩
  else ⟨none, rest, line, column⟩

/-- The branch of a `//` comment. -/
def step_line_comment (tokenizer : Tokenizer) (ch : Char) (rest : List Char)
    (start_line start_column line column : Nat) : StepOut :=
  let r := line_comment_loop (ch :: rest) 0 line column
  ⟨if tokenizer.options.include_comments then
      some (create_token .TOKEN_COMMENT r.buf start_line start_column)
    else none,
    r.rest, r.line, r.column⟩

/-- The branch of a block comment; `rest` starts with the `*` of the opening. -/
def step_block_comment (tokenizer : Tokenizer) (rest : List Char)
    (start_line start_column line column : Nat) : StepOut :=
  let r := block_comment_loop rest.tail 2 line (column + 2)
  ⟨if tokenizer.options.include_comments then
      some (create_token .TOKEN_COMMENT ('/' :: '*' :: r.buf) start_line start_column)
    else none,
    r.rest, r.line, r.column⟩

/-- The branch of a number. -/
def step_number (ch : Char) (rest : List Char)
    (start_line start_column line column : Nat) : StepOut :=
  let r := number_loop (ch :: rest) 0 line column
  ⟨some (create_token .TOKEN_NUMBER r.buf start_line start_column),
    r.rest, r.line, r.column⟩

/-- The branch of identifiers and keywords. -/
def step_ident (tokenizer : Tokenizer) (ch : Char) (rest : List Char)
    (start_line start_column line column : Nat) : StepOut :=
  let r := ident_loop (ch :: rest) 0 line column
  ⟨some (create_token
      (if is_keyword tokenizer r.buf then .TOKEN_KEYWORD else .TOKEN_IDENTIFIER)
      r.buf start_line start_column),
    r.rest, r.line, r.column⟩

/-- The branch of a string: the opening quote `ch` is skipped, the body is
scanned, and one more character is skipped when any is left. -/
def step_string (ch : Char) (rest : List Char)
    (start_line start_column line column : Nat) : StepOut :=
  let r := string_loop ch rest 0 line (column + 1)
  ⟨some (create_token .TOKEN_STRING r.buf start_line start_column),
    r.rest.tail, r.line, if r.rest.isEmpty then r.column else r.column + 1⟩

/-- The operator branch, for the operator `op` the operator loop found. -/
def step_operator (op : List Char) (ch : Char) (rest : List Char)
    (start_line start_column line column : Nat) : StepOut :=
  ⟨some (create_token .TOKEN_OPERATOR op start_line start_column),
    (ch :: rest).drop op.length, line, column + op.length⟩

/-- The delimiter branch. -/
def step_delimiter (ch : Char) (rest : List Char)
    (start_line start_column line column : Nat) : StepOut :=
  ⟨some (create_token .TOKEN_DELIMITER [ch] start_line start_column), rest, line, column⟩

/-- The branch of an unknown character. -/
def step_unknown (tokenizer : Tokenizer) (ch : Char) (rest : List Char)
    (start_line start_column line column : Nat) : StepOut :=
  ⟨if tokenizer.options.skip_unknown then none
    else some (create_token .TOKEN_IDENTIFIER [ch] start_line start_column),
    rest, line, column⟩

/-- One iteration of the `while (i < len)` loop of `tokenize`, at
`ch = input[i]` followed by `rest`, with the `line` and `column` the iteration
starts from: the position is advanced over `ch`, then the first branch whose
test holds runs. -/
def scan_step (tokenizer : Tokenizer) (ch : Char) (rest : List Char)
    (start_line start_column : Nat) : StepOut :=
  let line := advance_line ch start_line
  let column := advance_column ch start_column
  if isspace ch then
    step_whitespace tokenizer ch rest start_line start_column line column
  else if ch == '/' && rest.head? == some '/' then
    step_line_comment tokenizer ch rest start_line start_column line column
  else if ch == '/' && rest.head? == some '*' then
    step_block_comment tokenizer rest start_line start_column line column
  else if isdigit ch then
    step_number ch rest start_line start_column line column
  else if isalpha ch || ch == '_' then
    step_ident tokenizer ch rest start_line start_column line column
  else if ch == DQUOTE || ch == SQUOTE then
    step_string ch rest start_line start_column line column
  else
    match find_operator tokenizer.operators (ch :: rest) with
    | some op => step_operator op ch rest start_line start_column line column
    | none =>
      if is_delimiter tokenizer ch then
        step_delimiter ch rest start_line start_column line column
      else step_unknown tokenizer ch rest start_line start_column line column

/-- The `while (i < len)` loop of `tokenize` followed by the end-of-input
token, on the remaining input; `fuel` bounds the number of iterations and
`none` is a run that needs more. -/
def tokenize_loop (tokenizer : Tokenizer) : Nat → List Char → Nat → Nat → Option (List Token)
  | 0, _, _, _ => none
  | _ + 1, [], line, column => some [create_token .TOKEN_EOF [] line column]
  | fuel + 1, ch :: rest, line, column =>
    let r := scan_step tokenizer ch rest line column
    match tokenize_loop tokenizer fuel r.rest r.line r.column with
    | some ts => some (r.emit.toList ++ ts)
    | none => none

/-- `tokenize`, for a tokenizer and an input that are not `NULL`. An iteration
that consumes no character repeats forever, so a run that ends takes at most
`len` iterations: `none` is a run that never returns (see
`tokenize_loop_fuel`). -/
def tokenize (tokenizer : Tokenizer) (input : List Char) : Option (List Token) :=
  tokenize_loop tokenizer (input.length + 1) input 1 1

/-- `quick_tokenize`: `tokenize` with the tokenizer of `create_tokenizer(NULL)`. -/
def quick_tokenize (input : List Char) : Option (List Token) :=
  tokenize (create_tokenizer none) input


/-! ## Instrumented scan and the words of the specification -/

/-- The loop of `tokenize` with, next to every token, the index `i` at which
the iteration that adds it starts (`len` for the end-of-input token): `len` is
the length of the whole input, of which the loop holds the part from `i` on. -/
def tokenize_spans_loop (tokenizer : Tokenizer) (len : Nat) :
    Nat → List Char → Nat → Nat → Option (List (Nat × Token))
  | 0, _, _, _ => none
  | _ + 1, [], line, column => some [(len, create_token .TOKEN_EOF [] line column)]
  | fuel + 1, ch :: rest, line, column =>
    let r := scan_step tokenizer ch rest line column
    match tokenize_spans_loop tokenizer len fuel r.rest r.line r.column with
    | some ps => some (r.emit.toList.map (fun t => (len - (rest.length + 1), t)) ++ ps)
    | none => none

/-- `tokenize` with the start index of every token recorded next to it. -/
def tokenize_spans (tokenizer : Tokenizer) (input : List Char) : Option (List (Nat × Token)) :=
  tokenize_spans_loop tokenizer input.length (input.length + 1) input 1 1

/-- The position of the first token is before that of the second, in
lexicographic order of line and column. -/
def Token.before (a b : Token) : Prop :=
  a.line < b.line ∨ (a.line = b.line ∧ a.column < b.column)

/-- Follows the words of the specification: a string body in which, read left
to right with every backslash pairing with the character after it, no
unpaired `q` occurs and no backslash is left without a successor. -/
def escapes_paired (q : Char) : List Char → Bool
  | [] => true
  | [c] => c != BSLASH && c != q
  | c :: d :: ds =>
    if c == BSLASH then escapes_paired q ds else c != q && escapes_paired q (d :: ds)

/-- Follows the words of the specification: the column of the character at
offset `off`, that is 1 plus the number of characters between the start of its
line and it. -/
def start_column (input : List Char) (off : Nat) : Nat :=
  1 + ((input.take off).reverse.takeWhile (fun c => c != NL)).length

/-- Follows the words of the specification: the line of the character at
offset `off`, that is 1 plus the number of newlines before it. -/
def start_line (input : List Char) (off : Nat) : Nat :=
  1 + (input.take off).count NL

/-- The options that exclude nothing from the stream, with the built-in
tables. -/
def all_options : TokenizerOptions :=
  { default_options with
    include_whitespace := true
    include_comments := true
    skip_unknown := false }

/-- The built-in configuration with comments included. -/
def comment_options : TokenizerOptions :=
  { default_options with include_comments := true }

/-- The built-in configuration with whitespace included. -/
def whitespace_options : TokenizerOptions :=
  { default_options with include_whitespace := true }

/-- A configuration whose operator array holds the empty string only. -/
def empty_operator_options : TokenizerOptions :=
  { default_options with operators := some [[]], operators_count := 1 }

/-- A configuration whose operator array holds `+` and the empty string. -/
def plus_and_empty_operator_options : TokenizerOptions :=
  { default_options with operators := some ["+".toList, []], operators_count := 2 }

/-- Follows the words of the specification: a string body in which, read left
to right with every backslash pairing with the character after it, no
unpaired `q` occurs (a last backslash may stay unpaired). -/
def no_unpaired_quote (q : Char) : List Char → Bool
  | [] => true
  | [c] => c != q
  | c :: d :: ds =>
    if c == BSLASH then no_unpaired_quote q ds else c != q && no_unpaired_quote q (d :: ds)

/-- Follows the words of the specification: the run of whitespace characters
that starts the remaining input, cut to the 999 characters a whitespace token
can hold. -/
def whitespace_run (inp : List Char) : List Char :=
  (inp.takeWhile isspace).take 999

/-- Two tokens that follow one another in the stream, each with its start
index: when both are whitespace tokens, the first fills the whitespace buffer
(999 characters) or the second starts further in the input than where the
first ends (a comment or an unknown character was dropped between them). -/
def whitespace_split (p q : Nat × Token) : Prop :=
  p.2.type = .TOKEN_WHITESPACE → q.2.type = .TOKEN_WHITESPACE →
    p.2.value.length = 999 ∨ p.1 + p.2.value.length < q.1

/-! ## The syntax tree (`src/core/ast.c`)

A node is reached through a pointer, so the type of nodes has the value
`null` for the `NULL` pointer. The tag `node->type` is the constructor of the
node, the payload is the struct of that kind. A child array is the list of its
items. Nothing in `ast.c` stores anything but `NULL` in the `parent` field of a
node; it is kept as an opaque address. -/

/-- The enumeration `NodeType`. -/
inductive NodeType where
  | NODE_PROGRAM
  | NODE_IDENTIFIER
  | NODE_LITERAL
  | NODE_BINARY_EXPRESSION
  | NODE_UNARY_EXPRESSION
  | NODE_ASSIGNMENT_EXPRESSION
  | NODE_CALL_EXPRESSION
  | NODE_MEMBER_EXPRESSION
  | NODE_ARRAY_EXPRESSION
  | NODE_OBJECT_EXPRESSION
  | NODE_PROPERTY
  | NODE_CONDITIONAL_EXPRESSION
  | NODE_EXPRESSION_STATEMENT
  | NODE_VARIABLE_DECLARATION
  | NODE_VARIABLE_DECLARATOR
  | NODE_FUNCTION_DECLARATION
  | NODE_PARAMETER
  | NODE_BLOCK_STATEMENT
  | NODE_RETURN_STATEMENT
  | NODE_IF_STATEMENT
  | NODE_WHILE_STATEMENT
  | NODE_FOR_STATEMENT
  | NODE_BREAK_STATEMENT
  | NODE_CONTINUE_STATEMENT
  | NODE_THROW_STATEMENT
  | NODE_TRY_STATEMENT
  | NODE_CATCH_CLAUSE
  | NODE_SWITCH_STATEMENT
  | NODE_SWITCH_CASE
  deriving DecidableEq, Repr

/-- The enumeration `VariableKind`. -/
inductive VariableKind where
  | VAR_KIND_VAR
  | VAR_KIND_LET
  | VAR_KIND_CONST
  deriving DecidableEq, Repr

/-- The enumeration `SourceType`. -/
inductive SourceType where
  | SOURCE_SCRIPT
  | SOURCE_MODULE
  deriving DecidableEq, Repr

/-- The enumeration `LiteralType`. -/
inductive LiteralType where
  | LITERAL_STRING
  | LITERAL_NUMBER
  | LITERAL_BOOLEAN
  | LITERAL_NULL
  deriving DecidableEq, Repr

/-- A C `double`, held by its bit pattern: the code stores, copies and prints
such values and computes nothing with them. -/
structure Double where
  bits : Nat
  deriving DecidableEq, Repr

/-- The union `LiteralValue` together with the tag `literal_type` that says
which member is stored; `null_value` is the union left unset by
`create_literal_null`. -/
inductive LiteralValue where
  | string_value (s : List Char)
  | number_value (d : Double)
  | boolean_value (b : Bool)
  | null_value
  deriving DecidableEq, Repr

/-- The `literal_type` field of a literal. -/
def LiteralValue.literal_type : LiteralValue → LiteralType
  | .string_value _ => .LITERAL_STRING
  | .number_value _ => .LITERAL_NUMBER
  | .boolean_value _ => .LITERAL_BOOLEAN
  | .null_value => .LITERAL_NULL

/-- The fields of the struct `ASTNode` other than the tag `type`. -/
structure NodeBase where
  line : Int
  column : Int
  parent : Option Nat
  deriving DecidableEq, Repr

/-- A pointer to a node: `null`, or one of the node structs of `ast.c` with
its fields in declared order. Every child pointer is again such a pointer
(the C types `Expression*`, `Statement*`, `Identifier*` and so on are all
read through `ASTNode*`). -/
inductive ASTNode where
  | null
  | program (base : NodeBase) (body : List ASTNode) (source_type : SourceType)
  | identifier (base : NodeBase) (name : List Char)
  | literal (base : NodeBase) (value : LiteralValue) (raw : Option (List Char))
  | binary_expression (base : NodeBase) (operator : List Char) (left right : ASTNode)
  | unary_expression (base : NodeBase) (operator : List Char) (argument : ASTNode)
  | assignment_expression (base : NodeBase) (operator : List Char) (left right : ASTNode)
  | call_expression (base : NodeBase) (callee : ASTNode) (arguments : List ASTNode)
  | member_expression (base : NodeBase) (object property : ASTNode) (computed : Bool)
  | array_expression (base : NodeBase) (elements : List ASTNode)
  | object_expression (base : NodeBase) (properties : List ASTNode)
  | property (base : NodeBase) (key value : ASTNode)
  | conditional_expression (base : NodeBase) (test consequent alternate : ASTNode)
  | expression_statement (base : NodeBase) (expression : ASTNode)
  | variable_declaration (base : NodeBase) (declarations : List ASTNode) (kind : VariableKind)
  | variable_declarator (base : NodeBase) (id init : ASTNode)
  | function_declaration (base : NodeBase) (id : ASTNode) (params : List ASTNode)
      (body : ASTNode) (return_type : Option (List Char))
  | parameter (base : NodeBase) (name : ASTNode) (param_type : Option (List Char))
      (default_value : ASTNode)
  | block_statement (base : NodeBase) (body : List ASTNode)
  | return_statement (base : NodeBase) (argument : ASTNode)
  | if_statement (base : NodeBase) (test consequent alternate : ASTNode)
  | while_statement (base : NodeBase) (test body : ASTNode)
  | for_statement (base : NodeBase) (init test update body : ASTNode)
  | break_statement (base : NodeBase) (label : ASTNode)
  | continue_statement (base : NodeBase) (label : ASTNode)
  | throw_statement (base : NodeBase) (argument : ASTNode)
  | try_statement (base : NodeBase) (block handler finalizer : ASTNode)
  | catch_clause (base : NodeBase) (param body : ASTNode)
  | switch_statement (base : NodeBase) (discriminant : ASTNode) (cases : List ASTNode)
  | switch_case (base : NodeBase) (test : ASTNode) (consequent : List ASTNode)
  deriving Repr

/-- The test `if (node)` on a pointer. -/
def ASTNode.is_null : ASTNode → Bool
  | .null => true
  | _ => false

/-- The tag `node->type`; the `NULL` pointer has none. -/
def node_type : ASTNode → Option NodeType
  | .null => none
  | .program .. => some .NODE_PROGRAM
  | .identifier .. => some .NODE_IDENTIFIER
  | .literal .. => some .NODE_LITERAL
  | .binary_expression .. => some .NODE_BINARY_EXPRESSION
  | .unary_expression .. => some .NODE_UNARY_EXPRESSION
  | .assignment_expression .. => some .NODE_ASSIGNMENT_EXPRESSION
  | .call_expression .. => some .NODE_CALL_EXPRESSION
  | .member_expression .. => some .NODE_MEMBER_EXPRESSION
  | .array_expression .. => some .NODE_ARRAY_EXPRESSION
  | .object_expression .. => some .NODE_OBJECT_EXPRESSION
  | .property .. => some .NODE_PROPERTY
  | .conditional_expression .. => some .NODE_CONDITIONAL_EXPRESSION
  | .expression_statement .. => some .NODE_EXPRESSION_STATEMENT
  | .variable_declaration .. => some .NODE_VARIABLE_DECLARATION
  | .variable_declarator .. => some .NODE_VARIABLE_DECLARATOR
  | .function_declaration .. => some .NODE_FUNCTION_DECLARATION
  | .parameter .. => some .NODE_PARAMETER
  | .block_statement .. => some .NODE_BLOCK_STATEMENT
  | .return_statement .. => some .NODE_RETURN_STATEMENT
  | .if_statement .. => some .NODE_IF_STATEMENT
  | .while_statement .. => some .NODE_WHILE_STATEMENT
  | .for_statement .. => some .NODE_FOR_STATEMENT
  | .break_statement .. => some .NODE_BREAK_STATEMENT
  | .continue_statement .. => some .NODE_CONTINUE_STATEMENT
  | .throw_statement .. => some .NODE_THROW_STATEMENT
  | .try_statement .. => some .NODE_TRY_STATEMENT
  | .catch_clause .. => some .NODE_CATCH_CLAUSE
  | .switch_statement .. => some .NODE_SWITCH_STATEMENT
  | .switch_case .. => some .NODE_SWITCH_CASE

/-- The header of a node (its `base` field); `none` for the `NULL` pointer. -/
def node_base : ASTNode → Option NodeBase
  | .null => none
  | .program b .. => some b
  | .identifier b .. => some b
  | .literal b .. => some b
  | .binary_expression b .. => some b
  | .unary_expression b .. => some b
  | .assignment_expression b .. => some b
  | .call_expression b .. => some b
  | .member_expression b .. => some b
  | .array_expression b .. => some b
  | .object_expression b .. => some b
  | .property b .. => some b
  | .conditional_expression b .. => some b
  | .expression_statement b .. => some b
  | .variable_declaration b .. => some b
  | .variable_declarator b .. => some b
  | .function_declaration b .. => some b
  | .parameter b .. => some b
  | .block_statement b .. => some b
  | .return_statement b .. => some b
  | .if_statement b .. => some b
  | .while_statement b .. => some b
  | .for_statement b .. => some b
  | .break_statement b .. => some b
  | .continue_statement b .. => some b
  | .throw_statement b .. => some b
  | .try_statement b .. => some b
  | .catch_clause b .. => some b
  | .switch_statement b .. => some b
  | .switch_case b .. => some b

/-! ### Dynamic arrays -/

/-- The struct `Array` (renamed, `Array` being a type of Lean): the items
stored so far, whose number is the field `count`, and the capacity. -/
structure CArray (α : Type) where
  items : List α
  capacity : Nat
  deriving Repr

/-- The field `count` of an array. -/
def CArray.count {α : Type} (arr : CArray α) : Nat :=
  arr.items.length

/-- `array_create`. -/
def array_create {α : Type} (initial_capacity : Nat) : CArray α :=
  { items := [], capacity := initial_capacity }

/-- `array_push`: the capacity is doubled when the array is full, then the
item is stored at index `count`. The store is modelled as an append whether
or not the index lies inside the allocation. -/
def array_push {α : Type} (arr : CArray α) (item : α) : CArray α :=
  { items := arr.items ++ [item]
    capacity := if arr.count ≥ arr.capacity then arr.capacity * 2 else arr.capacity }

/-! ### Node constructors -/

/-- The header every constructor writes: the position, and `NULL` for the
parent. -/
def new_base (line column : Int) : NodeBase :=
  { line := line, column := column, parent := none }

/-- `create_identifier`. -/
def create_identifier (name : List Char) (line column : Int) : ASTNode :=
  .identifier (new_base line column) name

/-- `create_literal_string`; `raw` is `none` for `NULL`. -/
def create_literal_string (value : List Char) (raw : Option (List Char))
    (line column : Int) : ASTNode :=
  .literal (new_base line column) (.string_value value) raw

/-- `create_literal_number`. -/
def create_literal_number (value : Double) (raw : Option (List Char))
    (line column : Int) : ASTNode :=
  .literal (new_base line column) (.number_value value) raw

/-- `create_literal_boolean`. -/
def create_literal_boolean (value : Bool) (raw : Option (List Char))
    (line column : Int) : ASTNode :=
  .literal (new_base line column) (.boolean_value value) raw

/-- `create_literal_null`. -/
def create_literal_null (raw : Option (List Char)) (line column : Int) : ASTNode :=
  .literal (new_base line column) .null_value raw

/-- `create_binary_expression`. -/
def create_binary_expression (operator : List Char) (left right : ASTNode)
    (line column : Int) : ASTNode :=
  .binary_expression (new_base line column) operator left right

/-- `create_unary_expression`. -/
def create_unary_expression (operator : List Char) (argument : ASTNode)
    (line column : Int) : ASTNode :=
  .unary_expression (new_base line column) operator argument

/-- `create_call_expression`. -/
def create_call_expression (callee : ASTNode) (arguments : CArray ASTNode)
    (line column : Int) : ASTNode :=
  .call_expression (new_base line column) callee arguments.items

/-- `create_variable_declarator`. -/
def create_variable_declarator (id init : ASTNode) (line column : Int) : ASTNode :=
  .variable_declarator (new_base line column) id init

/-- `create_variable_declaration`. -/
def create_variable_declaration (declarations : CArray ASTNode) (kind : VariableKind)
    (line column : Int) : ASTNode :=
  .variable_declaration (new_base line column) declarations.items kind

/-- `create_parameter`; `param_type` is `none` for `NULL`. -/
def create_parameter (name : ASTNode) (param_type : Option (List Char))
    (default_value : ASTNode) (line column : Int) : ASTNode :=
  .parameter (new_base line column) name param_type default_value

/-- `create_block_statement`. -/
def create_block_statement (body : CArray ASTNode) (line column : Int) : ASTNode :=
  .block_statement (new_base line column) body.items

/-- `create_function_declaration`; `return_type` is `none` for `NULL`. -/
def create_function_declaration (id : ASTNode) (params : CArray ASTNode) (body : ASTNode)
    (return_type : Option (List Char)) (line column : Int) : ASTNode :=
  .function_declaration (new_base line column) id params.items body return_type

/-- `create_return_statement`. -/
def create_return_statement (argument : ASTNode) (line column : Int) : ASTNode :=
  .return_statement (new_base line column) argument

/-- `create_program`. -/
def create_program (body : CArray ASTNode) (source_type : SourceType)
    (line column : Int) : ASTNode :=
  .program (new_base line column) body.items source_type

/-! ### Traversal -/

/-- The type `VisitorFunc`: a callback on a node, its parent and the visitor's
data, which it may change. -/
abbrev VisitorFunc (σ : Type) := ASTNode → ASTNode → σ → σ

/-- The guarded call `if (f) f(node, parent, data)`; `none` is the `NULL`
callback. -/
def call_visitor {σ : Type} (f : Option (VisitorFunc σ)) (node parent : ASTNode) (data : σ) : σ :=
  match f with
  | some f => f node parent data
  | none => data

mutual
/-- `traverse_ast_with_parent`: nothing on `NULL`; otherwise `enter`, then the
children the `switch` names for the kind of the node, then `exit`. -/
def traverse_ast_with_parent {σ : Type} (enter exit : Option (VisitorFunc σ)) :
    ASTNode → ASTNode → σ → σ
  | .null, _, data => data
  | node@(.binary_expression _ _ left right), parent, data =>
    let data := call_visitor enter node parent data
    let data := traverse_ast_with_parent enter exit left node data
    let data := traverse_ast_with_parent enter exit right node data
    call_visitor exit node parent data
  | node@(.unary_expression _ _ argument), parent, data =>
    let data := call_visitor enter node parent data
    let data := traverse_ast_with_parent enter exit argument node data
    call_visitor exit node parent data
  | node@(.call_expression _ callee arguments), parent, data =>
    let data := call_visitor enter node parent data
    let data := traverse_ast_with_parent enter exit callee node data
    let data := traverse_items enter exit arguments node data
    call_visitor exit node parent data
  | node@(.variable_declaration _ declarations _), parent, data =>
    let data := call_visitor enter node parent data
    let data := traverse_items enter exit declarations node data
    call_visitor exit node parent data
  | node@(.variable_declarator _ id init), parent, data =>
    let data := call_visitor enter node parent data
    let data := traverse_ast_with_parent enter exit id node data
    let data := if init.is_null then data
      else traverse_ast_with_parent enter exit init node data
    call_visitor exit node parent data
  | node@(.function_declaration _ id params body _), parent, data =>
    let data := call_visitor enter node parent data
    let data := traverse_ast_with_parent enter exit id node data
    let data := traverse_items enter exit params node data
    let data := traverse_ast_with_parent enter exit body node data
    call_visitor exit node parent data
  | node@(.parameter _ name _ default_value), parent, data =>
    let data := call_visitor enter node parent data
    let data := traverse_ast_with_parent enter exit name node data
    let data := if default_value.is_null then data
      else traverse_ast_with_parent enter exit default_value node data
    call_visitor exit node parent data
  | node@(.block_statement _ body), parent, data =>
    let data := call_visitor enter node parent data
    let data := traverse_items enter exit body node data
    call_visitor exit node parent data
  | node@(.return_statement _ argument), parent, data =>
    let data := call_visitor enter node parent data
    let data := if argument.is_null then data
      else traverse_ast_with_parent enter exit argument node data
    call_visitor exit node parent data
  | node@(.program _ body _), parent, data =>
    let data := call_visitor enter node parent data
    let data := traverse_items enter exit body node data
    call_visitor exit node parent data
  | node@(.if_statement _ test consequent alternate), parent, data =>
    let data := call_visitor enter node parent data
    let data := traverse_ast_with_parent enter exit test node data
    let data := traverse_ast_with_parent enter exit consequent node data
    let data := if alternate.is_null then data
      else traverse_ast_with_parent enter exit alternate node data
    call_visitor exit node parent data
  | node@(.while_statement _ test body), parent, data =>
    let data := call_visitor enter node parent data
    let data := traverse_ast_with_parent enter exit test node data
    let data := traverse_ast_with_parent enter exit body node data
    call_visitor exit node parent data
  | node@(.array_expression _ elements), parent, data =>
    let data := call_visitor enter node parent data
    let data := traverse_items enter exit elements node data
    call_visitor exit node parent data
  | node@(.object_expression _ properties), parent, data =>
    let data := call_visitor enter node parent data
    let data := traverse_items enter exit properties node data
    call_visitor exit node parent data
  | node@(.property _ key value), parent, data =>
    let data := call_visitor enter node parent data
    let data := traverse_ast_with_parent enter exit key node data
    let data := traverse_ast_with_parent enter exit value node data
    call_visitor exit node parent data
  | node, parent, data =>
    let data := call_visitor enter node parent data
    call_visitor exit node parent data
/-- The loop `for (i = 0; i < count; i++) traverse_ast_with_parent(items[i], node, ...)`
over a child array. -/
def traverse_items {σ : Type} (enter exit : Option (VisitorFunc σ)) :
    List ASTNode → ASTNode → σ → σ
  | [], _, data => data
  | item :: items, parent, data =>
    traverse_items enter exit items parent (traverse_ast_with_parent enter exit item parent data)
end

/-- `traverse_ast`: the traversal with a `NULL` parent for the root. -/
def traverse_ast {σ : Type} (node : ASTNode) (enter exit : Option (VisitorFunc σ)) (data : σ) : σ :=
  traverse_ast_with_parent enter exit node .null data

/-- The struct `FindNodesData`. -/
structure FindNodesData where
  target_type : NodeType
  results : CArray ASTNode

/-- `find_nodes_visitor`. -/
def find_nodes_visitor (node _parent : ASTNode) (data : FindNodesData) : FindNodesData :=
  if node_type node = some data.target_type then
    { data with results := array_push data.results node }
  else data

/-- `find_nodes_by_type`. -/
def find_nodes_by_type (root : ASTNode) (type : NodeType) : CArray ASTNode :=
  (traverse_ast root (some find_nodes_visitor) none
    { target_type := type, results := array_create 10 }).results

/-! ### Cloning -/

/-- `clone_ast_node`: identifiers, literals and binary expressions are rebuilt
with their constructors; `NULL` and every other kind give `NULL`. -/
def clone_ast_node : ASTNode → ASTNode
  | .identifier base name => create_identifier name base.line base.column
  | .literal base (.string_value s) raw => create_literal_string s raw base.line base.column
  | .literal base (.number_value d) raw => create_literal_number d raw base.line base.column
  | .literal base (.boolean_value b) raw => create_literal_boolean b raw base.line base.column
  | .literal base .null_value raw => create_literal_null raw base.line base.column
  | .binary_expression base operator left right =>
    create_binary_expression operator (clone_ast_node left) (clone_ast_node right)
      base.line base.column
  | _ => .null

/-! ### The demonstration tree -/

/-- The variable declaration `let x = 42;` of `demonstrate_ast`. -/
def demo_var_decl : ASTNode :=
  let x_id := create_identifier "x".toList 1 1
  let num_42 := create_literal_number ⟨0x4045000000000000⟩ (some "42".toList) 1 7
  let x_declarator := create_variable_declarator x_id num_42 1 5
  let var_declarations := array_push (array_create 1) x_declarator
  create_variable_declaration var_declarations .VAR_KIND_LET 1 1

/-- The function declaration `fn add(a, b) { return a + b; }` of
`demonstrate_ast`. -/
def demo_func_decl : ASTNode :=
  let a_id := create_identifier "a".toList 3 15
  let b_id := create_identifier "b".toList 3 25
  let add_id := create_identifier "add".toList 3 10
  let param_a := create_parameter a_id (some "number".toList) .null 3 15
  let param_b := create_parameter b_id (some "number".toList) .null 3 25
  let func_params := array_push (array_push (array_create 2) param_a) param_b
  let a_ref := create_identifier "a".toList 4 12
  let b_ref := create_identifier "b".toList 4 16
  let add_expr := create_binary_expression "+".toList a_ref b_ref 4 14
  let return_stmt := create_return_statement add_expr 4 5
  let func_body := array_push (array_create 1) return_stmt
  let block := create_block_statement func_body 3 35
  create_function_declaration add_id func_params block (some "number".toList) 3 1

/-- The program `demonstrate_ast` builds. -/
def demo_program : ASTNode :=
  let program_body := array_push (array_push (array_create 2) demo_var_decl) demo_func_decl
  create_program program_body .SOURCE_SCRIPT 0 0

/-! ### The words of the specification about trees -/

/-- Follows the words of the specification: the children of a node, that is
the contents of the child pointers and child arrays of its struct, in
declared order (absent children included). -/
def children : ASTNode → List ASTNode
  | .null => []
  | .program _ body _ => body
  | .identifier _ _ => []
  | .literal _ _ _ => []
  | .binary_expression _ _ left right => [left, right]
  | .unary_expression _ _ argument => [argument]
  | .assignment_expression _ _ left right => [left, right]
  | .call_expression _ callee arguments => callee :: arguments
  | .member_expression _ object property _ => [object, property]
  | .array_expression _ elements => elements
  | .object_expression _ properties => properties
  | .property _ key value => [key, value]
  | .conditional_expression _ test consequent alternate => [test, consequent, alternate]
  | .expression_statement _ expression => [expression]
  | .variable_declaration _ declarations _ => declarations
  | .variable_declarator _ id init => [id, init]
  | .function_declaration _ id params body _ => id :: (params ++ [body])
  | .parameter _ name _ default_value => [name, default_value]
  | .block_statement _ body => body
  | .return_statement _ argument => [argument]
  | .if_statement _ test consequent alternate => [test, consequent, alternate]
  | .while_statement _ test body => [test, body]
  | .for_statement _ init test update body => [init, test, update, body]
  | .break_statement _ label => [label]
  | .continue_statement _ label => [label]
  | .throw_statement _ argument => [argument]
  | .try_statement _ block handler finalizer => [block, handler, finalizer]
  | .catch_clause _ param body => [param, body]
  | .switch_statement _ discriminant cases => discriminant :: cases
  | .switch_case _ test consequent => test :: consequent

mutual
/-- The fold of a tree: `z` for an absent node, and for a node the value `f`
gives from the node and from the folds of its children, in the order of
`children`. -/
def tree_fold {β : Type} (z : β) (f : ASTNode → List β → β) : ASTNode → β
  | .null => z
  | n@(.program _ body _) => f n (tree_fold_list z f body)
  | n@(.identifier _ _) => f n []
  | n@(.literal _ _ _) => f n []
  | n@(.binary_expression _ _ left right) => f n [tree_fold z f left, tree_fold z f right]
  | n@(.unary_expression _ _ argument) => f n [tree_fold z f argument]
  | n@(.assignment_expression _ _ left right) => f n [tree_fold z f left, tree_fold z f right]
  | n@(.call_expression _ callee arguments) =>
    f n (tree_fold z f callee :: tree_fold_list z f arguments)
  | n@(.member_expression _ object property _) =>
    f n [tree_fold z f object, tree_fold z f property]
  | n@(.array_expression _ elements) => f n (tree_fold_list z f elements)
  | n@(.object_expression _ properties) => f n (tree_fold_list z f properties)
  | n@(.property _ key value) => f n [tree_fold z f key, tree_fold z f value]
  | n@(.conditional_expression _ test consequent alternate) =>
    f n [tree_fold z f test, tree_fold z f consequent, tree_fold z f alternate]
  | n@(.expression_statement _ expression) => f n [tree_fold z f expression]
  | n@(.variable_declaration _ declarations _) => f n (tree_fold_list z f declarations)
  | n@(.variable_declarator _ id init) => f n [tree_fold z f id, tree_fold z f init]
  | n@(.function_declaration _ id params body _) =>
    f n (tree_fold z f id :: (tree_fold_list z f params ++ [tree_fold z f body]))
  | n@(.parameter _ name _ default_value) =>
    f n [tree_fold z f name, tree_fold z f default_value]
  | n@(.block_statement _ body) => f n (tree_fold_list z f body)
  | n@(.return_statement _ argument) => f n [tree_fold z f argument]
  | n@(.if_statement _ test consequent alternate) =>
    f n [tree_fold z f test, tree_fold z f consequent, tree_fold z f alternate]
  | n@(.while_statement _ test body) => f n [tree_fold z f test, tree_fold z f body]
  | n@(.for_statement _ init test update body) =>
    f n [tree_fold z f init, tree_fold z f test, tree_fold z f update, tree_fold z f body]
  | n@(.break_statement _ label) => f n [tree_fold z f label]
  | n@(.continue_statement _ label) => f n [tree_fold z f label]
  | n@(.throw_statement _ argument) => f n [tree_fold z f argument]
  | n@(.try_statement _ block handler finalizer) =>
    f n [tree_fold z f block, tree_fold z f handler, tree_fold z f finalizer]
  | n@(.catch_clause _ param body) => f n [tree_fold z f param, tree_fold z f body]
  | n@(.switch_statement _ discriminant cases) =>
    f n (tree_fold z f discriminant :: tree_fold_list z f cases)
  | n@(.switch_case _ test consequent) =>
    f n (tree_fold z f test :: tree_fold_list z f consequent)
/-- The folds of the items of a child array. -/
def tree_fold_list {β : Type} (z : β) (f : ASTNode → List β → β) : List ASTNode → List β
  | [] => []
  | c :: cs => tree_fold z f c :: tree_fold_list z f cs
end

/-- Follows the words of the specification: the nodes of a tree in pre-order,
each node before its children and the children left to right; an absent node
contributes nothing. -/
def preorder (root : ASTNode) : List ASTNode :=
  tree_fold [] (fun n below => n :: below.flatten) root

/-- The children the `switch` of `traverse_ast_with_parent` hands to the
recursive call for a node, in the order of the calls. -/
def traversed : ASTNode → List ASTNode
  | .binary_expression _ _ left right => [left, right]
  | .unary_expression _ _ argument => [argument]
  | .call_expression _ callee arguments => callee :: arguments
  | .variable_declaration _ declarations _ => declarations
  | .variable_declarator _ id init => [id, init]
  | .function_declaration _ id params body _ => id :: (params ++ [body])
  | .parameter _ name _ default_value => [name, default_value]
  | .block_statement _ body => body
  | .return_statement _ argument => [argument]
  | .program _ body _ => body
  | .if_statement _ test consequent alternate => [test, consequent, alternate]
  | .while_statement _ test body => [test, body]
  | .array_expression _ elements => elements
  | .object_expression _ properties => properties
  | .property _ key value => [key, value]
  | _ => []

/-- A call of a visitor: `enter` or `exit`, on a node, with the parent
passed. -/
inductive Event where
  | enter (node parent : ASTNode)
  | exit (node parent : ASTNode)
  deriving Repr

/-- A visitor that writes its call at the end of a log. -/
def record_enter : VisitorFunc (List Event) :=
  fun node parent log => log ++ [Event.enter node parent]

/-- A visitor that writes its call at the end of a log. -/
def record_exit : VisitorFunc (List Event) :=
  fun node parent log => log ++ [Event.exit node parent]

/-- The calls `traverse_ast_with_parent` makes on a node, in order: the log
the two recording visitors leave. -/
def trace (node parent : ASTNode) : List Event :=
  traverse_ast_with_parent (some record_enter) (some record_exit) node parent []

/-- The nodes of the `enter` calls of a log, in order. -/
def entered : List Event → List ASTNode
  | [] => []
  | .enter node _ :: log => node :: entered log
  | .exit _ _ :: log => entered log

/-- The nodes of the `exit` calls of a log, in order. -/
def exited : List Event → List ASTNode
  | [] => []
  | .enter _ _ :: log => exited log
  | .exit node _ :: log => node :: exited log

/-- The effect on the data of making the calls of a log, in order, with the
given callbacks. -/
def run_events {σ : Type} (enter exit : Option (VisitorFunc σ)) : List Event → σ → σ
  | [], data => data
  | .enter node parent :: log, data =>
    run_events enter exit log (call_visitor enter node parent data)
  | .exit node parent :: log, data =>
    run_events enter exit log (call_visitor exit node parent data)

/-- The kinds for which `ast.c` has a constructor. -/
def has_constructor : NodeType → Bool
  | .NODE_PROGRAM | .NODE_IDENTIFIER | .NODE_LITERAL | .NODE_BINARY_EXPRESSION
  | .NODE_UNARY_EXPRESSION | .NODE_CALL_EXPRESSION | .NODE_VARIABLE_DECLARATION
  | .NODE_VARIABLE_DECLARATOR | .NODE_FUNCTION_DECLARATION | .NODE_PARAMETER
  | .NODE_BLOCK_STATEMENT | .NODE_RETURN_STATEMENT => true
  | _ => false

/-- The kinds the traversal covers: those its `switch` has a case for, and
identifiers and literals, which have no children. -/
def traversal_kind : NodeType → Bool
  | .NODE_PROGRAM | .NODE_IDENTIFIER | .NODE_LITERAL | .NODE_BINARY_EXPRESSION
  | .NODE_UNARY_EXPRESSION | .NODE_CALL_EXPRESSION | .NODE_ARRAY_EXPRESSION
  | .NODE_OBJECT_EXPRESSION | .NODE_PROPERTY | .NODE_VARIABLE_DECLARATION
  | .NODE_VARIABLE_DECLARATOR | .NODE_FUNCTION_DECLARATION | .NODE_PARAMETER
  | .NODE_BLOCK_STATEMENT | .NODE_RETURN_STATEMENT | .NODE_IF_STATEMENT
  | .NODE_WHILE_STATEMENT => true
  | _ => false

/-- The kinds `clone_ast_node` has a case for. -/
def clone_kind : NodeType → Bool
  | .NODE_IDENTIFIER | .NODE_LITERAL | .NODE_BINARY_EXPRESSION => true
  | _ => false

/-- Every node of the tree, the root included, is of one of the given kinds. -/
def all_kinds (kinds : NodeType → Bool) (root : ASTNode) : Bool :=
  (preorder root).all fun n =>
    match node_type n with
    | some k => kinds k
    | none => true

/-- Every node of the tree has the `NULL` parent field the constructors
write. -/
def parents_absent (root : ASTNode) : Bool :=
  (preorder root).all fun n =>
    match node_base n with
    | some b => b.parent.isNone
    | none => true


/-- An assignment `x = 1`: the struct `AssignmentExpression` filled in field
by field, `ast.c` having no constructor for it. -/
def assignment_example : ASTNode :=
  .assignment_expression (new_base 1 1) "=".toList
    (create_identifier "x".toList 1 1)
    (create_literal_number ⟨0x3FF0000000000000⟩ (some "1".toList) 1 5)

/-- The negation `-x`, built with the constructors. -/
def negation_example : ASTNode :=
  create_unary_expression "-".toList (create_identifier "x".toList 1 2) 1 1

/-- The sum `a + -x`, built with the constructors. -/
def sum_example : ASTNode :=
  create_binary_expression "+".toList (create_identifier "a".toList 1 1) negation_example 1 3

/-! ## Text output of `ast.c`

What the printing functions write to standard output is modelled as the text
written, a list of characters. The conversions `%d` and `%g` of `printf` are
modelled for the C locale, `%g` for IEEE 754 binary64 values with correct
rounding (ties to even) and the spellings `inf`, `nan` and `-nan`. -/

/-- The opening brace. -/
abbrev LBRACE : Char := Char.ofNat 123

/-- The closing brace. -/
abbrev RBRACE : Char := Char.ofNat 125

/-- The opening bracket. -/
abbrev LBRACKET : Char := Char.ofNat 91

/-- The closing bracket. -/
abbrev RBRACKET : Char := Char.ofNat 93

/-- The decimal digit of a number below ten. -/
def digit_char (n : Nat) : Char :=
  Char.ofNat (48 + n % 10)

/-- The decimal digits of `n` put before `acc`, most significant first. -/
def digits_loop : Nat → Nat → List Char → List Char
  | 0, _, acc => acc
  | fuel + 1, n, acc =>
    if n < 10 then digit_char n :: acc
    else digits_loop fuel (n / 10) (digit_char n :: acc)

/-- The conversion `%u`: the decimal digits of a natural number. -/
def format_u (n : Nat) : List Char :=
  digits_loop (n + 1) n []

/-- The conversion `%d`. -/
def format_d (i : Int) : List Char :=
  if i < 0 then '-' :: format_u (-i).toNat else format_u i.toNat

/-- A text without the zeros at its end. -/
def strip_zeros (digits : List Char) : List Char :=
  (digits.reverse.dropWhile fun c => c == '0').reverse

/-- A decimal point and the digits after it, trailing zeros removed; nothing
when no digit is left. -/
def fraction_part (digits : List Char) : List Char :=
  if strip_zeros digits = [] then [] else '.' :: strip_zeros digits

/-- For `0 < num < den`: the least `k ≥ 1` with `num * 10 ^ k ≥ den`. -/
def small_exponent : Nat → Nat → Nat → Nat
  | 0, _, _ => 0
  | fuel + 1, num, den =>
    if num * 10 ≥ den then 1 else 1 + small_exponent fuel (num * 10) den

/-- The decimal exponent of the positive value `num / den`: the `x` with
`10 ^ x ≤ num / den < 10 ^ (x + 1)`. -/
def decimal_exponent (num den : Nat) : Int :=
  if num ≥ den then ((format_u (num / den)).length : Int) - 1
  else - (small_exponent 400 num den : Int)

/-- The quotient `num / den` rounded to the nearest integer, ties to even. -/
def round_half_even (num den : Nat) : Nat :=
  let q := num / den
  let r := num % den
  if 2 * r > den ∨ (2 * r = den ∧ q % 2 = 1) then q + 1 else q

/-- The positive value `num / den` rounded to six significant digits: the six
digits as a number and the decimal exponent of the rounded value. -/
def six_digits (num den : Nat) : Nat × Int :=
  let x := decimal_exponent num den
  let q := if 5 - x ≥ 0 then round_half_even (num * 10 ^ (5 - x).toNat) den
    else round_half_even num (den * 10 ^ (x - 5).toNat)
  if q ≥ 1000000 then (100000, x + 1) else (q, x)

/-- The exponent part of the style `e`: sign and at least two digits. -/
def exponent_part (x : Int) : List Char :=
  let digits := format_u x.natAbs
  'e' :: (if x < 0 then '-' else '+') :: (if digits.length < 2 then '0' :: digits else digits)

/-- The conversion `%g` for a positive finite value `num / den`. -/
def format_g_positive (num den : Nat) : List Char :=
  let (q, x) := six_digits num den
  let digits := format_u q
  if x < -4 ∨ x ≥ 6 then
    digits.take 1 ++ fraction_part (digits.drop 1) ++ exponent_part x
  else if x ≥ 0 then
    digits.take (x.toNat + 1) ++ fraction_part (digits.drop (x.toNat + 1))
  else
    '0' :: fraction_part (List.replicate ((-x).toNat - 1) '0' ++ digits)

/-- The conversion `%g` (precision six, no flags) of a `double`. -/
def format_g (d : Double) : List Char :=
  let bits := d.bits % 2 ^ 64
  let sign := if bits / 2 ^ 63 = 1 then ['-'] else []
  let exponent := bits / 2 ^ 52 % 2048
  let fraction := bits % 2 ^ 52
  if exponent = 2047 then
    sign ++ (if fraction = 0 then ['i', 'n', 'f'] else ['n', 'a', 'n'])
  else if exponent = 0 then
    if fraction = 0 then sign ++ ['0'] else sign ++ format_g_positive fraction (2 ^ 1074)
  else if exponent ≥ 1075 then
    sign ++ format_g_positive ((2 ^ 52 + fraction) * 2 ^ (exponent - 1075)) 1
  else
    sign ++ format_g_positive (2 ^ 52 + fraction) (2 ^ (1075 - exponent))

/-- `node_type_to_string`. -/
def node_type_to_string : NodeType → List Char
  | .NODE_PROGRAM => "Program".toList
  | .NODE_IDENTIFIER => "Identifier".toList
  | .NODE_LITERAL => "Literal".toList
  | .NODE_BINARY_EXPRESSION => "BinaryExpression".toList
  | .NODE_UNARY_EXPRESSION => "UnaryExpression".toList
  | .NODE_ASSIGNMENT_EXPRESSION => "AssignmentExpression".toList
  | .NODE_CALL_EXPRESSION => "CallExpression".toList
  | .NODE_MEMBER_EXPRESSION => "MemberExpression".toList
  | .NODE_ARRAY_EXPRESSION => "ArrayExpression".toList
  | .NODE_OBJECT_EXPRESSION => "ObjectExpression".toList
  | .NODE_PROPERTY => "Property".toList
  | .NODE_CONDITIONAL_EXPRESSION => "ConditionalExpression".toList
  | .NODE_EXPRESSION_STATEMENT => "ExpressionStatement".toList
  | .NODE_VARIABLE_DECLARATION => "VariableDeclaration".toList
  | .NODE_VARIABLE_DECLARATOR => "VariableDeclarator".toList
  | .NODE_FUNCTION_DECLARATION => "FunctionDeclaration".toList
  | .NODE_PARAMETER => "Parameter".toList
  | .NODE_BLOCK_STATEMENT => "BlockStatement".toList
  | .NODE_RETURN_STATEMENT => "ReturnStatement".toList
  | .NODE_IF_STATEMENT => "IfStatement".toList
  | .NODE_WHILE_STATEMENT => "WhileStatement".toList
  | .NODE_FOR_STATEMENT => "ForStatement".toList
  | .NODE_BREAK_STATEMENT => "BreakStatement".toList
  | .NODE_CONTINUE_STATEMENT => "ContinueStatement".toList
  | .NODE_THROW_STATEMENT => "ThrowStatement".toList
  | .NODE_TRY_STATEMENT => "TryStatement".toList
  | .NODE_CATCH_CLAUSE => "CatchClause".toList
  | .NODE_SWITCH_STATEMENT => "SwitchStatement".toList
  | .NODE_SWITCH_CASE => "SwitchCase".toList

/-- The text `node_type_to_string(node->type)` of a node. -/
def type_name (node : ASTNode) : List Char :=
  match node_type node with
  | some type => node_type_to_string type
  | none => []

/-- A text between double quotes, as the format `\"%s\"` writes it. -/
def quoted (text : List Char) : List Char :=
  DQUOTE :: text ++ [DQUOTE]

/-- `print_json_indent`, and the same loop at the head of `pretty_print_ast`:
two spaces `indent` times, nothing when `indent` is not positive. -/
def print_json_indent (indent : Int) : List Char :=
  (List.replicate indent.toNat [' ', ' ']).flatten

/-- The first `switch` of `pretty_print_ast`: what is written after the name
of the kind. -/
def inline_value : ASTNode → List Char
  | .identifier _ name => ' ' :: quoted name
  | .literal _ (.string_value s) _ => " = ".toList ++ quoted s
  | .literal _ (.number_value d) _ => " = ".toList ++ format_g d
  | .literal _ (.boolean_value b) _ => " = ".toList ++ (if b then "true".toList else "false".toList)
  | .literal _ .null_value _ => " = null".toList
  | .binary_expression _ operator _ _ => " (".toList ++ operator ++ [')']
  | .unary_expression _ operator _ => " (".toList ++ operator ++ [')']
  | _ => []

/-- The line `pretty_print_ast` writes for a node at an indent. -/
def print_line (node : ASTNode) (indent : Int) : List Char :=
  print_json_indent indent ++ type_name node ++ inline_value node ++ [NL]

mutual
/-- The recursion of `pretty_print_ast`, each line it writes being recorded as
the node and the indent it is written for: nothing on `NULL`; otherwise the
line of the node, then the children the second `switch` names. -/
def pretty_print_lines : ASTNode → Int → List (ASTNode × Int)
  | .null, _ => []
  | node@(.binary_expression _ _ left right), indent =>
    (node, indent) :: (pretty_print_lines left (indent + 1)
      ++ pretty_print_lines right (indent + 1))
  | node@(.unary_expression _ _ argument), indent =>
    (node, indent) :: pretty_print_lines argument (indent + 1)
  | node@(.call_expression _ callee arguments), indent =>
    (node, indent) :: (pretty_print_lines callee (indent + 1)
      ++ pretty_print_items arguments (indent + 1))
  | node@(.variable_declaration _ declarations _), indent =>
    (node, indent) :: pretty_print_items declarations (indent + 1)
  | node@(.variable_declarator _ id init), indent =>
    (node, indent) :: (pretty_print_lines id (indent + 1)
      ++ (if init.is_null then [] else pretty_print_lines init (indent + 1)))
  | node@(.function_declaration _ id params body _), indent =>
    (node, indent) :: (pretty_print_lines id (indent + 1)
      ++ pretty_print_items params (indent + 1)
      ++ pretty_print_lines body (indent + 1))
  | node@(.parameter _ name _ default_value), indent =>
    (node, indent) :: (pretty_print_lines name (indent + 1)
      ++ (if default_value.is_null then []
          else pretty_print_lines default_value (indent + 1)))
  | node@(.block_statement _ body), indent =>
    (node, indent) :: pretty_print_items body (indent + 1)
  | node@(.return_statement _ argument), indent =>
    (node, indent) ::
      (if argument.is_null then [] else pretty_print_lines argument (indent + 1))
  | node@(.program _ body _), indent =>
    (node, indent) :: pretty_print_items body (indent + 1)
  | node, indent => [(node, indent)]
/-- The loop `for (i = 0; i < count; i++) pretty_print_ast(items[i], indent + 1)`
over a child array, called with the indent of the children. -/
def pretty_print_items : List ASTNode → Int → List (ASTNode × Int)
  | [], _ => []
  | item :: items, indent => pretty_print_lines item indent ++ pretty_print_items items indent
end

/-- `pretty_print_ast`: the text written, line after line. -/
def pretty_print_ast (node : ASTNode) (indent : Int) : List Char :=
  ((pretty_print_lines node indent).map fun p => print_line p.1 p.2).flatten

/-! ### Release -/

/-- A call of `free`: on a text, on the item buffer of a child array, on the
address of the array field inside a node (what `array_free` is handed), or on
a node. -/
inductive Freed where
  | text (s : List Char)
  | items (l : List ASTNode)
  | array_field (owner : ASTNode)
  | node (n : ASTNode)
  deriving Repr

/-- `array_free(&node->field)`: the item buffer, then the address passed. -/
def array_free (items : List ASTNode) (owner : ASTNode) : List Freed :=
  [.items items, .array_field owner]

mutual
/-- `free_ast_node`: the calls of `free` it makes, in order. -/
def free_ast_node : ASTNode → List Freed
  | .null => []
  | node@(.identifier _ name) => [.text name, .node node]
  | node@(.literal _ value raw) =>
    (match value with
      | .string_value s => [Freed.text s]
      | _ => [])
    ++ (match raw with
      | some r => [Freed.text r]
      | none => [])
    ++ [.node node]
  | node@(.binary_expression _ operator left right) =>
    .text operator :: (free_ast_node left ++ free_ast_node right ++ [.node node])
  | node@(.unary_expression _ operator argument) =>
    .text operator :: (free_ast_node argument ++ [.node node])
  | node@(.variable_declaration _ declarations _) =>
    free_items declarations ++ array_free declarations node ++ [.node node]
  | node@(.function_declaration _ id params body return_type) =>
    free_ast_node id ++ free_items params ++ array_free params node
    ++ free_ast_node body
    ++ (match return_type with
      | some r => [Freed.text r]
      | none => [])
    ++ [.node node]
  | node => [.node node]
/-- The loop `for (i = 0; i < count; i++) free_ast_node(items[i])`. -/
def free_items : List ASTNode → List Freed
  | [] => []
  | item :: items => free_ast_node item ++ free_items items
end

/-- The nodes handed to `free`, in order. -/
def released : List Freed → List ASTNode
  | [] => []
  | .node n :: log => n :: released log
  | _ :: log => released log

/-! ### Serialisation -/

/-- The separator `",\n"` followed by the indent of a field of a node written
at `indent`. -/
def next_field (indent : Int) : List Char :=
  ',' :: NL :: print_json_indent (indent + 1)

/-- The head of `ast_to_json`, common to all kinds: the opening brace, the
field `type`, and the fields `line` and `column` when they are positive. -/
def json_header (node : ASTNode) (indent : Int) : List Char :=
  match node_base node with
  | none => []
  | some base =>
    LBRACE :: NL :: print_json_indent (indent + 1)
    ++ quoted "type".toList ++ ": ".toList ++ quoted (type_name node)
    ++ (if base.line > 0 then
          next_field indent ++ quoted "line".toList ++ ": ".toList ++ format_d base.line
        else [])
    ++ (if base.column > 0 then
          next_field indent ++ quoted "column".toList ++ ": ".toList ++ format_d base.column
        else [])

/-- The tail of `ast_to_json`, common to all kinds: a newline, the indent and
the closing brace. -/
def json_footer (indent : Int) : List Char :=
  NL :: print_json_indent indent ++ [RBRACE]

/-- The inner `switch` of the literal case: the value of a literal. -/
def json_literal_value : LiteralValue → List Char
  | .string_value s => quoted s
  | .number_value d => format_g d
  | .boolean_value b => if b then "true".toList else "false".toList
  | .null_value => "null".toList

/-- A text field `"key": "text"` on its own line, when the text is present:
the guarded blocks `if (text) ...` of `ast_to_json`. -/
def json_optional_text (key : List Char) (text : Option (List Char)) (indent : Int) :
    List Char :=
  match text with
  | some t => next_field indent ++ quoted key ++ ": ".toList ++ quoted t
  | none => []

/-- The text of a `VariableKind` in the field `kind`. -/
def json_kind : VariableKind → List Char
  | .VAR_KIND_VAR => "var".toList
  | .VAR_KIND_LET => "let".toList
  | .VAR_KIND_CONST => "const".toList

/-- The text of a `SourceType` in the field `sourceType`. -/
def json_source_type : SourceType → List Char
  | .SOURCE_SCRIPT => "script".toList
  | .SOURCE_MODULE => "module".toList

mutual
/-- `ast_to_json`: the text written for a node at an indent. -/
def ast_to_json : ASTNode → Int → List Char
  | .null, _ => "null".toList
  | node@(.identifier _ name), indent =>
    json_header node indent
    ++ next_field indent ++ quoted "name".toList ++ ": ".toList ++ quoted name
    ++ json_footer indent
  | node@(.literal _ value raw), indent =>
    json_header node indent
    ++ next_field indent ++ quoted "value".toList ++ ": ".toList ++ json_literal_value value
    ++ json_optional_text "raw".toList raw indent
    ++ json_footer indent
  | node@(.binary_expression _ operator left right), indent =>
    json_header node indent
    ++ next_field indent ++ quoted "operator".toList ++ ": ".toList ++ quoted operator
    ++ next_field indent ++ quoted "left".toList ++ ": ".toList
    ++ ast_to_json left (indent + 1)
    ++ next_field indent ++ quoted "right".toList ++ ": ".toList
    ++ ast_to_json right (indent + 1)
    ++ json_footer indent
  | node@(.unary_expression _ operator argument), indent =>
    json_header node indent
    ++ next_field indent ++ quoted "operator".toList ++ ": ".toList ++ quoted operator
    ++ next_field indent ++ quoted "argument".toList ++ ": ".toList
    ++ ast_to_json argument (indent + 1)
    ++ json_footer indent
  | node@(.variable_declaration _ declarations kind), indent =>
    json_header node indent
    ++ next_field indent ++ quoted "kind".toList ++ ": ".toList ++ quoted (json_kind kind)
    ++ next_field indent ++ quoted "declarations".toList ++ ": ".toList
    ++ LBRACKET :: NL :: json_items declarations indent 0
    ++ NL :: print_json_indent (indent + 1) ++ [RBRACKET]
    ++ json_footer indent
  | node@(.variable_declarator _ id init), indent =>
    json_header node indent
    ++ next_field indent ++ quoted "id".toList ++ ": ".toList
    ++ ast_to_json id (indent + 1)
    ++ (if init.is_null then []
        else next_field indent ++ quoted "init".toList ++ ": ".toList
          ++ ast_to_json init (indent + 1))
    ++ json_footer indent
  | node@(.function_declaration _ id params body return_type), indent =>
    json_header node indent
    ++ next_field indent ++ quoted "id".toList ++ ": ".toList
    ++ ast_to_json id (indent + 1)
    ++ next_field indent ++ quoted "params".toList ++ ": ".toList
    ++ LBRACKET :: NL :: json_items params indent 0
    ++ NL :: print_json_indent (indent + 1) ++ [RBRACKET]
    ++ next_field indent ++ quoted "body".toList ++ ": ".toList
    ++ ast_to_json body (indent + 1)
    ++ json_optional_text "returnType".toList return_type indent
    ++ json_footer indent
  | node@(.parameter _ name param_type default_value), indent =>
    json_header node indent
    ++ next_field indent ++ quoted "name".toList ++ ": ".toList
    ++ ast_to_json name (indent + 1)
    ++ json_optional_text "paramType".toList param_type indent
    ++ (if default_value.is_null then []
        else next_field indent ++ quoted "defaultValue".toList ++ ": ".toList
          ++ ast_to_json default_value (indent + 1))
    ++ json_footer indent
  | node@(.block_statement _ body), indent =>
    json_header node indent
    ++ next_field indent ++ quoted "body".toList ++ ": ".toList
    ++ LBRACKET :: NL :: json_items body indent 0
    ++ NL :: print_json_indent (indent + 1) ++ [RBRACKET]
    ++ json_footer indent
  | node@(.return_statement _ argument), indent =>
    json_header node indent
    ++ (if argument.is_null then []
        else next_field indent ++ quoted "argument".toList ++ ": ".toList
          ++ ast_to_json argument (indent + 1))
    ++ json_footer indent
  | node@(.program _ body source_type), indent =>
    json_header node indent
    ++ next_field indent ++ quoted "sourceType".toList ++ ": ".toList
    ++ quoted (json_source_type source_type)
    ++ next_field indent ++ quoted "body".toList ++ ": ".toList
    ++ LBRACKET :: NL :: json_items body indent 0
    ++ NL :: print_json_indent (indent + 1) ++ [RBRACKET]
    ++ json_footer indent
  | node, indent => json_header node indent ++ json_footer indent
/-- The loop over a child array of `ast_to_json`, from index `i` on: for each
item the separator `",\n"` when `i > 0`, the indent of an item and the item,
written at `indent + 2`. -/
def json_items : List ASTNode → Int → Nat → List Char
  | [], _, _ => []
  | item :: items, indent, i =>
    (if i > 0 then [',', NL] else [])
    ++ print_json_indent (indent + 2) ++ ast_to_json item (indent + 2)
    ++ json_items items indent (i + 1)
end

/-! ### The words of the specification about printing and serialisation -/

/-- The children the second `switch` of `pretty_print_ast` hands to the
recursive call for a node, in the order of the calls. -/
def printed : ASTNode → List ASTNode
  | .binary_expression _ _ left right => [left, right]
  | .unary_expression _ _ argument => [argument]
  | .call_expression _ callee arguments => callee :: arguments
  | .variable_declaration _ declarations _ => declarations
  | .variable_declarator _ id init => [id, init]
  | .function_declaration _ id params body _ => id :: (params ++ [body])
  | .parameter _ name _ default_value => [name, default_value]
  | .block_statement _ body => body
  | .return_statement _ argument => [argument]
  | .program _ body _ => body
  | _ => []

/-- Follows the words of the specification: the nodes of a tree in pre-order,
each with its depth, the root being at the given depth and the children of a
node one deeper than the node. -/
def preorder_depth (root : ASTNode) (depth : Nat) : List (ASTNode × Nat) :=
  tree_fold (fun _ => [])
    (fun n below d => (n, d) :: (below.map fun f => f (d + 1)).flatten) root depth

/-- The kinds other than the five for which the traversal has a case and the
printer has none: if, while, array, object and property. -/
def print_kind : NodeType → Bool
  | .NODE_IF_STATEMENT | .NODE_WHILE_STATEMENT | .NODE_ARRAY_EXPRESSION
  | .NODE_OBJECT_EXPRESSION | .NODE_PROPERTY => false
  | _ => true

/-- The node a visitor is called on. -/
def Event.node : Event → ASTNode
  | .enter node _ => node
  | .exit node _ => node

/-- The parent a visitor is handed. -/
def Event.parent : Event → ASTNode
  | .enter _ parent => parent
  | .exit _ parent => parent

/-- Follows the words of the specification: reading a text from left to right
with the stack of the braces and brackets opened and not yet closed, every
closing brace or bracket closes the one opened last, of its own sort, and
nothing stays open at the end. -/
def balanced_loop : List Char → List Char → Bool
  | [], stack => stack.isEmpty
  | c :: cs, stack =>
    if c = LBRACE ∨ c = LBRACKET then balanced_loop cs (c :: stack)
    else if c = RBRACE then
      match stack with
      | top :: below => if top = LBRACE then balanced_loop cs below else false
      | [] => false
    else if c = RBRACKET then
      match stack with
      | top :: below => if top = LBRACKET then balanced_loop cs below else false
      | [] => false
    else balanced_loop cs stack

/-- Follows the words of the specification: a text with balanced braces and
brackets. -/
def balanced (text : List Char) : Bool :=
  balanced_loop text []

/-- The text payloads of a node that `ast_to_json` writes: the name of an
identifier, the string value and the raw text of a literal, the operator of a
binary or unary expression, the type of a parameter and the return type of a
function declaration. -/
def texts : ASTNode → List (List Char)
  | .identifier _ name => [name]
  | .literal _ (.string_value s) raw => s :: raw.toList
  | .literal _ _ raw => raw.toList
  | .binary_expression _ operator _ _ => [operator]
  | .unary_expression _ operator _ => [operator]
  | .parameter _ _ param_type _ => param_type.toList
  | .function_declaration _ _ _ _ return_type => return_type.toList
  | _ => []

/-- Every text payload of every node of the tree has balanced braces and
brackets by itself. -/
def texts_balanced (root : ASTNode) : Bool :=
  (preorder root).all fun n => (texts n).all balanced

/-- Follows the words of the specification: the elements of an array one
after the other, with the separator `,` and a newline before every element
except the first. -/
def array_elements : List (List Char) → List Char
  | [] => []
  | e :: es => e ++ (es.map fun x => ',' :: NL :: x).flatten

/-- Follows the words of the specification: the rendering of an array field
of a node written at `indent`: the opening bracket, a newline, the elements,
each after the indent of an element, a newline, the indent of the field and
the closing bracket. -/
def array_rendering (elements : List (List Char)) (indent : Int) : List Char :=
  LBRACKET :: NL :: array_elements (elements.map fun e => print_json_indent (indent + 2) ++ e)
    ++ NL :: print_json_indent (indent + 1) ++ [RBRACKET]

/-! ### More example trees -/

/-- The call `f(x)`, built with the constructors. -/
def call_example : ASTNode :=
  create_call_expression (create_identifier "f".toList 1 1)
    (array_push (array_create 1) (create_identifier "x".toList 1 3)) 1 2

/-- A loop `while (c) ...` with an empty block: the struct `WhileStatement`
filled in field by field, `ast.c` having no constructor for it. -/
def while_example : ASTNode :=
  .while_statement (new_base 1 1) (create_identifier "c".toList 1 8)
    (create_block_statement (array_create 1) 1 11)

/-- An identifier whose name is a double quote followed by an opening
brace. -/
def brace_identifier : ASTNode :=
  create_identifier [DQUOTE, LBRACE] 1 1

/-- A brace or a bracket. -/
def is_bracket (c : Char) : Bool :=
  c = LBRACE ∨ c = RBRACE ∨ c = LBRACKET ∨ c = RBRACKET

/-- A text that closes what it opens and nothing else: read at the head of
any text, with any stack of open braces and brackets, it leaves the stack as
it found it. -/
def neutral (text : List Char) : Prop :=
  ∀ rest stack, balanced_loop (text ++ rest) stack = balanced_loop rest stack

/-- A text without braces and brackets. -/
def plain (text : List Char) : Prop :=
  ∀ c ∈ text, is_bracket c = false

/-- Follows the words of the specification: the fields of a node written at
`indent` that are particular to its kind, in declared order, each after the
separator and on its own line; a child array in the rendering of arrays; an
absent optional child or text left out. The kinds `ast_to_json` has no case
for have no such field. -/
def json_fields : ASTNode → Int → List Char
  | .identifier _ name, indent =>
    next_field indent ++ quoted "name".toList ++ ": ".toList ++ quoted name
  | .literal _ value raw, indent =>
    next_field indent ++ quoted "value".toList ++ ": ".toList ++ json_literal_value value
    ++ json_optional_text "raw".toList raw indent
  | .binary_expression _ operator left right, indent =>
    next_field indent ++ quoted "operator".toList ++ ": ".toList ++ quoted operator
    ++ (next_field indent ++ quoted "left".toList ++ ": ".toList
        ++ ast_to_json left (indent + 1))
    ++ (next_field indent ++ quoted "right".toList ++ ": ".toList
        ++ ast_to_json right (indent + 1))
  | .unary_expression _ operator argument, indent =>
    next_field indent ++ quoted "operator".toList ++ ": ".toList ++ quoted operator
    ++ (next_field indent ++ quoted "argument".toList ++ ": ".toList
        ++ ast_to_json argument (indent + 1))
  | .variable_declaration _ declarations kind, indent =>
    next_field indent ++ quoted "kind".toList ++ ": ".toList ++ quoted (json_kind kind)
    ++ (next_field indent ++ quoted "declarations".toList ++ ": ".toList
        ++ array_rendering (declarations.map fun e => ast_to_json e (indent + 2)) indent)
  | .variable_declarator _ id init, indent =>
    next_field indent ++ quoted "id".toList ++ ": ".toList ++ ast_to_json id (indent + 1)
    ++ (if init.is_null then []
        else next_field indent ++ quoted "init".toList ++ ": ".toList
          ++ ast_to_json init (indent + 1))
  | .function_declaration _ id params body return_type, indent =>
    next_field indent ++ quoted "id".toList ++ ": ".toList ++ ast_to_json id (indent + 1)
    ++ (next_field indent ++ quoted "params".toList ++ ": ".toList
        ++ array_rendering (params.map fun e => ast_to_json e (indent + 2)) indent)
    ++ (next_field indent ++ quoted "body".toList ++ ": ".toList
        ++ ast_to_json body (indent + 1))
    ++ json_optional_text "returnType".toList return_type indent
  | .parameter _ name param_type default_value, indent =>
    next_field indent ++ quoted "name".toList ++ ": ".toList ++ ast_to_json name (indent + 1)
    ++ json_optional_text "paramType".toList param_type indent
    ++ (if default_value.is_null then []
        else next_field indent ++ quoted "defaultValue".toList ++ ": ".toList
          ++ ast_to_json default_value (indent + 1))
  | .block_statement _ body, indent =>
    next_field indent ++ quoted "body".toList ++ ": ".toList
    ++ array_rendering (body.map fun e => ast_to_json e (indent + 2)) indent
  | .return_statement _ argument, indent =>
    if argument.is_null then []
    else next_field indent ++ quoted "argument".toList ++ ": ".toList
      ++ ast_to_json argument (indent + 1)
  | .program _ body source_type, indent =>
    next_field indent ++ quoted "sourceType".toList ++ ": ".toList
    ++ quoted (json_source_type source_type)
    ++ (next_field indent ++ quoted "body".toList ++ ": ".toList
        ++ array_rendering (body.map fun e => ast_to_json e (indent + 2)) indent)
  | _, _ => []

/-! ## Utility functions on token streams (`src/core/lexer.c`) -/

/-- `find_tokens_by_type`: a new array with a copy, made by `create_token`, of
every token of the given type, in the order of the stream. -/
def find_tokens_by_type : List Token → TokenType → List Token
  | [], _ => []
  | token :: tokens, type =>
    if token.type = type then
      create_token token.type token.value token.line token.column
        :: find_tokens_by_type tokens type
    else find_tokens_by_type tokens type

/-- `get_token_at_position`: the first token of the stream on the given line
whose text, laid out from its column on, covers the given column; `none` is
the `NULL` the source returns when there is none. -/
def get_token_at_position : List Token → Int → Int → Option Token
  | [], _, _ => none
  | token :: tokens, line, column =>
    if (token.line : Int) = line ∧ (token.column : Int) ≤ column
        ∧ column < (token.column : Int) + (token.value.length : Int) then some token
    else get_token_at_position tokens line column

/-- The text of the first token, laid out from its column on, ends before the
start of the second: the second is on a later line, or on the same line at a
column the first does not cover. -/
def Token.ends_before (a b : Token) : Prop :=
  a.line < b.line ∨ (a.line = b.line ∧ a.column + a.value.length ≤ b.column)

/-- Follows the words of the specification: a tree of identifiers, literals
and binary expressions with the parent of every node absent, everything else
as it is. -/
def erase_parents : ASTNode → ASTNode
  | .identifier base name => .identifier { base with parent := none } name
  | .literal base value raw => .literal { base with parent := none } value raw
  | .binary_expression base operator left right =>
    .binary_expression { base with parent := none } operator
      (erase_parents left) (erase_parents right)
  | node => node
/-! ## Facts about the position tracking -/

theorem advance_pos (c : Char) (line column : Nat) :
    line < advance_line c line ∨
      (line = advance_line c line ∧ column < advance_column c column) := by
  unfold advance_line advance_column
  by_cases hc : (c == NL) = true <;> simp [hc]

theorem advance_line_of_ne (c : Char) (line : Nat) (h : c ≠ NL) : advance_line c line = line := by
  unfold advance_line
  have hc : (c == NL) = false := by simpa using h
  simp [hc]

theorem advance_column_of_ne (c : Char) (column : Nat) (h : c ≠ NL) :
    advance_column c column = column + 1 := by
  unfold advance_column
  have hc : (c == NL) = false := by simpa using h
  simp [hc]

/-! ## Facts about the inner loops -/

theorem whitespace_loop_buf_rest (inp : List Char) (idx line column : Nat) :
    (whitespace_loop inp idx line column).buf ++ (whitespace_loop inp idx line column).rest
      = inp := by
  induction inp generalizing idx line column with
  | nil => simp [whitespace_loop]
  | cons c cs ih =>
    simp only [whitespace_loop]
    split
    · simp [ih]
    · simp

theorem whitespace_loop_pos (inp : List Char) (idx line column : Nat) :
    line < (whitespace_loop inp idx line column).line ∨
      (line = (whitespace_loop inp idx line column).line ∧
        column ≤ (whitespace_loop inp idx line column).column) := by
  induction inp generalizing idx line column with
  | nil => simp [whitespace_loop]
  | cons c cs ih =>
    simp only [whitespace_loop]
    split
    · have h := ih (idx + 1) (advance_line c line) (advance_column c column)
      have h2 := advance_pos c line column
      simp only
      omega
    · simp

theorem whitespace_loop_line (inp : List Char) (idx line column : Nat) (h : NL ∉ inp) :
    (whitespace_loop inp idx line column).line = line := by
  induction inp generalizing idx line column with
  | nil => simp [whitespace_loop]
  | cons c cs ih =>
    have hc : c ≠ NL := fun e => h (by simp [e])
    have hcs : NL ∉ cs := fun e => h (List.mem_cons_of_mem _ e)
    simp only [whitespace_loop, advance_line_of_ne c line hc]
    split
    · exact ih _ _ _ hcs
    · rfl

theorem whitespace_loop_rest (inp : List Char) (idx line column line' column' : Nat) :
    (whitespace_loop inp idx line column).rest = (whitespace_loop inp idx line' column').rest := by
  induction inp generalizing idx line column line' column' with
  | nil => simp [whitespace_loop]
  | cons c cs ih =>
    simp only [whitespace_loop]
    split
    · exact ih _ _ _ _ _
    · rfl

theorem line_comment_loop_buf_rest (inp : List Char) (idx line column : Nat) :
    (line_comment_loop inp idx line column).buf ++ (line_comment_loop inp idx line column).rest = inp := by
  induction inp generalizing idx line column with
  | nil => simp [line_comment_loop]
  | cons c cs ih =>
    simp only [line_comment_loop]
    split
    · simp [ih]
    · simp

theorem line_comment_loop_line (inp : List Char) (idx line column : Nat) :
    (line_comment_loop inp idx line column).line = line := by
  induction inp generalizing idx line column with
  | nil => simp [line_comment_loop]
  | cons c cs ih =>
    simp only [line_comment_loop]
    split
    · exact ih _ _ _
    · rfl

theorem line_comment_loop_column (inp : List Char) (idx line column : Nat) :
    column ≤ (line_comment_loop inp idx line column).column := by
  induction inp generalizing idx line column with
  | nil => simp [line_comment_loop]
  | cons c cs ih =>
    simp only [line_comment_loop]
    split
    · have h := ih (idx + 1) line (column + 1)
      simp only
      omega
    · simp

theorem line_comment_loop_rest (inp : List Char) (idx line column line' column' : Nat) :
    (line_comment_loop inp idx line column).rest = (line_comment_loop inp idx line' column').rest := by
  induction inp generalizing idx line column line' column' with
  | nil => simp [line_comment_loop]
  | cons c cs ih =>
    simp only [line_comment_loop]
    split
    · exact ih _ _ _ _ _
    · rfl

theorem number_loop_buf_rest (inp : List Char) (idx line column : Nat) :
    (number_loop inp idx line column).buf ++ (number_loop inp idx line column).rest = inp := by
  induction inp generalizing idx line column with
  | nil => simp [number_loop]
  | cons c cs ih =>
    simp only [number_loop]
    split
    · simp [ih]
    · simp

theorem number_loop_line (inp : List Char) (idx line column : Nat) :
    (number_loop inp idx line column).line = line := by
  induction inp generalizing idx line column with
  | nil => simp [number_loop]
  | cons c cs ih =>
    simp only [number_loop]
    split
    · exact ih _ _ _
    · rfl

theorem number_loop_column (inp : List Char) (idx line column : Nat) :
    column ≤ (number_loop inp idx line column).column := by
  induction inp generalizing idx line column with
  | nil => simp [number_loop]
  | cons c cs ih =>
    simp only [number_loop]
    split
    · have h := ih (idx + 1) line (column + 1)
      simp only
      omega
    · simp

theorem number_loop_rest (inp : List Char) (idx line column line' column' : Nat) :
    (number_loop inp idx line column).rest = (number_loop inp idx line' column').rest := by
  induction inp generalizing idx line column line' column' with
  | nil => simp [number_loop]
  | cons c cs ih =>
    simp only [number_loop]
    split
    · exact ih _ _ _ _ _
    · rfl

theorem ident_loop_buf_rest (inp : List Char) (idx line column : Nat) :
    (ident_loop inp idx line column).buf ++ (ident_loop inp idx line column).rest = inp := by
  induction inp generalizing idx line column with
  | nil => simp [ident_loop]
  | cons c cs ih =>
    simp only [ident_loop]
    split
    · simp [ih]
    · simp

theorem ident_loop_line (inp : List Char) (idx line column : Nat) :
    (ident_loop inp idx line column).line = line := by
  induction inp generalizing idx line column with
  | nil => simp [ident_loop]
  | cons c cs ih =>
    simp only [ident_loop]
    split
    · exact ih _ _ _
    · rfl

theorem ident_loop_column (inp : List Char) (idx line column : Nat) :
    column ≤ (ident_loop inp idx line column).column := by
  induction inp generalizing idx line column with
  | nil => simp [ident_loop]
  | cons c cs ih =>
    simp only [ident_loop]
    split
    · have h := ih (idx + 1) line (column + 1)
      simp only
      omega
    · simp

theorem ident_loop_rest (inp : List Char) (idx line column line' column' : Nat) :
    (ident_loop inp idx line column).rest = (ident_loop inp idx line' column').rest := by
  induction inp generalizing idx line column line' column' with
  | nil => simp [ident_loop]
  | cons c cs ih =>
    simp only [ident_loop]
    split
    · exact ih _ _ _ _ _
    · rfl

theorem block_comment_loop_buf_rest (inp : List Char) (idx line column : Nat) :
    (block_comment_loop inp idx line column).buf ++ (block_comment_loop inp idx line column).rest
      = inp := by
  induction inp, idx, line, column using block_comment_loop.induct with
  | case1 a b cs idx line column hi hab => simp [block_comment_loop, hi, hab]
  | case2 a b cs idx line column hi hab ih =>
    simp only [block_comment_loop, hi, hab]
    simpa using ih
  | case3 a b cs idx line column hi => simp [block_comment_loop, hi]
  | case4 rest idx line column hne =>
    unfold block_comment_loop
    split
    · exact absurd rfl (hne _ _ _)
    · simp

theorem block_comment_loop_pos (inp : List Char) (idx line column : Nat) :
    line < (block_comment_loop inp idx line column).line ∨
      (line = (block_comment_loop inp idx line column).line ∧
        column ≤ (block_comment_loop inp idx line column).column) := by
  induction inp, idx, line, column using block_comment_loop.induct with
  | case1 a b cs idx line column hi hab => simp [block_comment_loop, hi, hab]
  | case2 a b cs idx line column hi hab ih =>
    simp only [block_comment_loop, hi, hab, ↓reduceIte, Bool.false_eq_true]
    have h2 := advance_pos a line column
    omega
  | case3 a b cs idx line column hi => simp [block_comment_loop, hi]
  | case4 rest idx line column hne =>
    unfold block_comment_loop
    split
    · exact absurd rfl (hne _ _ _)
    · simp

theorem block_comment_loop_line (inp : List Char) (idx line column : Nat) (h : NL ∉ inp) :
    (block_comment_loop inp idx line column).line = line := by
  induction inp, idx, line, column using block_comment_loop.induct with
  | case1 a b cs idx line column hi hab => simp [block_comment_loop, hi, hab]
  | case2 a b cs idx line column hi hab ih =>
    have hc : a ≠ NL := fun e => h (by simp [e])
    have hcs : NL ∉ b :: cs := fun e => h (List.mem_cons_of_mem _ e)
    simp only [block_comment_loop, hi, hab]
    rw [advance_line_of_ne a line hc] at ih ⊢
    exact ih hcs
  | case3 a b cs idx line column hi => simp [block_comment_loop, hi]
  | case4 rest idx line column hne =>
    unfold block_comment_loop
    split
    · exact absurd rfl (hne _ _ _)
    · simp

theorem block_comment_loop_rest (inp : List Char) (idx line column line' column' : Nat) :
    (block_comment_loop inp idx line column).rest
      = (block_comment_loop inp idx line' column').rest := by
  induction inp, idx, line, column using block_comment_loop.induct generalizing line' column' with
  | case1 a b cs idx line column hi hab => simp [block_comment_loop, hi, hab]
  | case2 a b cs idx line column hi hab ih =>
    simp only [block_comment_loop, hi, hab]
    exact ih _ _
  | case3 a b cs idx line column hi => simp [block_comment_loop, hi]
  | case4 rest idx line column hne =>
    unfold block_comment_loop
    split
    · exact absurd rfl (hne _ _ _)
    · simp

theorem string_loop_buf_rest (quote : Char) (inp : List Char) (idx line column : Nat) :
    (string_loop quote inp idx line column).buf ++ (string_loop quote inp idx line column).rest
      = inp := by
  induction inp, idx, line, column using string_loop.induct quote with
  | case1 idx line column => simp [string_loop]
  | case2 c idx line column hc d ds hb hi ih => simp [string_loop, hc, hb, hi, ih]
  | case3 c idx line column hc d ds hb hi ih => simp [string_loop, hc, hb, hi, ih]
  | case4 c idx line column hc d ds hb ih => simp [string_loop, hc, hb, ih]
  | case5 c idx line column hc => simp [string_loop, hc]
  | case6 c cs idx line column hc =>
    unfold string_loop
    simp [hc]

theorem string_loop_line (quote : Char) (inp : List Char) (idx line column : Nat) :
    (string_loop quote inp idx line column).line = line := by
  induction inp, idx, line, column using string_loop.induct quote with
  | case1 idx line column => simp [string_loop]
  | case2 c idx line column hc d ds hb hi ih => simp [string_loop, hc, hb, hi, ih]
  | case3 c idx line column hc d ds hb hi ih => simp [string_loop, hc, hb, hi, ih]
  | case4 c idx line column hc d ds hb ih => simp [string_loop, hc, hb, ih]
  | case5 c idx line column hc => simp [string_loop, hc]
  | case6 c cs idx line column hc =>
    unfold string_loop
    simp [hc]

theorem string_loop_column (quote : Char) (inp : List Char) (idx line column : Nat) :
    column ≤ (string_loop quote inp idx line column).column := by
  induction inp, idx, line, column using string_loop.induct quote with
  | case1 idx line column => simp [string_loop]
  | case2 c idx line column hc d ds hb hi ih =>
    simp only [string_loop, hc, hb, hi, ↓reduceIte]
    omega
  | case3 c idx line column hc d ds hb hi ih =>
    simp only [string_loop, hc, hb, hi, ↓reduceIte]
    omega
  | case4 c idx line column hc d ds hb ih =>
    simp only [string_loop, hc, hb, ↓reduceIte, Bool.false_eq_true]
    omega
  | case5 c idx line column hc => simp [string_loop, hc]
  | case6 c cs idx line column hc =>
    unfold string_loop
    simp [hc]

theorem string_loop_rest (quote : Char) (inp : List Char) (idx line column line' column' : Nat) :
    (string_loop quote inp idx line column).rest
      = (string_loop quote inp idx line' column').rest := by
  induction inp, idx, line, column using string_loop.induct quote generalizing line' column' with
  | case1 idx line column => simp [string_loop]
  | case2 c idx line column hc d ds hb hi ih =>
    simp only [string_loop, hc, hb, hi, ↓reduceIte]
    exact ih _ _
  | case3 c idx line column hc d ds hb hi ih =>
    simp only [string_loop, hc, hb, hi, ↓reduceIte]
    exact ih _ _
  | case4 c idx line column hc d ds hb ih =>
    simp only [string_loop, hc, hb, ↓reduceIte, Bool.false_eq_true]
    exact ih _ _
  | case5 c idx line column hc => simp [string_loop, hc]
  | case6 c cs idx line column hc =>
    unfold string_loop
    simp [hc]


/-! ## Facts about the operator loop -/

theorem find_operator_some (ops : List (List Char)) (inp op : List Char)
    (h : find_operator ops inp = some op) : op ∈ ops ∧ op <+: inp := by
  induction ops with
  | nil => simp [find_operator] at h
  | cons o os ih =>
    simp only [find_operator] at h
    split at h
    · rename_i hc
      simp only [Bool.and_eq_true, decide_eq_true_eq, beq_iff_eq] at hc
      injection h with h
      subst h
      refine ⟨List.mem_cons_self _ _, ?_⟩
      rw [← hc.2]
      exact List.take_prefix _ _
    · exact ⟨List.mem_cons_of_mem _ (ih h).1, (ih h).2⟩

theorem find_operator_longest (ops : List (List Char)) (inp op : List Char)
    (hs : ops.Pairwise fun a b => b.length ≤ a.length)
    (h : find_operator ops inp = some op) :
    ∀ o ∈ ops, o <+: inp → o.length ≤ op.length := by
  induction ops with
  | nil => simp [find_operator] at h
  | cons x xs ih =>
    rw [List.pairwise_cons] at hs
    simp only [find_operator] at h
    split at h
    · injection h with h
      subst h
      intro o ho _
      rcases List.mem_cons.1 ho with e | e
      · rw [e]
      · exact hs.1 o e
    · rename_i hc
      intro o ho hp
      rcases List.mem_cons.1 ho with e | e
      · exfalso
        apply hc
        subst e
        simp only [Bool.and_eq_true, decide_eq_true_eq, beq_iff_eq]
        exact ⟨hp.length_le, (List.prefix_iff_eq_take.1 hp).symm⟩
      · exact ih hs.2 h o e hp

theorem find_operator_drop (ops : List (List Char)) (inp op : List Char)
    (h : find_operator ops inp = some op) : op ++ inp.drop op.length = inp := by
  obtain ⟨t, ht⟩ := (find_operator_some ops inp op h).2
  subst ht
  simp

/-! ## Facts about one iteration -/

/-- Case analysis on the branch one iteration takes: a property holds of the
iteration when it holds of every branch under the tests that lead to it. -/
theorem scan_step_cases (P : StepOut → Prop) (tk : Tokenizer) (ch : Char) (rest : List Char)
    (sl sc : Nat)
    (h1 : isspace ch = true →
      P (step_whitespace tk ch rest sl sc (advance_line ch sl) (advance_column ch sc)))
    (h2 : isspace ch = false → ch = '/' → rest.head? = some '/' →
      P (step_line_comment tk ch rest sl sc (advance_line ch sl) (advance_column ch sc)))
    (h3 : isspace ch = false → ch = '/' → rest.head? = some '*' →
      P (step_block_comment tk rest sl sc (advance_line ch sl) (advance_column ch sc)))
    (h4 : isspace ch = false → (ch == '/' && rest.head? == some '/') = false →
      (ch == '/' && rest.head? == some '*') = false → isdigit ch = true →
      P (step_number ch rest sl sc (advance_line ch sl) (advance_column ch sc)))
    (h5 : isspace ch = false → (ch == '/' && rest.head? == some '/') = false →
      (ch == '/' && rest.head? == some '*') = false → isdigit ch = false →
      (isalpha ch || ch == '_') = true →
      P (step_ident tk ch rest sl sc (advance_line ch sl) (advance_column ch sc)))
    (h6 : isspace ch = false → (ch == '/' && rest.head? == some '/') = false →
      (ch == '/' && rest.head? == some '*') = false →
      isdigit ch = false → (isalpha ch || ch == '_') = false →
      (ch = DQUOTE ∨ ch = SQUOTE) →
      P (step_string ch rest sl sc (advance_line ch sl) (advance_column ch sc)))
    (h7 : ∀ op, isspace ch = false → (ch == '/' && rest.head? == some '/') = false →
      (ch == '/' && rest.head? == some '*') = false →
      isdigit ch = false → (isalpha ch || ch == '_') = false →
      ch ≠ DQUOTE → ch ≠ SQUOTE → find_operator tk.operators (ch :: rest) = some op →
      P (step_operator op ch rest sl sc (advance_line ch sl) (advance_column ch sc)))
    (h8 : isspace ch = false → (ch == '/' && rest.head? == some '/') = false →
      (ch == '/' && rest.head? == some '*') = false →
      isdigit ch = false → (isalpha ch || ch == '_') = false →
      ch ≠ DQUOTE → ch ≠ SQUOTE → find_operator tk.operators (ch :: rest) = none →
      is_delimiter tk ch = true →
      P (step_delimiter ch rest sl sc (advance_line ch sl) (advance_column ch sc)))
    (h9 : isspace ch = false → (ch == '/' && rest.head? == some '/') = false →
      (ch == '/' && rest.head? == some '*') = false →
      isdigit ch = false → (isalpha ch || ch == '_') = false →
      ch ≠ DQUOTE → ch ≠ SQUOTE → find_operator tk.operators (ch :: rest) = none →
      is_delimiter tk ch = false →
      P (step_unknown tk ch rest sl sc (advance_line ch sl) (advance_column ch sc))) :
    P (scan_step tk ch rest sl sc) := by
  unfold scan_step
  simp only
  by_cases c1 : isspace ch = true
  · rw [if_pos c1]
    exact h1 c1
  rw [if_neg c1]
  have c1f : isspace ch = false := by simpa using c1
  by_cases c2 : (ch == '/' && rest.head? == some '/') = true
  · rw [if_pos c2]
    simp only [Bool.and_eq_true, beq_iff_eq] at c2
    exact h2 c1f c2.1 c2.2
  rw [if_neg c2]
  have c2f : (ch == '/' && rest.head? == some '/') = false := by simpa using c2
  by_cases c3 : (ch == '/' && rest.head? == some '*') = true
  · rw [if_pos c3]
    simp only [Bool.and_eq_true, beq_iff_eq] at c3
    exact h3 c1f c3.1 c3.2
  rw [if_neg c3]
  have c3f : (ch == '/' && rest.head? == some '*') = false := by simpa using c3
  by_cases c4 : isdigit ch = true
  · rw [if_pos c4]
    exact h4 c1f c2f c3f c4
  rw [if_neg c4]
  have c4f : isdigit ch = false := by simpa using c4
  by_cases c5 : (isalpha ch || ch == '_') = true
  · rw [if_pos c5]
    exact h5 c1f c2f c3f c4f c5
  rw [if_neg c5]
  have c5f : (isalpha ch || ch == '_') = false := by simpa using c5
  by_cases c6 : (ch == DQUOTE || ch == SQUOTE) = true
  · rw [if_pos c6]
    simp only [Bool.or_eq_true, beq_iff_eq] at c6
    exact h6 c1f c2f c3f c4f c5f c6
  rw [if_neg c6]
  simp only [Bool.or_eq_true, beq_iff_eq, not_or] at c6
  cases hf : find_operator tk.operators (ch :: rest) with
  | some op => exact h7 op c1f c2f c3f c4f c5f c6.1 c6.2 hf
  | none =>
    simp only
    by_cases c8 : is_delimiter tk ch = true
    · rw [if_pos c8]
      exact h8 c1f c2f c3f c4f c5f c6.1 c6.2 hf c8
    · rw [if_neg c8]
      exact h9 c1f c2f c3f c4f c5f c6.1 c6.2 hf (by simpa using c8)


theorem scan_step_emit (tk : Tokenizer) (ch : Char) (rest : List Char) (sl sc : Nat)
    (t : Token) (h : (scan_step tk ch rest sl sc).emit = some t) :
    t.line = sl ∧ t.column = sc ∧ t.type ≠ .TOKEN_EOF := by
  revert h
  apply scan_step_cases
    (fun r => r.emit = some t → t.line = sl ∧ t.column = sc ∧ t.type ≠ .TOKEN_EOF)
  case h1 =>
    intro _ h
    unfold step_whitespace at h
    split at h
    · simp only [Option.some.injEq] at h
      subst h
      simp [create_token]
    · simp at h
  case h2 =>
    intro _ _ _ h
    unfold step_line_comment at h
    simp only at h
    split at h
    · simp only [Option.some.injEq] at h
      subst h
      simp [create_token]
    · simp at h
  case h3 =>
    intro _ _ _ h
    unfold step_block_comment at h
    simp only at h
    split at h
    · simp only [Option.some.injEq] at h
      subst h
      simp [create_token]
    · simp at h
  case h4 =>
    intro _ _ _ _ h
    simp only [step_number, Option.some.injEq] at h
    subst h
    simp [create_token]
  case h5 =>
    intro _ _ _ _ _ h
    simp only [step_ident, Option.some.injEq] at h
    subst h
    simp only [create_token, ne_eq, true_and]
    split <;> simp
  case h6 =>
    intro _ _ _ _ _ _ h
    simp only [step_string, Option.some.injEq] at h
    subst h
    simp [create_token]
  case h7 =>
    intro op _ _ _ _ _ _ _ _ h
    simp only [step_operator, Option.some.injEq] at h
    subst h
    simp [create_token]
  case h8 =>
    intro _ _ _ _ _ _ _ _ _ h
    simp only [step_delimiter, Option.some.injEq] at h
    subst h
    simp [create_token]
  case h9 =>
    intro _ _ _ _ _ _ _ _ _ h
    unfold step_unknown at h
    simp only at h
    split at h
    · simp at h
    · simp only [Option.some.injEq] at h
      subst h
      simp [create_token]

theorem scan_step_pos (tk : Tokenizer) (ch : Char) (rest : List Char) (sl sc : Nat) :
    sl < (scan_step tk ch rest sl sc).line ∨
      (sl = (scan_step tk ch rest sl sc).line ∧ sc < (scan_step tk ch rest sl sc).column) := by
  have ha := advance_pos ch sl sc
  apply scan_step_cases (fun r => sl < r.line ∨ (sl = r.line ∧ sc < r.column))
  case h1 =>
    intro _
    unfold step_whitespace
    split
    · have := whitespace_loop_pos (ch :: rest) 0 (advance_line ch sl) (advance_column ch sc)
      simp only
      omega
    · exact ha
  case h2 =>
    intro _ _ _
    have h1 := line_comment_loop_line (ch :: rest) 0 (advance_line ch sl) (advance_column ch sc)
    have h2 := line_comment_loop_column (ch :: rest) 0 (advance_line ch sl) (advance_column ch sc)
    simp only [step_line_comment]
    omega
  case h3 =>
    intro _ _ _
    have h1 := block_comment_loop_pos rest.tail 2 (advance_line ch sl) (advance_column ch sc + 2)
    simp only [step_block_comment]
    omega
  case h4 =>
    intro _ _ _ _
    have h1 := number_loop_line (ch :: rest) 0 (advance_line ch sl) (advance_column ch sc)
    have h2 := number_loop_column (ch :: rest) 0 (advance_line ch sl) (advance_column ch sc)
    simp only [step_number]
    omega
  case h5 =>
    intro _ _ _ _ _
    have h1 := ident_loop_line (ch :: rest) 0 (advance_line ch sl) (advance_column ch sc)
    have h2 := ident_loop_column (ch :: rest) 0 (advance_line ch sl) (advance_column ch sc)
    simp only [step_ident]
    omega
  case h6 =>
    intro _ _ _ _ _ _
    have h1 := string_loop_line ch rest 0 (advance_line ch sl) (advance_column ch sc + 1)
    have h2 := string_loop_column ch rest 0 (advance_line ch sl) (advance_column ch sc + 1)
    simp only [step_string]
    split <;> omega
  case h7 =>
    intro op _ _ _ _ _ _ _ _
    simp only [step_operator]
    omega
  case h8 =>
    intro _ _ _ _ _ _ _ _ _
    exact ha
  case h9 =>
    intro _ _ _ _ _ _ _ _ _
    exact ha

theorem scan_step_line (tk : Tokenizer) (ch : Char) (rest : List Char) (sl sc : Nat)
    (h : NL ∉ ch :: rest) : (scan_step tk ch rest sl sc).line = sl := by
  have hc : ch ≠ NL := fun e => h (by simp [e])
  have hr : NL ∉ rest := fun e => h (List.mem_cons_of_mem _ e)
  have ha := advance_line_of_ne ch sl hc
  apply scan_step_cases (fun r => r.line = sl)
  case h1 =>
    intro _
    unfold step_whitespace
    split
    · simp only
      rw [whitespace_loop_line _ _ _ _ h, ha]
    · exact ha
  case h2 =>
    intro _ _ _
    simp only [step_line_comment, line_comment_loop_line, ha]
  case h3 =>
    intro _ _ _
    have : NL ∉ rest.tail := fun e => hr (List.mem_of_mem_tail e)
    simp only [step_block_comment]
    rw [block_comment_loop_line _ _ _ _ this, ha]
  case h4 =>
    intro _ _ _ _
    simp only [step_number, number_loop_line, ha]
  case h5 =>
    intro _ _ _ _ _
    simp only [step_ident, ident_loop_line, ha]
  case h6 =>
    intro _ _ _ _ _ _
    simp only [step_string, string_loop_line, ha]
  case h7 =>
    intro op _ _ _ _ _ _ _ _
    simp only [step_operator, ha]
  case h8 =>
    intro _ _ _ _ _ _ _ _ _
    exact ha
  case h9 =>
    intro _ _ _ _ _ _ _ _ _
    exact ha


theorem scan_step_operator_eq (tk : Tokenizer) (ch : Char) (rest : List Char) (sl sc : Nat)
    (op : List Char) (c1 : isspace ch = false)
    (c2 : (ch == '/' && rest.head? == some '/') = false)
    (c3 : (ch == '/' && rest.head? == some '*') = false)
    (c4 : isdigit ch = false) (c5 : (isalpha ch || ch == '_') = false)
    (c6 : ch ≠ DQUOTE) (c7 : ch ≠ SQUOTE)
    (hf : find_operator tk.operators (ch :: rest) = some op) :
    scan_step tk ch rest sl sc
      = step_operator op ch rest sl sc (advance_line ch sl) (advance_column ch sc) := by
  have c67 : (ch == DQUOTE || ch == SQUOTE) = false := by
    simp only [Bool.or_eq_false_iff, beq_eq_false_iff_ne, ne_eq]
    exact ⟨c6, c7⟩
  unfold scan_step
  simp only [c1, c2, c3, c4, c5, c67, hf, Bool.false_eq_true, ↓reduceIte]

theorem scan_step_suffix (tk : Tokenizer) (ch : Char) (rest : List Char) (sl sc : Nat) :
    (scan_step tk ch rest sl sc).rest <:+ ch :: rest := by
  apply scan_step_cases (fun r => r.rest <:+ ch :: rest)
  case h1 =>
    intro _
    unfold step_whitespace
    split
    · exact ⟨_, whitespace_loop_buf_rest (ch :: rest) 0 _ _⟩
    · exact List.suffix_cons _ _
  case h2 =>
    intro _ _ _
    exact ⟨_, line_comment_loop_buf_rest (ch :: rest) 0 _ _⟩
  case h3 =>
    intro _ _ _
    have h : (block_comment_loop rest.tail 2 (advance_line ch sl)
        (advance_column ch sc + 2)).rest <:+ rest.tail :=
      ⟨_, block_comment_loop_buf_rest rest.tail 2 _ _⟩
    exact (h.trans (List.tail_suffix rest)).trans (List.suffix_cons _ _)
  case h4 =>
    intro _ _ _ _
    exact ⟨_, number_loop_buf_rest (ch :: rest) 0 _ _⟩
  case h5 =>
    intro _ _ _ _ _
    exact ⟨_, ident_loop_buf_rest (ch :: rest) 0 _ _⟩
  case h6 =>
    intro _ _ _ _ _ _
    have h : (string_loop ch rest 0 (advance_line ch sl) (advance_column ch sc + 1)).rest
        <:+ rest := ⟨_, string_loop_buf_rest ch rest 0 _ _⟩
    exact ((List.tail_suffix _).trans h).trans (List.suffix_cons _ _)
  case h7 =>
    intro op _ _ _ _ _ _ _ _
    exact List.drop_suffix _ _
  case h8 =>
    intro _ _ _ _ _ _ _ _ _
    exact List.suffix_cons _ _
  case h9 =>
    intro _ _ _ _ _ _ _ _ _
    exact List.suffix_cons _ _

/-- An iteration consumes at least one character, unless the operator loop
finds the empty operator; the iteration then leaves the input where it is,
whatever the position it started from. -/
theorem scan_step_rest_length (tk : Tokenizer) (ch : Char) (rest : List Char) (sl sc : Nat) :
    (scan_step tk ch rest sl sc).rest.length ≤ rest.length ∨
      ([] ∈ tk.operators ∧ ∀ l c, (scan_step tk ch rest l c).rest = ch :: rest) := by
  apply scan_step_cases (fun r => r.rest.length ≤ rest.length ∨
      ([] ∈ tk.operators ∧ ∀ l c, (scan_step tk ch rest l c).rest = ch :: rest))
  case h1 =>
    intro c1
    left
    unfold step_whitespace
    split
    · have h := whitespace_loop_buf_rest rest (0 + 1) (advance_line ch (advance_line ch sl))
        (advance_column ch (advance_column ch sc))
      have h2 := congrArg List.length h
      simp only [whitespace_loop, c1, Bool.true_and, Nat.ofNat_pos, decide_True, ↓reduceIte]
      simp only [List.length_append] at h2
      omega
    · exact le_refl _
  case h2 =>
    intro _ c2 _
    left
    have hn : (ch != NL) = true := by subst c2; decide
    have h := line_comment_loop_buf_rest rest (0 + 1) (advance_line ch sl) (advance_column ch sc + 1)
    have h2 := congrArg List.length h
    simp only [step_line_comment, line_comment_loop, hn, Bool.true_and, Nat.ofNat_pos,
      decide_True, ↓reduceIte]
    simp only [List.length_append] at h2
    omega
  case h3 =>
    intro _ _ _
    left
    have h := block_comment_loop_buf_rest rest.tail 2 (advance_line ch sl)
      (advance_column ch sc + 2)
    have h2 := congrArg List.length h
    simp only [List.length_append, List.length_tail] at h2
    simp only [step_block_comment]
    omega
  case h4 =>
    intro _ _ _ c4
    left
    have h := number_loop_buf_rest rest (0 + 1) (advance_line ch sl) (advance_column ch sc + 1)
    have h2 := congrArg List.length h
    simp only [step_number, number_loop, c4, Bool.true_or, Bool.true_and, Nat.ofNat_pos,
      decide_True, ↓reduceIte]
    simp only [List.length_append] at h2
    omega
  case h5 =>
    intro _ _ _ _ c5
    left
    have c5' : (isalnum ch || ch == '_') = true := by
      unfold isalnum
      simp only [Bool.or_eq_true, beq_iff_eq] at c5 ⊢
      tauto
    have h := ident_loop_buf_rest rest (0 + 1) (advance_line ch sl) (advance_column ch sc + 1)
    have h2 := congrArg List.length h
    simp only [step_ident, ident_loop, c5', Bool.true_and, Nat.ofNat_pos,
      decide_True, ↓reduceIte]
    simp only [List.length_append] at h2
    omega
  case h6 =>
    intro _ _ _ _ _ _
    left
    have h := string_loop_buf_rest ch rest 0 (advance_line ch sl) (advance_column ch sc + 1)
    have h2 := congrArg List.length h
    simp only [List.length_append] at h2
    simp only [step_string, List.length_tail]
    omega
  case h7 =>
    intro op c1 c2 c3 c4 c5 c6 c7 hf
    cases op with
    | nil =>
      right
      refine ⟨(find_operator_some _ _ _ hf).1, fun l c => ?_⟩
      rw [scan_step_operator_eq tk ch rest l c [] c1 c2 c3 c4 c5 c6 c7 hf]
      simp [step_operator]
    | cons o os =>
      left
      simp only [step_operator, List.length_cons, List.drop_succ_cons, List.length_drop]
      omega
  case h8 =>
    intro _ _ _ _ _ _ _ _ _
    left
    exact le_refl _
  case h9 =>
    intro _ _ _ _ _ _ _ _ _
    left
    exact le_refl _

theorem scan_step_operator (tk : Tokenizer) (ch : Char) (rest : List Char) (sl sc : Nat)
    (t : Token) (h : (scan_step tk ch rest sl sc).emit = some t)
    (ht : t.type = .TOKEN_OPERATOR) :
    find_operator tk.operators (ch :: rest) = some t.value := by
  revert h
  apply scan_step_cases
    (fun r => r.emit = some t → find_operator tk.operators (ch :: rest) = some t.value)
  case h1 =>
    intro _ h
    unfold step_whitespace at h
    split at h
    · simp only [Option.some.injEq] at h
      subst h
      simp [create_token] at ht
    · simp at h
  case h2 =>
    intro _ _ _ h
    unfold step_line_comment at h
    simp only at h
    split at h
    · simp only [Option.some.injEq] at h
      subst h
      simp [create_token] at ht
    · simp at h
  case h3 =>
    intro _ _ _ h
    unfold step_block_comment at h
    simp only at h
    split at h
    · simp only [Option.some.injEq] at h
      subst h
      simp [create_token] at ht
    · simp at h
  case h4 =>
    intro _ _ _ _ h
    simp only [step_number, Option.some.injEq] at h
    subst h
    simp [create_token] at ht
  case h5 =>
    intro _ _ _ _ _ h
    simp only [step_ident, Option.some.injEq] at h
    subst h
    simp only [create_token] at ht
    split at ht <;> simp at ht
  case h6 =>
    intro _ _ _ _ _ _ h
    simp only [step_string, Option.some.injEq] at h
    subst h
    simp [create_token] at ht
  case h7 =>
    intro op _ _ _ _ _ _ _ hf h
    simp only [step_operator, Option.some.injEq] at h
    subst h
    simpa [create_token] using hf
  case h8 =>
    intro _ _ _ _ _ _ _ _ _ h
    simp only [step_delimiter, Option.some.injEq] at h
    subst h
    simp [create_token] at ht
  case h9 =>
    intro _ _ _ _ _ _ _ _ _ h
    unfold step_unknown at h
    simp only at h
    split at h
    · simp at h
    · simp only [Option.some.injEq] at h
      subst h
      simp [create_token] at ht


theorem scan_step_text (tk : Tokenizer) (ch : Char) (rest : List Char) (sl sc : Nat)
    (hw : tk.options.include_whitespace = true) (hc : tk.options.include_comments = true)
    (hu : tk.options.skip_unknown = false)
    (hs : ∀ t, (scan_step tk ch rest sl sc).emit = some t → t.type ≠ .TOKEN_STRING) :
    ∃ t, (scan_step tk ch rest sl sc).emit = some t ∧
      t.value ++ (scan_step tk ch rest sl sc).rest = ch :: rest := by
  revert hs
  apply scan_step_cases (fun r => (∀ t, r.emit = some t → t.type ≠ .TOKEN_STRING) →
    ∃ t, r.emit = some t ∧ t.value ++ r.rest = ch :: rest)
  case h1 =>
    intro _ _
    simp only [step_whitespace, hw, ↓reduceIte]
    exact ⟨_, rfl, whitespace_loop_buf_rest (ch :: rest) 0 _ _⟩
  case h2 =>
    intro _ _ _ _
    simp only [step_line_comment, hc, ↓reduceIte]
    exact ⟨_, rfl, line_comment_loop_buf_rest (ch :: rest) 0 _ _⟩
  case h3 =>
    intro _ c2 c3 _
    simp only [step_block_comment, hc, ↓reduceIte]
    refine ⟨_, rfl, ?_⟩
    cases rest with
    | nil => simp at c3
    | cons x xs =>
      simp only [List.head?_cons, Option.some.injEq] at c3
      subst c2 c3
      simp only [create_token, List.tail_cons, List.cons_append, List.cons.injEq, true_and]
      exact block_comment_loop_buf_rest xs 2 _ _
  case h4 =>
    intro _ _ _ _ _
    exact ⟨_, rfl, number_loop_buf_rest (ch :: rest) 0 _ _⟩
  case h5 =>
    intro _ _ _ _ _ _
    exact ⟨_, rfl, ident_loop_buf_rest (ch :: rest) 0 _ _⟩
  case h6 =>
    intro _ _ _ _ _ _ hs
    exact absurd rfl (hs _ rfl)
  case h7 =>
    intro op _ _ _ _ _ _ _ hf _
    exact ⟨_, rfl, find_operator_drop _ _ _ hf⟩
  case h8 =>
    intro _ _ _ _ _ _ _ _ _ _
    exact ⟨_, rfl, rfl⟩
  case h9 =>
    intro _ _ _ _ _ _ _ _ _ _
    simp only [step_unknown, hu, Bool.false_eq_true, ↓reduceIte]
    exact ⟨_, rfl, rfl⟩

/-! ## Facts about the main loop -/

theorem tokenize_loop_nil (tk : Tokenizer) (fuel line column : Nat) :
    tokenize_loop tk (fuel + 1) [] line column
      = some [create_token .TOKEN_EOF [] line column] := rfl

theorem tokenize_loop_cons (tk : Tokenizer) (fuel : Nat) (ch : Char) (rest : List Char)
    (line column : Nat) :
    tokenize_loop tk (fuel + 1) (ch :: rest) line column
      = (tokenize_loop tk fuel (scan_step tk ch rest line column).rest
          (scan_step tk ch rest line column).line
          (scan_step tk ch rest line column).column).map
        (fun ts => (scan_step tk ch rest line column).emit.toList ++ ts) := by
  simp only [tokenize_loop]
  cases tokenize_loop tk fuel (scan_step tk ch rest line column).rest
    (scan_step tk ch rest line column).line (scan_step tk ch rest line column).column <;> rfl

theorem tokenize_loop_cons_some (tk : Tokenizer) (fuel : Nat) (ch : Char) (rest : List Char)
    (line column : Nat) (ts : List Token)
    (h : tokenize_loop tk (fuel + 1) (ch :: rest) line column = some ts) :
    ∃ ts', tokenize_loop tk fuel (scan_step tk ch rest line column).rest
          (scan_step tk ch rest line column).line
          (scan_step tk ch rest line column).column = some ts' ∧
      ts = (scan_step tk ch rest line column).emit.toList ++ ts' := by
  rw [tokenize_loop_cons] at h
  cases h' : tokenize_loop tk fuel (scan_step tk ch rest line column).rest
    (scan_step tk ch rest line column).line (scan_step tk ch rest line column).column with
  | none => simp [h'] at h
  | some ts' =>
    simp only [h', Option.map_some', Option.some.injEq] at h
    exact ⟨ts', rfl, h.symm⟩

/-- More fuel does not change a run that ended. -/
theorem tokenize_loop_fuel_succ (tk : Tokenizer) (fuel : Nat) (inp : List Char)
    (line column : Nat) (ts : List Token)
    (h : tokenize_loop tk fuel inp line column = some ts) :
    tokenize_loop tk (fuel + 1) inp line column = some ts := by
  induction fuel generalizing inp line column ts with
  | zero => simp [tokenize_loop] at h
  | succ f ih =>
    cases inp with
    | nil =>
      rw [tokenize_loop_nil] at h ⊢
      exact h
    | cons ch rest =>
      obtain ⟨ts', h1, h2⟩ := tokenize_loop_cons_some tk f ch rest line column ts h
      rw [tokenize_loop_cons, ih _ _ _ _ h1, h2]
      rfl

theorem tokenize_loop_fuel_le (tk : Tokenizer) (fuel fuel' : Nat) (inp : List Char)
    (line column : Nat) (ts : List Token) (hle : fuel ≤ fuel')
    (h : tokenize_loop tk fuel inp line column = some ts) :
    tokenize_loop tk fuel' inp line column = some ts := by
  induction hle with
  | refl => exact h
  | step _ ih => exact tokenize_loop_fuel_succ _ _ _ _ _ _ ih

/-- An iteration that leaves the input where it is repeats forever. -/
theorem tokenize_loop_stuck (tk : Tokenizer) (ch : Char) (rest : List Char)
    (hst : ∀ l c, (scan_step tk ch rest l c).rest = ch :: rest) (fuel line column : Nat) :
    tokenize_loop tk fuel (ch :: rest) line column = none := by
  induction fuel generalizing line column with
  | zero => rfl
  | succ f ih => rw [tokenize_loop_cons, hst, ih]; rfl

/-- A run that ends at all ends within `len + 1` rounds of the loop test: the
fuel `tokenize` gives the loop loses no run. -/
theorem tokenize_loop_fuel (tk : Tokenizer) (fuel : Nat) (inp : List Char)
    (line column : Nat) (ts : List Token)
    (h : tokenize_loop tk fuel inp line column = some ts) :
    tokenize_loop tk (inp.length + 1) inp line column = some ts := by
  induction fuel generalizing inp line column ts with
  | zero => simp [tokenize_loop] at h
  | succ f ih =>
    cases inp with
    | nil => exact h
    | cons ch rest =>
      obtain ⟨ts', h1, h2⟩ := tokenize_loop_cons_some tk f ch rest line column ts h
      rcases scan_step_rest_length tk ch rest line column with hl | ⟨_, hst⟩
      · have h3 := tokenize_loop_fuel_le tk _ (rest.length + 1) _ _ _ _ (by omega) (ih _ _ _ _ h1)
        rw [List.length_cons, tokenize_loop_cons, h3, h2]
        rfl
      · rw [tokenize_loop_stuck tk ch rest hst] at h
        exact absurd h (by simp)

/-- With no empty operator in the table every run ends. -/
theorem tokenize_loop_total (tk : Tokenizer) (hne : [] ∉ tk.operators) (n : Nat) :
    ∀ (inp : List Char) (line column : Nat), inp.length ≤ n →
      ∃ ts, tokenize_loop tk (n + 1) inp line column = some ts := by
  induction n with
  | zero =>
    intro inp line column hn
    have : inp = [] := List.length_eq_zero.1 (by omega)
    subst this
    exact ⟨_, rfl⟩
  | succ m ih =>
    intro inp line column hn
    cases inp with
    | nil => exact ⟨_, rfl⟩
    | cons ch rest =>
      rcases scan_step_rest_length tk ch rest line column with hl | ⟨hmem, _⟩
      · simp only [List.length_cons] at hn
        obtain ⟨ts', h'⟩ := ih (scan_step tk ch rest line column).rest
          (scan_step tk ch rest line column).line (scan_step tk ch rest line column).column
          (by omega)
        exact ⟨_, by rw [tokenize_loop_cons, h']; rfl⟩
      · exact absurd hmem hne

theorem tokenize_total (tk : Tokenizer) (hne : [] ∉ tk.operators) (input : List Char) :
    ∃ ts, tokenize tk input = some ts :=
  tokenize_loop_total tk hne input.length input 1 1 (le_refl _)


/-! ## Facts about the operator table -/

theorem mem_qsort_insert (x z : List Char) (ys : List (List Char)) :
    z ∈ qsort_insert x ys ↔ z = x ∨ z ∈ ys := by
  induction ys with
  | nil => simp [qsort_insert]
  | cons y ys ih =>
    simp only [qsort_insert]
    split
    · simp
    · simp only [List.mem_cons, ih]
      tauto

theorem qsort_insert_sorted (x : List Char) (ys : List (List Char))
    (h : ys.Pairwise fun a b => b.length ≤ a.length) :
    (qsort_insert x ys).Pairwise fun a b => b.length ≤ a.length := by
  induction ys with
  | nil => simp [qsort_insert]
  | cons y ys ih =>
    rw [List.pairwise_cons] at h
    simp only [qsort_insert]
    split
    · rename_i hc
      simp only [compare_operators] at hc
      refine List.pairwise_cons.2 ⟨?_, List.pairwise_cons.2 h⟩
      intro z hz
      rcases List.mem_cons.1 hz with e | e
      · subst e; omega
      · have := h.1 z e
        omega
    · rename_i hc
      simp only [compare_operators] at hc
      refine List.pairwise_cons.2 ⟨?_, ih h.2⟩
      intro z hz
      rcases (mem_qsort_insert x z ys).1 hz with e | e
      · subst e; omega
      · exact h.1 z e

theorem qsort_operators_sorted (l : List (List Char)) :
    (qsort_operators l).Pairwise fun a b => b.length ≤ a.length := by
  induction l with
  | nil => simp [qsort_operators]
  | cons x xs ih => exact qsort_insert_sorted x _ ih

theorem create_tokenizer_operators_sorted (options : Option TokenizerOptions) :
    (create_tokenizer options).operators.Pairwise fun a b => b.length ≤ a.length :=
  qsort_operators_sorted _

/-! ## Facts about the stream -/

theorem tokenize_loop_eof (tk : Tokenizer) (fuel : Nat) (inp : List Char)
    (line column : Nat) (ts : List Token)
    (h : tokenize_loop tk fuel inp line column = some ts) :
    ∃ body l c, ts = body ++ [create_token .TOKEN_EOF [] l c] ∧
      ∀ t ∈ body, t.type ≠ .TOKEN_EOF := by
  induction fuel generalizing inp line column ts with
  | zero => simp [tokenize_loop] at h
  | succ f ih =>
    cases inp with
    | nil =>
      rw [tokenize_loop_nil] at h
      injection h with h
      exact ⟨[], line, column, by simp [← h], by simp⟩
    | cons ch rest =>
      obtain ⟨ts', h1, h2⟩ := tokenize_loop_cons_some tk f ch rest line column ts h
      obtain ⟨body, l, c, hb, hne⟩ := ih _ _ _ _ h1
      refine ⟨(scan_step tk ch rest line column).emit.toList ++ body, l, c, ?_, ?_⟩
      · rw [h2, hb, List.append_assoc]
      · intro t ht
        rcases List.mem_append.1 ht with e | e
        · exact (scan_step_emit tk ch rest line column t (by simpa using e)).2.2
        · exact hne t e

theorem tokenize_loop_before (tk : Tokenizer) (fuel : Nat) (inp : List Char)
    (line column : Nat) (ts : List Token)
    (h : tokenize_loop tk fuel inp line column = some ts) :
    (∀ t ∈ ts, line < t.line ∨ (line = t.line ∧ column ≤ t.column)) ∧
      ts.Pairwise Token.before := by
  induction fuel generalizing inp line column ts with
  | zero => simp [tokenize_loop] at h
  | succ f ih =>
    cases inp with
    | nil =>
      rw [tokenize_loop_nil] at h
      injection h with h
      subst h
      simp [create_token]
    | cons ch rest =>
      obtain ⟨ts', h1, h2⟩ := tokenize_loop_cons_some tk f ch rest line column ts h
      obtain ⟨hge, hpw⟩ := ih _ _ _ _ h1
      have hp := scan_step_pos tk ch rest line column
      subst h2
      constructor
      · intro t ht
        rcases List.mem_append.1 ht with e | e
        · have := scan_step_emit tk ch rest line column t (by simpa using e)
          omega
        · have := hge t e
          omega
      · refine List.pairwise_append.2 ⟨?_, hpw, ?_⟩
        · cases (scan_step tk ch rest line column).emit <;> simp
        · intro a ha b hb
          have h3 := scan_step_emit tk ch rest line column a (by simpa using ha)
          have h4 := hge b hb
          unfold Token.before
          omega

theorem tokenize_loop_line (tk : Tokenizer) (fuel : Nat) (inp : List Char)
    (line column : Nat) (ts : List Token) (hnl : NL ∉ inp)
    (h : tokenize_loop tk fuel inp line column = some ts) :
    ∀ t ∈ ts, t.line = line := by
  induction fuel generalizing inp line column ts with
  | zero => simp [tokenize_loop] at h
  | succ f ih =>
    cases inp with
    | nil =>
      rw [tokenize_loop_nil] at h
      injection h with h
      subst h
      simp [create_token]
    | cons ch rest =>
      obtain ⟨ts', h1, h2⟩ := tokenize_loop_cons_some tk f ch rest line column ts h
      have hs : NL ∉ (scan_step tk ch rest line column).rest :=
        fun e => hnl ((scan_step_suffix tk ch rest line column).subset e)
      have hl := ih _ _ _ _ hs h1
      rw [scan_step_line tk ch rest line column hnl] at hl
      subst h2
      intro t ht
      rcases List.mem_append.1 ht with e | e
      · exact (scan_step_emit tk ch rest line column t (by simpa using e)).1
      · exact hl t e

theorem tokenize_loop_text (tk : Tokenizer) (fuel : Nat) (inp : List Char)
    (line column : Nat) (ts : List Token)
    (hw : tk.options.include_whitespace = true) (hc : tk.options.include_comments = true)
    (hu : tk.options.skip_unknown = false)
    (h : tokenize_loop tk fuel inp line column = some ts)
    (hs : ∀ t ∈ ts, t.type ≠ .TOKEN_STRING) :
    (ts.map Token.value).flatten = inp := by
  induction fuel generalizing inp line column ts with
  | zero => simp [tokenize_loop] at h
  | succ f ih =>
    cases inp with
    | nil =>
      rw [tokenize_loop_nil] at h
      injection h with h
      subst h
      simp [create_token]
    | cons ch rest =>
      obtain ⟨ts', h1, h2⟩ := tokenize_loop_cons_some tk f ch rest line column ts h
      subst h2
      obtain ⟨t, ht, htx⟩ := scan_step_text tk ch rest line column hw hc hu
        (fun t ht => hs t (List.mem_append_left _ (by simp [ht])))
      have := ih _ _ _ _ h1 (fun t ht => hs t (List.mem_append_right _ ht))
      rw [ht] at *
      simp only [Option.toList_some, List.singleton_append, List.map_cons, List.flatten_cons,
        this]
      exact htx

/-! ## Facts about the instrumented scan -/

theorem tokenize_spans_loop_snd (tk : Tokenizer) (len fuel : Nat) (inp : List Char)
    (line column : Nat) :
    (tokenize_spans_loop tk len fuel inp line column).map (List.map Prod.snd)
      = tokenize_loop tk fuel inp line column := by
  induction fuel generalizing inp line column with
  | zero => rfl
  | succ f ih =>
    cases inp with
    | nil => rfl
    | cons ch rest =>
      rw [tokenize_loop_cons, ← ih]
      simp only [tokenize_spans_loop]
      cases tokenize_spans_loop tk len f (scan_step tk ch rest line column).rest
        (scan_step tk ch rest line column).line (scan_step tk ch rest line column).column with
      | none => rfl
      | some ps =>
        simp only [Option.map_some', List.map_append, List.map_map, Option.some.injEq,
          List.append_cancel_right_eq]
        cases (scan_step tk ch rest line column).emit <;> rfl

theorem tokenize_spans_snd (tk : Tokenizer) (input : List Char) :
    (tokenize_spans tk input).map (List.map Prod.snd) = tokenize tk input :=
  tokenize_spans_loop_snd tk _ _ _ _ _

/-- Every operator token of the instrumented scan is what the operator loop
finds at the offset recorded with it. -/
theorem tokenize_spans_loop_operator (tk : Tokenizer) (input : List Char) (fuel : Nat)
    (inp : List Char) (line column : Nat) (ps : List (Nat × Token))
    (hsuf : inp <:+ input)
    (h : tokenize_spans_loop tk input.length fuel inp line column = some ps) :
    ∀ p ∈ ps, p.2.type = .TOKEN_OPERATOR →
      find_operator tk.operators (input.drop p.1) = some p.2.value := by
  induction fuel generalizing inp line column ps with
  | zero => simp [tokenize_spans_loop] at h
  | succ f ih =>
    cases inp with
    | nil =>
      simp only [tokenize_spans_loop, Option.some.injEq] at h
      subst h
      intro p hp ht
      simp only [List.mem_singleton] at hp
      subst hp
      simp [create_token] at ht
    | cons ch rest =>
      simp only [tokenize_spans_loop] at h
      cases h' : tokenize_spans_loop tk input.length f (scan_step tk ch rest line column).rest
        (scan_step tk ch rest line column).line (scan_step tk ch rest line column).column with
      | none => simp [h'] at h
      | some ps' =>
        simp only [h', Option.some.injEq] at h
        subst h
        intro p hp ht
        rcases List.mem_append.1 hp with e | e
        · obtain ⟨t, hte, rfl⟩ := List.mem_map.1 e
          have hte' : (scan_step tk ch rest line column).emit = some t := by simpa using hte
          obtain ⟨pre, hpre⟩ := hsuf
          have hd : input.drop (input.length - (rest.length + 1)) = ch :: rest := by
            rw [← hpre]
            simp
          simp only [hd]
          exact scan_step_operator tk ch rest line column t hte' ht
        · exact ih _ _ _ _ ((scan_step_suffix tk ch rest line column).trans hsuf) h' p e ht

/-! ## Facts about the character classes and the branch taken -/

theorem isspace_false_of_isdigit (c : Char) (h : isdigit c = true) : isspace c = false := by
  cases hs : isspace c with
  | false => rfl
  | true =>
    simp only [isdigit, isspace, Bool.and_eq_true, Bool.or_eq_true, decide_eq_true_eq,
      beq_iff_eq] at h hs
    omega

theorem ne_newline_of_not_isspace (c : Char) (h : isspace c = false) : c ≠ NL := by
  intro e
  subst e
  exact absurd h (by decide)

theorem ne_slash_of_isdigit (c : Char) (h : isdigit c = true) : c ≠ '/' := by
  intro e
  subst e
  exact absurd h (by decide)

theorem isspace_false_of_ident_start (c : Char) (h : (isalpha c || c == '_') = true) :
    isspace c = false := by
  cases hs : isspace c with
  | false => rfl
  | true =>
    simp only [Bool.or_eq_true, beq_iff_eq] at h
    rcases h with h | h
    · simp only [isalpha, isspace, Bool.and_eq_true, Bool.or_eq_true, decide_eq_true_eq,
        beq_iff_eq] at h hs
      omega
    · subst h
      exact absurd hs (by decide)

theorem isdigit_false_of_ident_start (c : Char) (h : (isalpha c || c == '_') = true) :
    isdigit c = false := by
  cases hs : isdigit c with
  | false => rfl
  | true =>
    simp only [Bool.or_eq_true, beq_iff_eq] at h
    rcases h with h | h
    · simp only [isalpha, isdigit, Bool.and_eq_true, Bool.or_eq_true, decide_eq_true_eq] at h hs
      omega
    · subst h
      exact absurd hs (by decide)

theorem ne_slash_of_ident_start (c : Char) (h : (isalpha c || c == '_') = true) : c ≠ '/' := by
  intro e
  subst e
  exact absurd h (by decide)

theorem scan_step_number_eq (tk : Tokenizer) (ch : Char) (rest : List Char) (sl sc : Nat)
    (h : isdigit ch = true) :
    scan_step tk ch rest sl sc
      = step_number ch rest sl sc (advance_line ch sl) (advance_column ch sc) := by
  have h1 := isspace_false_of_isdigit ch h
  have h2 : (ch == '/') = false := by simpa using ne_slash_of_isdigit ch h
  unfold scan_step
  simp only [h1, h2, h, Bool.false_and, Bool.false_eq_true, ↓reduceIte]

theorem scan_step_ident_eq (tk : Tokenizer) (ch : Char) (rest : List Char) (sl sc : Nat)
    (h : (isalpha ch || ch == '_') = true) :
    scan_step tk ch rest sl sc
      = step_ident tk ch rest sl sc (advance_line ch sl) (advance_column ch sc) := by
  have h1 := isspace_false_of_ident_start ch h
  have h2 : (ch == '/') = false := by simpa using ne_slash_of_ident_start ch h
  have h3 := isdigit_false_of_ident_start ch h
  unfold scan_step
  simp only [h1, h2, h3, h, Bool.false_and, Bool.false_eq_true, ↓reduceIte]

theorem scan_step_string_eq (tk : Tokenizer) (ch : Char) (rest : List Char) (sl sc : Nat)
    (h : ch = DQUOTE ∨ ch = SQUOTE) :
    scan_step tk ch rest sl sc
      = step_string ch rest sl sc (advance_line ch sl) (advance_column ch sc) := by
  have h1 : isspace ch = false := by rcases h with h | h <;> subst h <;> decide
  have h2 : (ch == '/') = false := by rcases h with h | h <;> subst h <;> decide
  have h3 : isdigit ch = false := by rcases h with h | h <;> subst h <;> decide
  have h4 : (isalpha ch || ch == '_') = false := by rcases h with h | h <;> subst h <;> decide
  have h5 : (ch == DQUOTE || ch == SQUOTE) = true := by
    rcases h with h | h <;> subst h <;> decide
  unfold scan_step
  simp only [h1, h2, h3, h4, h5, Bool.false_and, Bool.false_eq_true, ↓reduceIte]

/-! ## Facts about whole-token scans -/

theorem ident_loop_all (w : List Char) (idx line column : Nat)
    (hw : ∀ x ∈ w, (isalnum x || x == '_') = true) (hlen : idx + w.length ≤ 255) :
    ident_loop w idx line column = ⟨w, [], line, column + w.length⟩ := by
  induction w generalizing idx column with
  | nil => simp [ident_loop]
  | cons c cs ih =>
    simp only [List.length_cons] at hlen
    have h1 := hw c (List.mem_cons_self _ _)
    have h2 : decide (idx < 255) = true := by simp; omega
    simp only [ident_loop, h1, h2, Bool.and_self, ↓reduceIte]
    rw [ih (idx + 1) (column + 1) (fun x hx => hw x (List.mem_cons_of_mem _ hx)) (by omega)]
    simp only [List.length_cons, Scan.mk.injEq, true_and]
    omega

theorem number_loop_all (w : List Char) (idx line column : Nat)
    (hw : ∀ x ∈ w, (isdigit x || x == '.') = true) (hlen : idx + w.length ≤ 99) :
    number_loop w idx line column = ⟨w, [], line, column + w.length⟩ := by
  induction w generalizing idx column with
  | nil => simp [number_loop]
  | cons c cs ih =>
    simp only [List.length_cons] at hlen
    have h1 := hw c (List.mem_cons_self _ _)
    have h2 : decide (idx < 99) = true := by simp; omega
    simp only [number_loop, h1, h2, Bool.and_self, ↓reduceIte]
    rw [ih (idx + 1) (column + 1) (fun x hx => hw x (List.mem_cons_of_mem _ hx)) (by omega)]
    simp only [List.length_cons, Scan.mk.injEq, true_and]
    omega

theorem is_keyword_iff (tk : Tokenizer) (w : List Char) :
    is_keyword tk w = true ↔
      if tk.options.case_sensitive = true then w ∈ tk.keywords
      else w.map tolower ∈ tk.keywords.map (List.map tolower) := by
  unfold is_keyword string_to_lower
  cases tk.options.case_sensitive
  · simp only [Bool.false_eq_true, ↓reduceIte, List.any_eq_true, beq_iff_eq, List.mem_map]
  · simp only [↓reduceIte, List.any_eq_true, beq_iff_eq]
    constructor
    · rintro ⟨kw, h1, h2⟩
      exact h2 ▸ h1
    · intro h
      exact ⟨w, h, rfl⟩

/-- The scan of one word: an identifier or keyword token, then the
end-of-input token. -/
theorem tokenize_word (tk : Tokenizer) (w : List Char) (hne : w ≠ [])
    (hchars : ∀ c ∈ w, isalnum c = true ∨ c = '_')
    (hhead : ∀ c, w.head? = some c → isdigit c = false) (hlen : w.length ≤ 255) :
    tokenize tk w = some
      [create_token (if is_keyword tk w then .TOKEN_KEYWORD else .TOKEN_IDENTIFIER) w 1 1,
       create_token .TOKEN_EOF [] 1 (w.length + 2)] := by
  cases w with
  | nil => exact absurd rfl hne
  | cons ch rest =>
    have hd := hhead ch rfl
    have hall : ∀ x ∈ ch :: rest, (isalnum x || x == '_') = true := by
      intro x hx
      rcases hchars x hx with h | h
      · simp [h]
      · simp [h]
    have hst : (isalpha ch || ch == '_') = true := by
      have := hall ch (List.mem_cons_self _ _)
      simp only [isalnum, hd, Bool.or_false] at this
      exact this
    have hnl := ne_newline_of_not_isspace ch (isspace_false_of_ident_start ch hst)
    have hloop := ident_loop_all (ch :: rest) 0 1 2 hall (by simpa using hlen)
    unfold tokenize
    rw [List.length_cons, tokenize_loop_cons, scan_step_ident_eq tk ch rest 1 1 hst,
      advance_line_of_ne ch 1 hnl, advance_column_of_ne ch 1 hnl]
    simp only [step_ident, hloop, tokenize_loop_nil]
    simp only [Option.map_some', Option.toList_some, List.singleton_append, List.length_cons,
      Option.some.injEq, List.cons.injEq, and_true, true_and]
    simp only [create_token, Token.mk.injEq, true_and]
    omega

/-- The scan of one number: a number token, then the end-of-input token. -/
theorem tokenize_number (tk : Tokenizer) (w : List Char) (hne : w ≠ [])
    (hhead : ∀ c, w.head? = some c → isdigit c = true)
    (hchars : ∀ c ∈ w, isdigit c = true ∨ c = '.') (hlen : w.length ≤ 99) :
    tokenize tk w = some
      [create_token .TOKEN_NUMBER w 1 1, create_token .TOKEN_EOF [] 1 (w.length + 2)] := by
  cases w with
  | nil => exact absurd rfl hne
  | cons ch rest =>
    have hd := hhead ch rfl
    have hall : ∀ x ∈ ch :: rest, (isdigit x || x == '.') = true := by
      intro x hx
      rcases hchars x hx with h | h
      · simp [h]
      · simp [h]
    have hnl := ne_newline_of_not_isspace ch (isspace_false_of_isdigit ch hd)
    have hloop := number_loop_all (ch :: rest) 0 1 2 hall (by simpa using hlen)
    unfold tokenize
    rw [List.length_cons, tokenize_loop_cons, scan_step_number_eq tk ch rest 1 1 hd,
      advance_line_of_ne ch 1 hnl, advance_column_of_ne ch 1 hnl]
    simp only [step_number, hloop, tokenize_loop_nil]
    simp only [Option.map_some', Option.toList_some, List.singleton_append, List.length_cons,
      Option.some.injEq, List.cons.injEq, and_true, true_and]
    simp only [create_token, Token.mk.injEq, true_and]
    omega

theorem string_loop_quote (q : Char) (tail : List Char) (idx line column : Nat) :
    string_loop q (q :: tail) idx line column = ⟨[], q :: tail, line, column⟩ := by
  unfold string_loop
  simp

theorem string_loop_body (q : Char) (hq : q ≠ BSLASH) (s tail : List Char)
    (idx line column : Nat) (hs : escapes_paired q s = true) (hlen : idx + s.length ≤ 998) :
    string_loop q (s ++ q :: tail) idx line column
      = ⟨s, q :: tail, line, column + s.length⟩ := by
  induction s using escapes_paired.induct q generalizing idx column with
  | case1 => simpa using string_loop_quote q tail idx line column
  | case2 c =>
    simp only [escapes_paired, Bool.and_eq_true, bne_iff_ne, ne_eq] at hs
    have h1 : (c != q) = true := by simpa using hs.2
    have h2 : (c == BSLASH) = false := by simpa using hs.1
    have h3 : decide (idx < 999) = true := by
      simp only [List.length_singleton] at hlen
      simp only [decide_eq_true_eq]
      omega
    simp only [List.singleton_append, string_loop, h1, h2, h3, Bool.and_self,
      Bool.false_eq_true, ↓reduceIte, List.length_singleton, string_loop_quote]
  | case3 c d ds hc ih =>
    simp only [escapes_paired, hc, ↓reduceIte] at hs
    simp only [List.length_cons] at hlen
    have hcq : c = BSLASH := by simpa using hc
    have h1 : (c != q) = true := by
      simp only [bne_iff_ne, ne_eq]
      rw [hcq]
      exact fun e => hq e.symm
    have h3 : decide (idx < 999) = true := by
      simp only [decide_eq_true_eq]
      omega
    have h5 : idx + 1 < 999 := by omega
    simp only [List.cons_append, string_loop, h1, h3, hc, h5, Bool.and_self, ↓reduceIte,
      List.append_eq]
    rw [ih (idx + 2) (column + 2) hs (by omega)]
    simp only [List.length_cons, Scan.mk.injEq, true_and]
    omega
  | case4 c d ds hc ih =>
    simp only [escapes_paired, hc, Bool.false_eq_true, ↓reduceIte, Bool.and_eq_true] at hs
    simp only [List.length_cons] at hlen
    have h3 : decide (idx < 999) = true := by
      simp only [decide_eq_true_eq]
      omega
    have h2 : (c == BSLASH) = false := by simpa using hc
    have ih' := ih (idx + 1) (column + 1) hs.2 (by simp only [List.length_cons]; omega)
    simp only [List.cons_append] at ih'
    simp only [List.cons_append, string_loop, hs.1, h3, h2, Bool.and_self, Bool.false_eq_true,
      ↓reduceIte, List.append_eq, ih']
    simp only [List.length_cons, Scan.mk.injEq, true_and]
    omega

/-- The scan of one terminated string: a string token holding the body, then
the end-of-input token. -/
theorem tokenize_string (tk : Tokenizer) (q : Char) (s : List Char)
    (hq : q = DQUOTE ∨ q = SQUOTE) (hlen : s.length ≤ 998)
    (hs : escapes_paired q s = true) :
    tokenize tk (q :: (s ++ [q])) = some
      [create_token .TOKEN_STRING s 1 1, create_token .TOKEN_EOF [] 1 (s.length + 4)] := by
  have hqb : q ≠ BSLASH := by rcases hq with h | h <;> subst h <;> decide
  have hnl : q ≠ NL := by rcases hq with h | h <;> subst h <;> decide
  have hloop := string_loop_body q hqb s [] 0 1 (2 + 1) hs (by omega)
  unfold tokenize
  rw [List.length_cons, tokenize_loop_cons, scan_step_string_eq tk q _ 1 1 hq,
    advance_line_of_ne q 1 hnl, advance_column_of_ne q 1 hnl]
  simp only [step_string, hloop, tokenize_loop_nil, List.tail_cons, List.isEmpty_cons,
    Bool.false_eq_true, ↓reduceIte]
  simp only [Option.map_some', Option.toList_some, List.singleton_append,
    Option.some.injEq, List.cons.injEq, and_true, true_and]
  simp only [create_token, Token.mk.injEq, true_and]
  omega

/-! ## Facts about runs that end with the input -/

theorem string_loop_unterminated (q : Char) (hq : q ≠ BSLASH) (s : List Char)
    (idx line column : Nat) (hs : no_unpaired_quote q s = true) (hlen : idx + s.length ≤ 998) :
    string_loop q s idx line column = ⟨s, [], line, column + s.length⟩ := by
  induction s using no_unpaired_quote.induct q generalizing idx column with
  | case1 => simp [string_loop]
  | case2 c =>
    simp only [no_unpaired_quote] at hs
    have h3 : decide (idx < 999) = true := by
      simp only [List.length_singleton] at hlen
      simp only [decide_eq_true_eq]
      omega
    simp only [string_loop, hs, h3, Bool.and_self, ↓reduceIte, List.length_singleton]
  | case3 c d ds hc ih =>
    simp only [no_unpaired_quote, hc, ↓reduceIte] at hs
    simp only [List.length_cons] at hlen
    have hcq : c = BSLASH := by simpa using hc
    have h1 : (c != q) = true := by
      simp only [bne_iff_ne, ne_eq]
      rw [hcq]
      exact fun e => hq e.symm
    have h3 : decide (idx < 999) = true := by
      simp only [decide_eq_true_eq]
      omega
    have h5 : idx + 1 < 999 := by omega
    simp only [string_loop, h1, h3, hc, h5, Bool.and_self, ↓reduceIte]
    rw [ih (idx + 2) (column + 2) hs (by omega)]
    simp only [List.length_cons, Scan.mk.injEq, true_and]
    omega
  | case4 c d ds hc ih =>
    simp only [no_unpaired_quote, hc, Bool.false_eq_true, ↓reduceIte, Bool.and_eq_true] at hs
    simp only [List.length_cons] at hlen
    have h3 : decide (idx < 999) = true := by
      simp only [decide_eq_true_eq]
      omega
    have h2 : (c == BSLASH) = false := by simpa using hc
    have ih' := ih (idx + 1) (column + 1) hs.2 (by simp only [List.length_cons]; omega)
    simp only [string_loop, hs.1, h3, h2, Bool.and_self, Bool.false_eq_true, ↓reduceIte, ih']
    simp only [List.length_cons, Scan.mk.injEq, true_and]
    omega

/-- The scan of one unterminated string: a string token holding the body,
then the end-of-input token. -/
theorem tokenize_open_string (tk : Tokenizer) (q : Char) (s : List Char)
    (hq : q = DQUOTE ∨ q = SQUOTE) (hlen : s.length ≤ 998)
    (hs : no_unpaired_quote q s = true) :
    tokenize tk (q :: s) = some
      [create_token .TOKEN_STRING s 1 1, create_token .TOKEN_EOF [] 1 (s.length + 3)] := by
  have hqb : q ≠ BSLASH := by rcases hq with h | h <;> subst h <;> decide
  have hnl : q ≠ NL := by rcases hq with h | h <;> subst h <;> decide
  have hloop := string_loop_unterminated q hqb s 0 1 (2 + 1) hs (by omega)
  unfold tokenize
  rw [List.length_cons, tokenize_loop_cons, scan_step_string_eq tk q _ 1 1 hq,
    advance_line_of_ne q 1 hnl, advance_column_of_ne q 1 hnl]
  simp only [step_string, hloop, tokenize_loop_nil, List.tail_nil, List.isEmpty_nil, ↓reduceIte]
  simp only [Option.map_some', Option.toList_some, List.singleton_append,
    Option.some.injEq, List.cons.injEq, and_true, true_and]
  simp only [create_token, Token.mk.injEq, true_and]
  omega

theorem line_comment_loop_all (w : List Char) (idx line column : Nat)
    (hw : NL ∉ w) (hlen : idx + w.length ≤ 999) :
    line_comment_loop w idx line column = ⟨w, [], line, column + w.length⟩ := by
  induction w generalizing idx column with
  | nil => simp [line_comment_loop]
  | cons c cs ih =>
    simp only [List.length_cons] at hlen
    have h1 : (c != NL) = true := by
      simp only [bne_iff_ne, ne_eq]
      exact fun e => hw (by simp [e])
    have h2 : decide (idx < 999) = true := by simp; omega
    simp only [line_comment_loop, h1, h2, Bool.and_self, ↓reduceIte]
    rw [ih (idx + 1) (column + 1) (fun e => hw (List.mem_cons_of_mem _ e)) (by omega)]
    simp only [List.length_cons, Scan.mk.injEq, true_and]
    omega

theorem scan_step_line_comment_eq (tk : Tokenizer) (rest : List Char) (sl sc : Nat) :
    scan_step tk '/' ('/' :: rest) sl sc
      = step_line_comment tk '/' ('/' :: rest) sl sc (advance_line '/' sl)
          (advance_column '/' sc) := by
  have h1 : isspace '/' = false := by decide
  unfold scan_step
  simp only [h1, List.head?_cons, beq_self_eq_true, Bool.and_self, Bool.false_eq_true,
    ↓reduceIte]

/-- The scan of one `//` comment that fits the comment buffer. -/
theorem tokenize_line_comment (tk : Tokenizer) (body : List Char) (hnl : NL ∉ body)
    (hlen : body.length + 2 ≤ 999) :
    tokenize tk ('/' :: '/' :: body) = some
      ((if tk.options.include_comments then
          [create_token .TOKEN_COMMENT ('/' :: '/' :: body) 1 1] else []) ++
        [create_token .TOKEN_EOF [] 1 (body.length + 4)]) := by
  have hw : NL ∉ '/' :: '/' :: body := by
    intro e
    rcases List.mem_cons.1 e with e | e
    · exact absurd e (by decide)
    · rcases List.mem_cons.1 e with e | e
      · exact absurd e (by decide)
      · exact hnl e
  have hloop := line_comment_loop_all ('/' :: '/' :: body) 0 1 2 hw
    (by simp only [List.length_cons]; omega)
  have h1 : advance_line '/' 1 = 1 := by decide
  have h2 : advance_column '/' 1 = 2 := by decide
  unfold tokenize
  rw [List.length_cons, tokenize_loop_cons, scan_step_line_comment_eq, h1, h2]
  simp only [step_line_comment, hloop, List.length_cons, tokenize_loop_nil]
  cases tk.options.include_comments <;>
    simp only [Option.map_some', Bool.false_eq_true, ↓reduceIte, Option.toList_none,
      Option.toList_some, List.nil_append, List.singleton_append, Option.some.injEq,
      List.cons.injEq, and_true, true_and, create_token, Token.mk.injEq] <;> omega

/-! ## Facts about a lone character -/

theorem find_operator_none_of_head (ops : List (List Char)) (c : Char)
    (h : ∀ op ∈ ops, op ≠ [] ∧ op.head? ≠ some c) : find_operator ops [c] = none := by
  induction ops with
  | nil => rfl
  | cons o os ih =>
    have ho := h o (List.mem_cons_self _ _)
    have hc : (decide (o.length ≤ [c].length) && List.take o.length [c] == o) = false := by
      cases o with
      | nil => exact absurd rfl ho.1
      | cons d ds =>
        have hd : d ≠ c := fun e => ho.2 (by simp [e])
        cases ds with
        | nil =>
          simp only [List.length_singleton, le_refl, decide_True, List.take_succ_cons,
            List.take_zero, Bool.true_and, beq_eq_false_iff_ne, ne_eq, List.cons.injEq,
            and_true]
          exact fun e => hd e.symm
        | cons e es => simp
    simp only [find_operator, hc, Bool.false_eq_true, ↓reduceIte]
    exact ih (fun op hop => h op (List.mem_cons_of_mem _ hop))

/-- The scan of one character that no branch but the last takes. -/
theorem tokenize_unknown (tk : Tokenizer) (c : Char)
    (h1 : isspace c = false) (h2 : isdigit c = false) (h3 : isalpha c = false)
    (h4 : c ≠ '_') (h5 : c ≠ DQUOTE) (h6 : c ≠ SQUOTE) (h7 : [c] ∉ tk.delimiters)
    (h8 : ∀ op ∈ tk.operators, op ≠ [] ∧ op.head? ≠ some c) :
    tokenize tk [c] = some
      ((if tk.options.skip_unknown then [] else [create_token .TOKEN_IDENTIFIER [c] 1 1]) ++
        [create_token .TOKEN_EOF [] 1 2]) := by
  have hnl := ne_newline_of_not_isspace c h1
  have hf := find_operator_none_of_head tk.operators c h8
  have h45 : (isalpha c || c == '_') = false := by
    simp only [h3, Bool.false_or, beq_eq_false_iff_ne, ne_eq]
    exact h4
  have h56 : (c == DQUOTE || c == SQUOTE) = false := by
    simp only [Bool.or_eq_false_iff, beq_eq_false_iff_ne, ne_eq]
    exact ⟨h5, h6⟩
  have hd : is_delimiter tk c = false := by
    unfold is_delimiter
    simp only [List.any_eq_false, beq_iff_eq]
    intro d hd e
    exact h7 (e ▸ hd)
  have hn1 : ((none : Option Char) == some '/') = false := rfl
  have hn2 : ((none : Option Char) == some '*') = false := rfl
  have hstep : scan_step tk c [] 1 1 = step_unknown tk c [] 1 1 1 2 := by
    unfold scan_step
    simp only [h1, h2, h45, h56, hf, hd, hn1, hn2, List.head?_nil, Bool.and_false,
      Bool.false_eq_true, ↓reduceIte, advance_line_of_ne c 1 hnl,
      advance_column_of_ne c 1 hnl]
  unfold tokenize
  rw [List.length_singleton, tokenize_loop_cons, hstep]
  simp only [step_unknown, tokenize_loop_nil]
  cases tk.options.skip_unknown <;> rfl

/-! ## Facts about block comments that are not closed -/

theorem block_comment_loop_open (body : List Char) (idx line column : Nat)
    (hclose : ¬ ['*', '/'] <:+: body) (hlen : idx + body.length ≤ 1999) :
    (block_comment_loop body idx line column).rest.length ≤ 1 := by
  induction body, idx, line, column using block_comment_loop.induct with
  | case1 a b cs idx line column hi hab =>
    exfalso
    apply hclose
    simp only [Bool.and_eq_true, beq_iff_eq] at hab
    exact ⟨[], cs, by simp [hab.1, hab.2]⟩
  | case2 a b cs idx line column hi hab ih =>
    simp only [block_comment_loop, hi, hab, ↓reduceIte, Bool.false_eq_true]
    apply ih
    · intro h
      exact hclose (h.trans (List.suffix_cons a (b :: cs)).isInfix)
    · simp only [List.length_cons] at hlen ⊢
      omega
  | case3 a b cs idx line column hi =>
    simp only [List.length_cons] at hlen
    omega
  | case4 rest idx line column hne =>
    unfold block_comment_loop
    split
    · exact absurd rfl (hne _ _ _)
    · cases rest with
      | nil => simp
      | cons x xs =>
        cases xs with
        | nil => simp
        | cons y ys => exact absurd rfl (hne _ _ _)

theorem scan_step_comment (tk : Tokenizer) (ch : Char) (rest : List Char) (sl sc : Nat)
    (t : Token) (h : (scan_step tk ch rest sl sc).emit = some t)
    (ht : t.type = .TOKEN_COMMENT) : rest ≠ [] := by
  revert h
  apply scan_step_cases (fun r => r.emit = some t → rest ≠ [])
  case h1 =>
    intro _ h
    unfold step_whitespace at h
    split at h
    · simp only [Option.some.injEq] at h
      subst h
      simp [create_token] at ht
    · simp at h
  case h2 =>
    intro _ _ c3 _ e
    simp [e] at c3
  case h3 =>
    intro _ _ c3 _ e
    simp [e] at c3
  case h4 =>
    intro _ _ _ _ h
    simp only [step_number, Option.some.injEq] at h
    subst h
    simp [create_token] at ht
  case h5 =>
    intro _ _ _ _ _ h
    simp only [step_ident, Option.some.injEq] at h
    subst h
    simp only [create_token] at ht
    split at ht <;> simp at ht
  case h6 =>
    intro _ _ _ _ _ _ h
    simp only [step_string, Option.some.injEq] at h
    subst h
    simp [create_token] at ht
  case h7 =>
    intro op _ _ _ _ _ _ _ _ h
    simp only [step_operator, Option.some.injEq] at h
    subst h
    simp [create_token] at ht
  case h8 =>
    intro _ _ _ _ _ _ _ _ _ h
    simp only [step_delimiter, Option.some.injEq] at h
    subst h
    simp [create_token] at ht
  case h9 =>
    intro _ _ _ _ _ _ _ _ _ h
    unfold step_unknown at h
    simp only at h
    split at h
    · simp at h
    · simp only [Option.some.injEq] at h
      subst h
      simp [create_token] at ht

theorem tokenize_loop_short_no_comment (tk : Tokenizer) (fuel : Nat) (inp : List Char)
    (line column : Nat) (ts : List Token) (hlen : inp.length ≤ 1)
    (h : tokenize_loop tk fuel inp line column = some ts) :
    ∀ t ∈ ts, t.type ≠ .TOKEN_COMMENT := by
  induction fuel generalizing inp line column ts with
  | zero => simp [tokenize_loop] at h
  | succ f ih =>
    cases inp with
    | nil =>
      rw [tokenize_loop_nil] at h
      injection h with h
      subst h
      simp [create_token]
    | cons ch rest =>
      have hr : rest = [] := List.length_eq_zero.1 (by simp only [List.length_cons] at hlen; omega)
      subst hr
      obtain ⟨ts', h1, h2⟩ := tokenize_loop_cons_some tk f ch [] line column ts h
      have hs := (scan_step_suffix tk ch [] line column).length_le
      subst h2
      intro t ht
      rcases List.mem_append.1 ht with e | e
      · intro hty
        exact scan_step_comment tk ch [] line column t (by simpa using e) hty rfl
      · exact ih _ _ _ _ (by simpa using hs) h1 t e

theorem scan_step_block_comment_eq (tk : Tokenizer) (rest : List Char) (sl sc : Nat) :
    scan_step tk '/' ('*' :: rest) sl sc
      = step_block_comment tk ('*' :: rest) sl sc (advance_line '/' sl)
          (advance_column '/' sc) := by
  have h1 : isspace '/' = false := by decide
  have h2 : (some '*' == some '/') = false := by decide
  unfold scan_step
  simp only [h1, h2, List.head?_cons, beq_self_eq_true, Bool.and_self, Bool.and_false,
    Bool.false_eq_true, ↓reduceIte]

/-- The scan of a block comment that is not closed and fits the comment
buffer: the comment token, when comments are included, holds the input or the
input without its last character, and no other token is a comment. -/
theorem tokenize_open_comment (tk : Tokenizer) (hne : [] ∉ tk.operators) (body : List Char)
    (hclose : ¬ ['*', '/'] <:+: body) (hlen : body.length ≤ 1997) :
    ∃ c ts, ['/', '*'] <+: c ∧ c <+: '/' :: '*' :: body ∧ body.length + 1 ≤ c.length ∧
      tokenize tk ('/' :: '*' :: body) = some
        ((if tk.options.include_comments then [create_token .TOKEN_COMMENT c 1 1] else [])
          ++ ts) ∧
      ∀ t ∈ ts, t.type ≠ .TOKEN_COMMENT := by
  have hbr := block_comment_loop_buf_rest body 2 (advance_line '/' 1) (advance_column '/' 1 + 2)
  have hop := block_comment_loop_open body 2 (advance_line '/' 1) (advance_column '/' 1 + 2)
    hclose (by omega)
  generalize hr : block_comment_loop body 2 (advance_line '/' 1) (advance_column '/' 1 + 2) = r
    at hbr hop
  have hl := congrArg List.length hbr
  simp only [List.length_append] at hl
  obtain ⟨ts, hts⟩ := tokenize_loop_total tk hne (body.length + 1) r.rest r.line r.column
    (by omega)
  refine ⟨'/' :: '*' :: r.buf, ts, ⟨r.buf, rfl⟩, ⟨r.rest, ?_⟩, ?_, ?_,
    tokenize_loop_short_no_comment tk _ _ _ _ ts hop hts⟩
  · simp only [List.cons_append, hbr]
  · simp only [List.length_cons]
    omega
  · unfold tokenize
    rw [List.length_cons, List.length_cons, tokenize_loop_cons, scan_step_block_comment_eq]
    simp only [step_block_comment, List.tail_cons, hr, hts, Option.map_some', Option.some.injEq,
      List.append_cancel_right_eq]
    cases tk.options.include_comments <;> rfl

/-! ## Facts about whitespace tokens -/

theorem whitespace_loop_buf (inp : List Char) (idx line column : Nat) :
    (whitespace_loop inp idx line column).buf = (inp.takeWhile isspace).take (999 - idx) := by
  induction inp generalizing idx line column with
  | nil => simp [whitespace_loop]
  | cons c cs ih =>
    simp only [whitespace_loop]
    split
    · rename_i h
      simp only [Bool.and_eq_true, decide_eq_true_eq] at h
      have h3 : 999 - idx = (999 - (idx + 1)) + 1 := by omega
      simp only [ih, List.takeWhile_cons, h.1, ↓reduceIte]
      rw [h3, List.take_succ_cons]
    · rename_i h
      simp only [Bool.and_eq_true, decide_eq_true_eq, not_and, not_lt] at h
      by_cases hc : isspace c = true
      · have : 999 - idx = 0 := by have := h hc; omega
        simp [this]
      · simp [List.takeWhile_cons, hc]

theorem whitespace_run_cut (inp : List Char) (x : Char)
    (h : (inp.drop (whitespace_run inp).length).head? = some x) (hx : isspace x = true) :
    (whitespace_run inp).length = 999 := by
  unfold whitespace_run at h ⊢
  by_cases hl : (inp.takeWhile isspace).length ≤ 999
  · exfalso
    rw [List.take_of_length_le hl] at h
    have h2 : inp.drop (inp.takeWhile isspace).length = inp.dropWhile isspace := by
      have e := List.takeWhile_append_dropWhile isspace inp
      have e2 := List.drop_left (inp.takeWhile isspace) (inp.dropWhile isspace)
      rw [e] at e2
      exact e2
    rw [h2] at h
    have h3 := List.head?_dropWhile_not isspace inp
    rw [h] at h3
    simp [hx] at h3
  · rw [List.length_take]
    omega

theorem scan_step_whitespace (tk : Tokenizer) (ch : Char) (rest : List Char) (sl sc : Nat)
    (hw : tk.options.include_whitespace = true) (hs : isspace ch = true) :
    (scan_step tk ch rest sl sc).emit
        = some (create_token .TOKEN_WHITESPACE (whitespace_run (ch :: rest)) sl sc) ∧
      (scan_step tk ch rest sl sc).rest
        = (ch :: rest).drop (whitespace_run (ch :: rest)).length := by
  have hb := whitespace_loop_buf (ch :: rest) 0 (advance_line ch sl) (advance_column ch sc)
  have hbr := whitespace_loop_buf_rest (ch :: rest) 0 (advance_line ch sl) (advance_column ch sc)
  have hstep : scan_step tk ch rest sl sc
      = step_whitespace tk ch rest sl sc (advance_line ch sl) (advance_column ch sc) := by
    unfold scan_step
    simp only [hs, ↓reduceIte]
  rw [hstep]
  simp only [step_whitespace, hw, ↓reduceIte]
  rw [Nat.sub_zero] at hb
  constructor
  · rw [hb]
    rfl
  · unfold whitespace_run
    rw [← hb]
    have e := List.drop_left
      (whitespace_loop (ch :: rest) 0 (advance_line ch sl) (advance_column ch sc)).buf
      (whitespace_loop (ch :: rest) 0 (advance_line ch sl) (advance_column ch sc)).rest
    rw [hbr] at e
    exact e.symm

theorem scan_step_whitespace_emit (tk : Tokenizer) (ch : Char) (rest : List Char) (sl sc : Nat)
    (t : Token) (h : (scan_step tk ch rest sl sc).emit = some t)
    (ht : t.type = .TOKEN_WHITESPACE) :
    tk.options.include_whitespace = true ∧ isspace ch = true := by
  revert h
  apply scan_step_cases
    (fun r => r.emit = some t → tk.options.include_whitespace = true ∧ isspace ch = true)
  case h1 =>
    intro c1 h
    unfold step_whitespace at h
    split at h
    · rename_i hw
      exact ⟨hw, c1⟩
    · simp at h
  case h2 =>
    intro _ _ _ h
    unfold step_line_comment at h
    simp only at h
    split at h
    · simp only [Option.some.injEq] at h
      subst h
      simp [create_token] at ht
    · simp at h
  case h3 =>
    intro _ _ _ h
    unfold step_block_comment at h
    simp only at h
    split at h
    · simp only [Option.some.injEq] at h
      subst h
      simp [create_token] at ht
    · simp at h
  case h4 =>
    intro _ _ _ _ h
    simp only [step_number, Option.some.injEq] at h
    subst h
    simp [create_token] at ht
  case h5 =>
    intro _ _ _ _ _ h
    simp only [step_ident, Option.some.injEq] at h
    subst h
    simp only [create_token] at ht
    split at ht <;> simp at ht
  case h6 =>
    intro _ _ _ _ _ _ h
    simp only [step_string, Option.some.injEq] at h
    subst h
    simp [create_token] at ht
  case h7 =>
    intro op _ _ _ _ _ _ _ _ h
    simp only [step_operator, Option.some.injEq] at h
    subst h
    simp [create_token] at ht
  case h8 =>
    intro _ _ _ _ _ _ _ _ _ h
    simp only [step_delimiter, Option.some.injEq] at h
    subst h
    simp [create_token] at ht
  case h9 =>
    intro _ _ _ _ _ _ _ _ _ h
    unfold step_unknown at h
    simp only at h
    split at h
    · simp at h
    · simp only [Option.some.injEq] at h
      subst h
      simp [create_token] at ht

theorem tokenize_loop_no_whitespace (tk : Tokenizer) (fuel : Nat) (inp : List Char)
    (line column : Nat) (ts : List Token) (hw : tk.options.include_whitespace = false)
    (h : tokenize_loop tk fuel inp line column = some ts) :
    ∀ t ∈ ts, t.type ≠ .TOKEN_WHITESPACE := by
  induction fuel generalizing inp line column ts with
  | zero => simp [tokenize_loop] at h
  | succ f ih =>
    cases inp with
    | nil =>
      rw [tokenize_loop_nil] at h
      injection h with h
      subst h
      simp [create_token]
    | cons ch rest =>
      obtain ⟨ts', h1, h2⟩ := tokenize_loop_cons_some tk f ch rest line column ts h
      subst h2
      intro t ht
      rcases List.mem_append.1 ht with e | e
      · intro hty
        have := (scan_step_whitespace_emit tk ch rest line column t (by simpa using e) hty).1
        rw [hw] at this
        exact absurd this (by simp)
      · exact ih _ _ _ _ h1 t e

/-- An iteration consumes at least one character, unless it adds the empty
operator as a token. -/
theorem scan_step_consumes (tk : Tokenizer) (ch : Char) (rest : List Char) (sl sc : Nat) :
    (scan_step tk ch rest sl sc).rest.length ≤ rest.length ∨
      (scan_step tk ch rest sl sc).emit = some (create_token .TOKEN_OPERATOR [] sl sc) := by
  apply scan_step_cases (fun r => r.rest.length ≤ rest.length ∨
      r.emit = some (create_token .TOKEN_OPERATOR [] sl sc))
  case h1 =>
    intro c1
    left
    unfold step_whitespace
    split
    · have h := whitespace_loop_buf_rest rest (0 + 1) (advance_line ch (advance_line ch sl))
        (advance_column ch (advance_column ch sc))
      have h2 := congrArg List.length h
      simp only [whitespace_loop, c1, Bool.true_and, Nat.ofNat_pos, decide_True, ↓reduceIte]
      simp only [List.length_append] at h2
      omega
    · exact le_refl _
  case h2 =>
    intro _ c2 _
    left
    have hn : (ch != NL) = true := by subst c2; decide
    have h := line_comment_loop_buf_rest rest (0 + 1) (advance_line ch sl) (advance_column ch sc + 1)
    have h2 := congrArg List.length h
    simp only [step_line_comment, line_comment_loop, hn, Bool.true_and, Nat.ofNat_pos,
      decide_True, ↓reduceIte]
    simp only [List.length_append] at h2
    omega
  case h3 =>
    intro _ _ _
    left
    have h := block_comment_loop_buf_rest rest.tail 2 (advance_line ch sl)
      (advance_column ch sc + 2)
    have h2 := congrArg List.length h
    simp only [List.length_append, List.length_tail] at h2
    simp only [step_block_comment]
    omega
  case h4 =>
    intro _ _ _ c4
    left
    have h := number_loop_buf_rest rest (0 + 1) (advance_line ch sl) (advance_column ch sc + 1)
    have h2 := congrArg List.length h
    simp only [step_number, number_loop, c4, Bool.true_or, Bool.true_and, Nat.ofNat_pos,
      decide_True, ↓reduceIte]
    simp only [List.length_append] at h2
    omega
  case h5 =>
    intro _ _ _ _ c5
    left
    have c5' : (isalnum ch || ch == '_') = true := by
      unfold isalnum
      simp only [Bool.or_eq_true, beq_iff_eq] at c5 ⊢
      tauto
    have h := ident_loop_buf_rest rest (0 + 1) (advance_line ch sl) (advance_column ch sc + 1)
    have h2 := congrArg List.length h
    simp only [step_ident, ident_loop, c5', Bool.true_and, Nat.ofNat_pos,
      decide_True, ↓reduceIte]
    simp only [List.length_append] at h2
    omega
  case h6 =>
    intro _ _ _ _ _ _
    left
    have h := string_loop_buf_rest ch rest 0 (advance_line ch sl) (advance_column ch sc + 1)
    have h2 := congrArg List.length h
    simp only [List.length_append] at h2
    simp only [step_string, List.length_tail]
    omega
  case h7 =>
    intro op c1 c2 c3 c4 c5 c6 c7 hf
    cases op with
    | nil =>
      right
      rfl
    | cons o os =>
      left
      simp only [step_operator, List.length_cons, List.drop_succ_cons, List.length_drop]
      omega
  case h8 =>
    intro _ _ _ _ _ _ _ _ _
    left
    exact le_refl _
  case h9 =>
    intro _ _ _ _ _ _ _ _ _
    left
    exact le_refl _

theorem whitespace_run_ne_nil (ch : Char) (rest : List Char) (h : isspace ch = true) :
    whitespace_run (ch :: rest) ≠ [] := by
  simp [whitespace_run, List.takeWhile_cons, h]

theorem whitespace_run_length_le (inp : List Char) : (whitespace_run inp).length ≤ inp.length := by
  unfold whitespace_run
  have h2 := (List.takeWhile_prefix isspace (l := inp)).length_le
  rw [List.length_take]
  omega

theorem tokenize_spans_loop_cons_some (tk : Tokenizer) (len fuel : Nat) (ch : Char)
    (rest : List Char) (line column : Nat) (ps : List (Nat × Token))
    (h : tokenize_spans_loop tk len (fuel + 1) (ch :: rest) line column = some ps) :
    ∃ ps', tokenize_spans_loop tk len fuel (scan_step tk ch rest line column).rest
          (scan_step tk ch rest line column).line
          (scan_step tk ch rest line column).column = some ps' ∧
      ps = (scan_step tk ch rest line column).emit.toList.map
          (fun t => (len - (rest.length + 1), t)) ++ ps' := by
  simp only [tokenize_spans_loop] at h
  cases h' : tokenize_spans_loop tk len fuel (scan_step tk ch rest line column).rest
    (scan_step tk ch rest line column).line (scan_step tk ch rest line column).column with
  | none => simp [h'] at h
  | some ps' =>
    simp only [h', Option.some.injEq] at h
    exact ⟨ps', rfl, h.symm⟩

theorem tokenize_spans_loop_whitespace (tk : Tokenizer) (input : List Char) (fuel : Nat)
    (inp : List Char) (line column : Nat) (ps : List (Nat × Token))
    (hsuf : inp <:+ input)
    (h : tokenize_spans_loop tk input.length fuel inp line column = some ps) :
    (∀ p ∈ ps, input.length - inp.length ≤ p.1) ∧
    (∀ p ∈ ps, p.2.type = .TOKEN_WHITESPACE →
      p.2.value = whitespace_run (input.drop p.1) ∧ p.2.value ≠ []) ∧
    ps.Chain' whitespace_split ∧
    (∀ q, ps.head? = some q → q.2.type = .TOKEN_WHITESPACE →
      input.length - inp.length < q.1 ∨ ∃ ch rest, inp = ch :: rest ∧ isspace ch = true) := by
  induction fuel generalizing inp line column ps with
  | zero => simp [tokenize_spans_loop] at h
  | succ f ih =>
    cases inp with
    | nil =>
      simp only [tokenize_spans_loop, Option.some.injEq] at h
      subst h
      refine ⟨by simp, ?_, by simp, ?_⟩
      · intro p hp ht
        simp only [List.mem_singleton] at hp
        subst hp
        simp [create_token] at ht
      · intro q hq ht
        simp only [List.head?_cons, Option.some.injEq] at hq
        subst hq
        simp [create_token] at ht
    | cons ch rest =>
      obtain ⟨ps', h', hps⟩ := tokenize_spans_loop_cons_some tk _ f ch rest line column ps h
      have hsuf' := (scan_step_suffix tk ch rest line column).trans hsuf
      obtain ⟨i1, i2, i3, i4⟩ := ih _ _ _ _ hsuf' h'
      obtain ⟨pre, hpre⟩ := hsuf
      have hlen : input.length = pre.length + (rest.length + 1) := by
        rw [← hpre]
        simp
      have hd : input.drop (input.length - (rest.length + 1)) = ch :: rest := by
        rw [← hpre]
        simp
      have hle := (scan_step_suffix tk ch rest line column).length_le
      simp only [List.length_cons] at hle i1 i4 ⊢
      cases he : (scan_step tk ch rest line column).emit with
      | none =>
        have hc : (scan_step tk ch rest line column).rest.length ≤ rest.length := by
          rcases scan_step_consumes tk ch rest line column with hc | hc
          · exact hc
          · rw [he] at hc
            exact absurd hc (by simp)
        simp only [he, Option.toList_none, List.map_nil, List.nil_append] at hps
        subst hps
        refine ⟨fun p hp => ?_, i2, i3, fun q hq ht => ?_⟩
        · have := i1 p hp
          omega
        · left
          have hq' : q ∈ ps := List.mem_of_mem_head? hq
          have := i1 q hq'
          omega
      | some t =>
        simp only [he, Option.toList_some, List.map_cons, List.map_nil,
          List.singleton_append] at hps
        subst hps
        have hws : t.type = .TOKEN_WHITESPACE →
            isspace ch = true ∧ t.value = whitespace_run (ch :: rest) ∧
              (scan_step tk ch rest line column).rest
                = (ch :: rest).drop (whitespace_run (ch :: rest)).length := by
          intro ht
          obtain ⟨hw, hs⟩ := scan_step_whitespace_emit tk ch rest line column t he ht
          obtain ⟨e1, e2⟩ := scan_step_whitespace tk ch rest line column hw hs
          rw [he] at e1
          injection e1 with e1
          exact ⟨hs, by rw [e1]; rfl, e2⟩
        refine ⟨?_, ?_, ?_, ?_⟩
        · intro p hp
          rcases List.mem_cons.1 hp with e | e
          · subst e
            exact le_refl _
          · have := i1 p e
            omega
        · intro p hp ht
          rcases List.mem_cons.1 hp with e | e
          · subst e
            obtain ⟨hs, hv, _⟩ := hws ht
            simp only [hd]
            exact ⟨hv, hv ▸ whitespace_run_ne_nil ch rest hs⟩
          · exact i2 p e ht
        · refine List.Chain'.cons' i3 ?_
          intro q hq ht hqt
          obtain ⟨hs, hv, hr⟩ := hws ht
          have hrl := whitespace_run_length_le (ch :: rest)
          simp only [List.length_cons] at hrl
          have hrest : (scan_step tk ch rest line column).rest.length
              = rest.length + 1 - (whitespace_run (ch :: rest)).length := by
            rw [hr]
            simp
          rcases i4 q hq hqt with e | ⟨c', r', e1, e2⟩
          · right
            simp only [hv]
            omega
          · left
            simp only [hv]
            refine whitespace_run_cut (ch :: rest) c' ?_ e2
            rw [← hr, e1]
            rfl
        · intro q hq ht
          simp only [List.head?_cons, Option.some.injEq] at hq
          subst hq
          exact Or.inr ⟨ch, rest, rfl, (hws ht).1⟩

/-! ## Facts about trees -/

set_option maxHeartbeats 1000000 in
theorem children_induction (P : ASTNode → Prop) (hnull : P .null)
    (hnode : ∀ n, n ≠ .null → (∀ c ∈ children n, P c) → P n) : ∀ n, P n := by
  intro n
  refine ASTNode.rec (motive_1 := P) (motive_2 := fun l => ∀ c ∈ l, P c) ?_ ?_ ?_ ?_ ?_ ?_ ?_ ?_ ?_ ?_
    ?_ ?_ ?_ ?_ ?_ ?_ ?_ ?_ ?_ ?_ ?_ ?_ ?_ ?_ ?_ ?_ ?_ ?_ ?_ ?_ ?_ ?_ n
  case refine_1 => exact hnull
  case refine_31 => intro c hc; simp at hc
  case refine_32 =>
    intro head tail h1 h2 c hc
    rcases List.mem_cons.1 hc with e | e
    · exact e ▸ h1
    · exact h2 c e
  all_goals
    intros
    apply hnode _ (by simp)
    intro c hc
    simp only [children, List.mem_cons, List.mem_append, List.mem_singleton,
      List.not_mem_nil, or_false] at hc
    try
      repeat' (refine Or.elim hc ?_ ?_ <;> clear hc <;> intro hc)
      all_goals first | (subst hc; assumption) | solve_by_elim

theorem tree_fold_list_eq_map {β : Type} (z : β) (f : ASTNode → List β → β)
    (l : List ASTNode) : tree_fold_list z f l = l.map (tree_fold z f) := by
  induction l with
  | nil => rfl
  | cons c cs ih => simp [tree_fold_list, ih]

theorem tree_fold_eq {β : Type} (z : β) (f : ASTNode → List β → β) (n : ASTNode)
    (h : n ≠ .null) : tree_fold z f n = f n ((children n).map (tree_fold z f)) := by
  cases n <;> first
    | exact absurd rfl h
    | simp [tree_fold, children, tree_fold_list_eq_map]

theorem preorder_null : preorder .null = [] := rfl

theorem preorder_eq (n : ASTNode) (h : n ≠ .null) :
    preorder n = n :: ((children n).map preorder).flatten := by
  unfold preorder
  rw [tree_fold_eq _ _ n h]

theorem mem_preorder_self (n : ASTNode) (h : n ≠ .null) : n ∈ preorder n := by
  rw [preorder_eq n h]
  exact List.mem_cons_self _ _

theorem preorder_child_subset (n c : ASTNode) (h : n ≠ .null) (hc : c ∈ children n) :
    preorder c ⊆ preorder n := by
  intro x hx
  rw [preorder_eq n h]
  refine List.mem_cons_of_mem _ (List.mem_flatten.2 ⟨preorder c, ?_, hx⟩)
  exact List.mem_map.2 ⟨c, hc, rfl⟩

theorem all_kinds_self (kinds : NodeType → Bool) (n : ASTNode) (k : NodeType)
    (h : all_kinds kinds n = true) (hk : node_type n = some k) : kinds k = true := by
  have hn : n ≠ .null := by
    intro e
    subst e
    simp [node_type] at hk
  unfold all_kinds at h
  have := List.all_eq_true.1 h n (mem_preorder_self n hn)
  simpa [hk] using this

theorem all_kinds_child (kinds : NodeType → Bool) (n c : ASTNode)
    (h : all_kinds kinds n = true) (hn : n ≠ .null) (hc : c ∈ children n) :
    all_kinds kinds c = true := by
  unfold all_kinds at h ⊢
  rw [List.all_eq_true] at h ⊢
  exact fun x hx => h x (preorder_child_subset n c hn hc hx)

theorem parents_absent_self (n : ASTNode) (b : NodeBase)
    (h : parents_absent n = true) (hb : node_base n = some b) : b.parent = none := by
  have hn : n ≠ .null := by
    intro e
    subst e
    simp [node_base] at hb
  unfold parents_absent at h
  have := List.all_eq_true.1 h n (mem_preorder_self n hn)
  simpa [hb] using this

theorem parents_absent_child (n c : ASTNode)
    (h : parents_absent n = true) (hn : n ≠ .null) (hc : c ∈ children n) :
    parents_absent c = true := by
  unfold parents_absent at h ⊢
  rw [List.all_eq_true] at h ⊢
  exact fun x hx => h x (preorder_child_subset n c hn hc hx)

/-! ## Facts about the traversal -/

theorem traverse_items_eq_foldl {σ : Type} (enter exit : Option (VisitorFunc σ))
    (l : List ASTNode) (parent : ASTNode) (data : σ) :
    traverse_items enter exit l parent data
      = l.foldl (fun d c => traverse_ast_with_parent enter exit c parent d) data := by
  induction l generalizing data with
  | nil => rfl
  | cons c cs ih => simp [traverse_items, ih]

theorem traverse_null {σ : Type} (enter exit : Option (VisitorFunc σ)) (parent : ASTNode)
    (data : σ) : traverse_ast_with_parent enter exit .null parent data = data := by
  simp [traverse_ast_with_parent]

theorem traverse_guarded {σ : Type} (enter exit : Option (VisitorFunc σ)) (c parent : ASTNode)
    (data : σ) :
    (if c.is_null = true then data else traverse_ast_with_parent enter exit c parent data)
      = traverse_ast_with_parent enter exit c parent data := by
  cases c <;> simp [ASTNode.is_null, traverse_null]

/-- The traversal of a node: `enter`, the traversal of the children the
`switch` names, in order, and `exit`. -/
theorem traverse_eq {σ : Type} (enter exit : Option (VisitorFunc σ)) (n parent : ASTNode)
    (data : σ) (h : n ≠ .null) :
    traverse_ast_with_parent enter exit n parent data
      = call_visitor exit n parent
          ((traversed n).foldl (fun d c => traverse_ast_with_parent enter exit c n d)
            (call_visitor enter n parent data)) := by
  cases n <;> first
    | exact absurd rfl h
    | simp [traverse_ast_with_parent, traversed, traverse_items_eq_foldl, traverse_guarded]

theorem traversed_sublist (n : ASTNode) : (traversed n).Sublist (children n) := by
  cases n <;> simp [traversed, children]

theorem traversed_eq_children (n : ASTNode) (k : NodeType) (hk : node_type n = some k)
    (h : traversal_kind k = true) : traversed n = children n := by
  cases n <;> simp [node_type] at hk <;> subst hk <;>
    first | rfl | simp [traversal_kind] at h

theorem traverse_foldl_log (l : List ASTNode) (n : ASTNode) (log : List Event)
    (ih : ∀ c ∈ l, ∀ p log,
      traverse_ast_with_parent (some record_enter) (some record_exit) c p log
        = log ++ trace c p) :
    l.foldl (fun d c =>
        traverse_ast_with_parent (some record_enter) (some record_exit) c n d) log
      = log ++ (l.map fun c => trace c n).flatten := by
  induction l generalizing log with
  | nil => simp
  | cons c cs ihl =>
    simp only [List.foldl_cons, List.map_cons, List.flatten_cons]
    rw [ih c (List.mem_cons_self _ _), ihl _ (fun x hx => ih x (List.mem_cons_of_mem _ hx)),
      List.append_assoc]

/-- The recording visitors only add to the log they are given. -/
theorem traverse_log (n : ASTNode) : ∀ (p : ASTNode) (log : List Event),
    traverse_ast_with_parent (some record_enter) (some record_exit) n p log
      = log ++ trace n p := by
  induction n using children_induction with
  | hnull =>
    intro p log
    simp [trace, traverse_null]
  | hnode n hn ih =>
    intro p log
    have hsub : ∀ c ∈ traversed n, ∀ p log,
        traverse_ast_with_parent (some record_enter) (some record_exit) c p log
          = log ++ trace c p :=
      fun c hc => ih c ((traversed_sublist n).subset hc)
    unfold trace
    rw [traverse_eq _ _ n p log hn, traverse_eq _ _ n p [] hn,
      traverse_foldl_log _ n _ hsub, traverse_foldl_log _ n _ hsub]
    simp [call_visitor, record_enter, record_exit]

/-- The calls made on a node: `enter` on it, the calls made on the children
the `switch` names, in order, each with the node as parent, and `exit` on it. -/
theorem trace_eq (n parent : ASTNode) (h : n ≠ .null) :
    trace n parent
      = Event.enter n parent :: ((traversed n).map fun c => trace c n).flatten
          ++ [Event.exit n parent] := by
  unfold trace
  rw [traverse_eq _ _ n parent [] h,
    traverse_foldl_log _ n _ (fun c _ => traverse_log c)]
  simp [call_visitor, record_enter, record_exit, trace]

theorem trace_null (parent : ASTNode) : trace .null parent = [] := by
  simp [trace, traverse_null]

theorem run_events_append {σ : Type} (enter exit : Option (VisitorFunc σ))
    (a b : List Event) (data : σ) :
    run_events enter exit (a ++ b) data = run_events enter exit b (run_events enter exit a data) := by
  induction a generalizing data with
  | nil => rfl
  | cons e es ih => cases e <;> simp [run_events, ih]

theorem traverse_foldl_run {σ : Type} (enter exit : Option (VisitorFunc σ))
    (l : List ASTNode) (n : ASTNode) (data : σ)
    (ih : ∀ c ∈ l, ∀ p d,
      traverse_ast_with_parent enter exit c p d = run_events enter exit (trace c p) d) :
    l.foldl (fun d c => traverse_ast_with_parent enter exit c n d) data
      = run_events enter exit (l.map fun c => trace c n).flatten data := by
  induction l generalizing data with
  | nil => rfl
  | cons c cs ihl =>
    simp only [List.foldl_cons, List.map_cons, List.flatten_cons, run_events_append]
    rw [ih c (List.mem_cons_self _ _), ihl _ (fun x hx => ih x (List.mem_cons_of_mem _ hx))]

/-- Whatever the callbacks, the traversal makes the calls of the trace, in
order. -/
theorem traverse_run {σ : Type} (enter exit : Option (VisitorFunc σ)) (n : ASTNode) :
    ∀ (p : ASTNode) (data : σ),
      traverse_ast_with_parent enter exit n p data = run_events enter exit (trace n p) data := by
  induction n using children_induction with
  | hnull =>
    intro p data
    simp [trace_null, traverse_null, run_events]
  | hnode n hn ih =>
    intro p data
    rw [traverse_eq _ _ n p data hn, trace_eq n p hn,
      traverse_foldl_run enter exit _ n _ (fun c hc => ih c ((traversed_sublist n).subset hc))]
    simp [run_events, run_events_append]

theorem entered_append (a b : List Event) : entered (a ++ b) = entered a ++ entered b := by
  induction a with
  | nil => rfl
  | cons e es ih => cases e <;> simp [entered, ih]

theorem exited_append (a b : List Event) : exited (a ++ b) = exited a ++ exited b := by
  induction a with
  | nil => rfl
  | cons e es ih => cases e <;> simp [exited, ih]

theorem entered_flatten (L : List (List Event)) :
    entered L.flatten = (L.map entered).flatten := by
  induction L with
  | nil => rfl
  | cons l ls ih => simp [entered_append, ih]

theorem exited_flatten (L : List (List Event)) :
    exited L.flatten = (L.map exited).flatten := by
  induction L with
  | nil => rfl
  | cons l ls ih => simp [exited_append, ih]

theorem entered_trace (n parent : ASTNode) (h : n ≠ .null) :
    entered (trace n parent)
      = n :: ((traversed n).map fun c => entered (trace c n)).flatten := by
  rw [trace_eq n parent h]
  simp [entered, entered_append, entered_flatten, Function.comp_def]

theorem exited_trace (n parent : ASTNode) (h : n ≠ .null) :
    exited (trace n parent)
      = ((traversed n).map fun c => exited (trace c n)).flatten ++ [n] := by
  rw [trace_eq n parent h]
  simp [exited, exited_append, exited_flatten, Function.comp_def]

theorem perm_flatten_map {α β : Type} (l : List α) (f g : α → List β)
    (h : ∀ c ∈ l, (f c).Perm (g c)) : (l.map f).flatten.Perm (l.map g).flatten := by
  induction l with
  | nil => simp
  | cons c cs ih =>
    simp only [List.map_cons, List.flatten_cons]
    exact (h c (List.mem_cons_self _ _)).append (ih fun x hx => h x (List.mem_cons_of_mem _ hx))

theorem entered_perm_exited (n : ASTNode) :
    ∀ p, (entered (trace n p)).Perm (exited (trace n p)) := by
  induction n using children_induction with
  | hnull =>
    intro p
    simp [trace_null, entered, exited]
  | hnode n hn ih =>
    intro p
    rw [entered_trace n p hn, exited_trace n p hn]
    refine ((perm_flatten_map _ _ _ ?_).cons n).trans (List.perm_append_singleton n _).symm
    exact fun c hc => ih c ((traversed_sublist n).subset hc) n

theorem node_type_of_ne_null (n : ASTNode) (h : n ≠ .null) : ∃ k, node_type n = some k := by
  cases n <;> first | exact absurd rfl h | exact ⟨_, rfl⟩

/-- On a tree of kinds the traversal covers, the nodes entered are the nodes
of the tree in pre-order. -/
theorem entered_trace_preorder (n : ASTNode) :
    ∀ p, all_kinds traversal_kind n = true → entered (trace n p) = preorder n := by
  induction n using children_induction with
  | hnull =>
    intro p _
    simp [trace_null, entered, preorder_null]
  | hnode n hn ih =>
    intro p hk
    obtain ⟨k, hnk⟩ := node_type_of_ne_null n hn
    rw [entered_trace n p hn, preorder_eq n hn,
      traversed_eq_children n k hnk (all_kinds_self _ n k hk hnk)]
    congr 2
    exact List.map_congr_left fun c hc => ih c hc n (all_kinds_child _ n c hk hn hc)

theorem run_find_nodes (log : List Event) (data : FindNodesData) :
    (run_events (some find_nodes_visitor) none log data).target_type = data.target_type ∧
    (run_events (some find_nodes_visitor) none log data).results.items
      = data.results.items
          ++ (entered log).filter fun m => decide (node_type m = some data.target_type) := by
  induction log generalizing data with
  | nil => simp [run_events, entered]
  | cons e es ih =>
    cases e with
    | enter node parent =>
      simp only [run_events, call_visitor, entered]
      obtain ⟨h1, h2⟩ := ih (find_nodes_visitor node parent data)
      rw [h1, h2]
      unfold find_nodes_visitor
      by_cases hk : node_type node = some data.target_type
      · simp [hk, array_push, List.filter_cons]
      · simp [hk, List.filter_cons]
    | exit node parent =>
      simp only [run_events, call_visitor, entered]
      exact ih data

/-- The query returns the entered nodes of the target kind, in the order of
the `enter` calls. -/
theorem find_nodes_by_type_items (root : ASTNode) (type : NodeType) :
    (find_nodes_by_type root type).items
      = (entered (trace root .null)).filter fun m => decide (node_type m = some type) := by
  unfold find_nodes_by_type traverse_ast
  rw [traverse_run, (run_find_nodes _ _).2]
  rfl

theorem has_constructor_traversal_kind (k : NodeType) (h : has_constructor k = true) :
    traversal_kind k = true := by
  cases k <;> first | rfl | simp [has_constructor] at h

theorem all_kinds_mono (k1 k2 : NodeType → Bool) (h : ∀ k, k1 k = true → k2 k = true)
    (n : ASTNode) (hn : all_kinds k1 n = true) : all_kinds k2 n = true := by
  unfold all_kinds at hn ⊢
  rw [List.all_eq_true] at hn ⊢
  intro x hx
  have := hn x hx
  cases hk : node_type x with
  | none => rfl
  | some k =>
    simp only [hk] at this ⊢
    exact h k this

/-! ## Facts about cloning -/

theorem new_base_eq (b : NodeBase) (h : b.parent = none) : new_base b.line b.column = b := by
  cases b
  simp only [new_base, NodeBase.mk.injEq, true_and]
  exact h.symm

/-- A tree of identifiers, literals and binary expressions, built as the
constructors build, is its own clone. -/
theorem clone_ast_node_eq (n : ASTNode) :
    all_kinds clone_kind n = true → parents_absent n = true → clone_ast_node n = n := by
  induction n using children_induction with
  | hnull => intro _ _; rfl
  | hnode n hn ih =>
    intro hk hp
    cases n with
    | identifier b name =>
      simp only [clone_ast_node, create_identifier,
        new_base_eq b (parents_absent_self _ b hp rfl)]
    | literal b value raw =>
      cases value <;>
        simp only [clone_ast_node, create_literal_string, create_literal_number,
          create_literal_boolean, create_literal_null,
          new_base_eq b (parents_absent_self _ b hp rfl)]
    | binary_expression b op left right =>
      have hl := ih left (by simp [children])
        (all_kinds_child _ _ left hk hn (by simp [children]))
        (parents_absent_child _ left hp hn (by simp [children]))
      have hr := ih right (by simp [children])
        (all_kinds_child _ _ right hk hn (by simp [children]))
        (parents_absent_child _ right hp hn (by simp [children]))
      simp only [clone_ast_node, create_binary_expression, hl, hr,
        new_base_eq b (parents_absent_self _ b hp rfl)]
    | null => exact absurd rfl hn
    | _ =>
      have := all_kinds_self _ _ _ hk rfl
      simp [clone_kind] at this

theorem clone_ast_node_other (n : ASTNode) (k : NodeType) (hk : node_type n = some k)
    (h : clone_kind k = false) : clone_ast_node n = .null := by
  cases n <;> simp [node_type] at hk <;> subst hk <;>
    first | rfl | simp [clone_kind] at h

/-- On a node of a kind the `switch` has no case for, the traversal calls
`enter` and `exit` on the node and descends into nothing. -/
theorem trace_other (n parent : ASTNode) (k : NodeType) (hk : node_type n = some k)
    (h : traversal_kind k = false) :
    trace n parent = [Event.enter n parent, Event.exit n parent] := by
  have hn : n ≠ .null := by
    intro e
    rw [e] at hk
    simp [node_type] at hk
  have ht : traversed n = [] := by
    cases n <;> simp [node_type] at hk <;> subst hk <;>
      first | rfl | simp [traversal_kind] at h
  rw [trace_eq n parent hn, ht]
  rfl

theorem exited_perm_preorder (n : ASTNode) (p : ASTNode)
    (h : all_kinds traversal_kind n = true) : (exited (trace n p)).Perm (preorder n) := by
  rw [← entered_trace_preorder n p h]
  exact (entered_perm_exited n p).symm

/-! ## Facts about the printer -/

theorem pretty_print_items_eq (l : List ASTNode) (indent : Int) :
    pretty_print_items l indent = (l.map fun c => pretty_print_lines c indent).flatten := by
  induction l with
  | nil => rfl
  | cons c cs ih => simp [pretty_print_items, ih]

theorem pretty_print_null (indent : Int) : pretty_print_lines .null indent = [] := by
  simp [pretty_print_lines]

theorem pretty_print_guarded (c : ASTNode) (indent : Int) :
    (if c.is_null = true then [] else pretty_print_lines c indent)
      = pretty_print_lines c indent := by
  cases c <;> simp [ASTNode.is_null, pretty_print_null]

/-- The lines of a node: its own, then the lines of the children the `switch`
names, in order, one level deeper. -/
theorem pretty_print_lines_eq (n : ASTNode) (indent : Int) (h : n ≠ .null) :
    pretty_print_lines n indent
      = (n, indent) :: ((printed n).map fun c => pretty_print_lines c (indent + 1)).flatten := by
  cases n <;> first
    | exact absurd rfl h
    | simp [pretty_print_lines, printed, pretty_print_items_eq, pretty_print_guarded]

theorem printed_eq_traversed (n : ASTNode) (k : NodeType) (hk : node_type n = some k)
    (h : print_kind k = true) : printed n = traversed n := by
  cases n <;> simp [node_type] at hk <;> subst hk <;>
    first | rfl | simp [print_kind] at h

theorem printed_eq_children (n : ASTNode) (k : NodeType) (hk : node_type n = some k)
    (h : has_constructor k = true) : printed n = children n := by
  cases n <;> simp [node_type] at hk <;> subst hk <;>
    first | rfl | simp [has_constructor] at h

theorem flatten_map_congr {α β : Type} (l : List α) (f g : α → List β)
    (h : ∀ c ∈ l, f c = g c) : (l.map f).flatten = (l.map g).flatten := by
  rw [List.map_congr_left h]

/-- On a tree without if, while, array, object and property nodes, the nodes
of the lines written are the nodes entered by the traversal. -/
theorem printed_nodes_eq_entered (n : ASTNode) :
    ∀ (indent : Int) (p : ASTNode), all_kinds print_kind n = true →
      (pretty_print_lines n indent).map Prod.fst = entered (trace n p) := by
  induction n using children_induction with
  | hnull =>
    intro indent p _
    simp [pretty_print_null, trace_null, entered]
  | hnode n hn ih =>
    intro indent p hk
    obtain ⟨k, hnk⟩ := node_type_of_ne_null n hn
    rw [pretty_print_lines_eq n indent hn, entered_trace n p hn,
      printed_eq_traversed n k hnk (all_kinds_self _ n k hk hnk)]
    simp only [List.map_cons, List.map_flatten, List.map_map]
    congr 1
    apply flatten_map_congr
    intro c hc
    have hc2 := (traversed_sublist n).subset hc
    exact ih c hc2 (indent + 1) n (all_kinds_child _ n c hk hn hc2)

theorem preorder_depth_null (d : Nat) : preorder_depth .null d = [] := rfl

theorem preorder_depth_eq (n : ASTNode) (d : Nat) (h : n ≠ .null) :
    preorder_depth n d
      = (n, d) :: ((children n).map fun c => preorder_depth c (d + 1)).flatten := by
  unfold preorder_depth
  rw [tree_fold_eq _ _ n h]
  simp [List.map_map, Function.comp_def]

/-- On a tree of constructor kinds the lines written are those of the nodes
in pre-order, each at the starting indent plus its depth. -/
theorem lines_eq_preorder_depth (n : ASTNode) :
    ∀ d : Nat, all_kinds has_constructor n = true →
      pretty_print_lines n (d : Int) = (preorder_depth n d).map fun p => (p.1, (p.2 : Int)) := by
  induction n using children_induction with
  | hnull =>
    intro d _
    simp [pretty_print_null, preorder_depth_null]
  | hnode n hn ih =>
    intro d hk
    obtain ⟨k, hnk⟩ := node_type_of_ne_null n hn
    rw [pretty_print_lines_eq n d hn, preorder_depth_eq n d hn,
      printed_eq_children n k hnk (all_kinds_self _ n k hk hnk)]
    simp only [List.map_cons, List.map_flatten, List.map_map]
    congr 1
    apply flatten_map_congr
    intro c hc
    have := ih c hc (d + 1) (all_kinds_child _ n c hk hn hc)
    simpa using this

theorem flatten_replicate_pair (k : Nat) (c : Char) :
    (List.replicate k [c, c]).flatten = List.replicate (2 * k) c := by
  induction k with
  | zero => rfl
  | succ k ih =>
    rw [List.replicate_succ, List.flatten_cons, ih, Nat.mul_succ]
    rfl

theorem print_json_indent_nat (d : Nat) :
    print_json_indent (d : Int) = List.replicate (2 * d) ' ' := by
  simp [print_json_indent, flatten_replicate_pair]

theorem entered_mem_of_enter (log : List Event) (n p : ASTNode)
    (h : Event.enter n p ∈ log) : n ∈ entered log := by
  induction log with
  | nil => simp at h
  | cons e es ih =>
    rcases List.mem_cons.1 h with e1 | e1
    · subst e1
      simp [entered]
    · cases e <;> simp [entered, ih e1]

/-- Every call of the traversal of a node is a call on the node with the
parent handed in, or a call on a child the `switch` names of the parent it is
handed, that parent being a node entered. -/
theorem trace_parent (n : ASTNode) :
    ∀ (p : ASTNode) (e : Event), e ∈ trace n p →
      (e.node = n ∧ e.parent = p) ∨
      (e.node ∈ traversed e.parent ∧ e.parent ∈ entered (trace n p)) := by
  induction n using children_induction with
  | hnull =>
    intro p e he
    simp [trace_null] at he
  | hnode n hn ih =>
    intro p e he
    have hent : entered (trace n p)
        = n :: ((traversed n).map fun c => entered (trace c n)).flatten :=
      entered_trace n p hn
    rw [trace_eq n p hn] at he
    simp only [List.cons_append, List.mem_cons, List.mem_append, List.mem_flatten,
      List.mem_map, List.mem_singleton, List.not_mem_nil, or_false] at he
    rcases he with e1 | ⟨l, ⟨c, hc, rfl⟩, hel⟩ | e1
    · subst e1
      exact Or.inl ⟨rfl, rfl⟩
    · right
      have hsub : ∀ x ∈ entered (trace c n), x ∈ entered (trace n p) := by
        intro x hx
        rw [hent]
        refine List.mem_cons_of_mem _ (List.mem_flatten.2 ⟨_, List.mem_map.2 ⟨c, hc, rfl⟩, hx⟩)
      rcases ih c ((traversed_sublist n).subset hc) n e hel with ⟨h1, h2⟩ | ⟨h1, h2⟩
      · rw [h1, h2]
        refine ⟨hc, ?_⟩
        rw [hent]
        exact List.mem_cons_self _ _
      · exact ⟨h1, hsub _ h2⟩
    · subst e1
      exact Or.inl ⟨rfl, rfl⟩

/-- The first call made on a node is `enter` and the last is `exit`, both with
the parent handed in. -/
theorem trace_ends (n p : ASTNode) (h : n ≠ .null) :
    (trace n p).head? = some (Event.enter n p) ∧
    (trace n p).getLast? = some (Event.exit n p) := by
  rw [trace_eq n p h]
  constructor
  · rfl
  · rw [List.getLast?_append]
    rfl

/-! ## Facts about balanced texts -/

theorem balanced_loop_plain (c : Char) (cs stack : List Char) (h : is_bracket c = false) :
    balanced_loop (c :: cs) stack = balanced_loop cs stack := by
  simp only [is_bracket, decide_eq_false_iff_not, not_or] at h
  obtain ⟨h1, h2, h3, h4⟩ := h
  simp [balanced_loop, h1, h2, h3, h4]

theorem balanced_loop_open_brace (cs stack : List Char) :
    balanced_loop (LBRACE :: cs) stack = balanced_loop cs (LBRACE :: stack) := by
  simp [balanced_loop]

theorem balanced_loop_open_bracket (cs stack : List Char) :
    balanced_loop (LBRACKET :: cs) stack = balanced_loop cs (LBRACKET :: stack) := by
  simp [balanced_loop]

theorem rbrace_not_open : ¬ (RBRACE = LBRACE ∨ RBRACE = LBRACKET) := by decide

theorem rbracket_not_open : ¬ (RBRACKET = LBRACE ∨ RBRACKET = LBRACKET) := by decide

theorem rbracket_ne_rbrace : ¬ RBRACKET = RBRACE := by decide

theorem balanced_loop_rbrace_nil (cs : List Char) : balanced_loop (RBRACE :: cs) [] = false := by
  simp [balanced_loop, rbrace_not_open]

theorem balanced_loop_rbrace_cons (cs : List Char) (top : Char) (below : List Char) :
    balanced_loop (RBRACE :: cs) (top :: below)
      = if top = LBRACE then balanced_loop cs below else false := by
  simp only [balanced_loop, rbrace_not_open, ↓reduceIte]

theorem balanced_loop_rbracket_nil (cs : List Char) :
    balanced_loop (RBRACKET :: cs) [] = false := by
  simp [balanced_loop, rbracket_not_open, rbracket_ne_rbrace]

theorem balanced_loop_rbracket_cons (cs : List Char) (top : Char) (below : List Char) :
    balanced_loop (RBRACKET :: cs) (top :: below)
      = if top = LBRACKET then balanced_loop cs below else false := by
  simp only [balanced_loop, rbracket_not_open, rbracket_ne_rbrace, ↓reduceIte]

theorem balanced_loop_close_brace (cs stack : List Char) :
    balanced_loop (RBRACE :: cs) (LBRACE :: stack) = balanced_loop cs stack := by
  rw [balanced_loop_rbrace_cons, if_pos rfl]

theorem balanced_loop_close_bracket (cs stack : List Char) :
    balanced_loop (RBRACKET :: cs) (LBRACKET :: stack) = balanced_loop cs stack := by
  rw [balanced_loop_rbracket_cons, if_pos rfl]

theorem neutral_nil : neutral [] := fun _ _ => rfl

theorem neutral_append (a b : List Char) (ha : neutral a) (hb : neutral b) :
    neutral (a ++ b) := by
  intro rest stack
  rw [List.append_assoc, ha, hb]

theorem neutral_cons (c : Char) (t : List Char) (hc : is_bracket c = false) (ht : neutral t) :
    neutral (c :: t) := by
  intro rest stack
  rw [List.cons_append, balanced_loop_plain _ _ _ hc, ht]

theorem neutral_of_plain (t : List Char) (h : ∀ c ∈ t, is_bracket c = false) : neutral t := by
  induction t with
  | nil => exact neutral_nil
  | cons c cs ih =>
    exact neutral_cons c cs (h c (List.mem_cons_self _ _))
      (ih fun x hx => h x (List.mem_cons_of_mem _ hx))

theorem neutral_flatten (L : List (List Char)) (h : ∀ t ∈ L, neutral t) : neutral L.flatten := by
  induction L with
  | nil => exact neutral_nil
  | cons t ts ih =>
    rw [List.flatten_cons]
    exact neutral_append _ _ (h t (List.mem_cons_self _ _))
      (ih fun x hx => h x (List.mem_cons_of_mem _ hx))

theorem neutral_braces (t : List Char) (ht : neutral t) : neutral (LBRACE :: (t ++ [RBRACE])) := by
  intro rest stack
  rw [List.cons_append, balanced_loop_open_brace, List.append_assoc, ht, List.singleton_append,
    balanced_loop_close_brace]

theorem neutral_brackets (t : List Char) (ht : neutral t) :
    neutral (LBRACKET :: (t ++ [RBRACKET])) := by
  intro rest stack
  rw [List.cons_append, balanced_loop_open_bracket, List.append_assoc, ht,
    List.singleton_append, balanced_loop_close_bracket]

theorem balanced_of_neutral (t : List Char) (h : neutral t) : balanced t = true := by
  have := h [] []
  rw [List.append_nil] at this
  rw [balanced, this]
  rfl

theorem balanced_loop_extend (t : List Char) :
    ∀ s1 : List Char, balanced_loop t s1 = true →
      ∀ rest s, balanced_loop (t ++ rest) (s1 ++ s) = balanced_loop rest s := by
  induction t with
  | nil =>
    intro s1 h rest s
    cases s1 with
    | nil => rfl
    | cons a b => simp [balanced_loop] at h
  | cons c cs ih =>
    intro s1 h rest s
    by_cases h1 : c = LBRACE ∨ c = LBRACKET
    · simp only [balanced_loop, h1, ↓reduceIte, List.cons_append] at h ⊢
      exact ih (c :: s1) h rest s
    · by_cases h2 : c = RBRACE
      · subst h2
        cases s1 with
        | nil => rw [balanced_loop_rbrace_nil] at h; exact absurd h (by simp)
        | cons top below =>
          rw [balanced_loop_rbrace_cons] at h
          by_cases ht : top = LBRACE
          · subst ht
            rw [if_pos rfl] at h
            rw [List.cons_append, List.cons_append, balanced_loop_close_brace]
            exact ih below h rest s
          · rw [if_neg ht] at h
            exact absurd h (by simp)
      · by_cases h3 : c = RBRACKET
        · subst h3
          cases s1 with
          | nil => rw [balanced_loop_rbracket_nil] at h; exact absurd h (by simp)
          | cons top below =>
            rw [balanced_loop_rbracket_cons] at h
            by_cases ht : top = LBRACKET
            · subst ht
              rw [if_pos rfl] at h
              rw [List.cons_append, List.cons_append, balanced_loop_close_bracket]
              exact ih below h rest s
            · rw [if_neg ht] at h
              exact absurd h (by simp)
        · have hp : is_bracket c = false := by
            simp only [not_or] at h1
            simp [is_bracket, h1.1, h1.2, h2, h3]
          rw [balanced_loop_plain _ _ _ hp] at h
          rw [List.cons_append, balanced_loop_plain _ _ _ hp]
          exact ih s1 h rest s

/-- A text with balanced braces and brackets is neutral. -/
theorem neutral_of_balanced (t : List Char) (h : balanced t = true) : neutral t := by
  intro rest stack
  simpa using balanced_loop_extend t [] h rest stack

theorem plain_nil : plain [] := fun _ h => by simp at h

theorem plain_cons (c : Char) (t : List Char) (hc : is_bracket c = false) (ht : plain t) :
    plain (c :: t) := by
  intro x hx
  rcases List.mem_cons.1 hx with e | e
  · exact e ▸ hc
  · exact ht x e

theorem plain_append (a b : List Char) (ha : plain a) (hb : plain b) : plain (a ++ b) := by
  intro x hx
  rcases List.mem_append.1 hx with e | e
  · exact ha x e
  · exact hb x e

theorem plain_subset (a b : List Char) (h : a ⊆ b) (hb : plain b) : plain a :=
  fun x hx => hb x (h hx)

theorem plain_replicate (k : Nat) (c : Char) (hc : is_bracket c = false) :
    plain (List.replicate k c) := by
  intro x hx
  rw [(List.mem_replicate.1 hx).2]
  exact hc

theorem plain_flatten (L : List (List Char)) (h : ∀ t ∈ L, plain t) : plain L.flatten := by
  intro x hx
  obtain ⟨t, ht, hxt⟩ := List.mem_flatten.1 hx
  exact h t ht x hxt

theorem plain_of_all (t : List Char) (h : (t.all fun c => !is_bracket c) = true) : plain t := by
  intro c hc
  have := List.all_eq_true.1 h c hc
  simpa using this

theorem neutral_of_plain_text (t : List Char) (h : plain t) : neutral t :=
  neutral_of_plain t h

theorem plain_digit_char (n : Nat) : is_bracket (digit_char n) = false := by
  have key : ∀ k, k < 10 → is_bracket (Char.ofNat (48 + k)) = false := by decide
  exact key _ (Nat.mod_lt _ (by decide))

theorem plain_digits_loop (fuel : Nat) : ∀ (n : Nat) (acc : List Char), plain acc →
    plain (digits_loop fuel n acc) := by
  induction fuel with
  | zero => intro n acc h; exact h
  | succ fuel ih =>
    intro n acc h
    unfold digits_loop
    split
    · exact plain_cons _ _ (plain_digit_char n) h
    · exact ih _ _ (plain_cons _ _ (plain_digit_char n) h)

theorem plain_format_u (n : Nat) : plain (format_u n) :=
  plain_digits_loop _ _ _ plain_nil

theorem plain_format_d (i : Int) : plain (format_d i) := by
  unfold format_d
  split
  · exact plain_cons _ _ (by decide) (plain_format_u _)
  · exact plain_format_u _

theorem strip_zeros_subset (digits : List Char) : strip_zeros digits ⊆ digits := by
  intro x hx
  unfold strip_zeros at hx
  rw [List.mem_reverse] at hx
  exact List.mem_reverse.1 ((List.dropWhile_sublist _).subset hx)

theorem plain_fraction_part (digits : List Char) (h : plain digits) :
    plain (fraction_part digits) := by
  unfold fraction_part
  split
  · exact plain_nil
  · exact plain_cons _ _ (by decide) (plain_subset _ _ (strip_zeros_subset digits) h)

theorem plain_exponent_part (x : Int) : plain (exponent_part x) := by
  unfold exponent_part
  refine plain_cons _ _ (by decide) (plain_cons _ _ ?_ ?_)
  · split <;> decide
  · split
    · exact plain_cons _ _ (by decide) (plain_format_u _)
    · exact plain_format_u _

theorem plain_format_g_positive (num den : Nat) : plain (format_g_positive num den) := by
  unfold format_g_positive
  generalize six_digits num den = r
  obtain ⟨q, x⟩ := r
  have hq := plain_format_u q
  simp only
  split
  · exact plain_append _ _
      (plain_append _ _ (plain_subset _ _ (List.take_subset _ _) hq)
        (plain_fraction_part _ (plain_subset _ _ (List.drop_subset _ _) hq)))
      (plain_exponent_part x)
  · split
    · exact plain_append _ _ (plain_subset _ _ (List.take_subset _ _) hq)
        (plain_fraction_part _ (plain_subset _ _ (List.drop_subset _ _) hq))
    · exact plain_cons _ _ (by decide)
        (plain_fraction_part _ (plain_append _ _ (plain_replicate _ _ (by decide)) hq))

theorem plain_format_g (d : Double) : plain (format_g d) := by
  have hs : ∀ b : Nat, plain (if b / 2 ^ 63 = 1 then ['-'] else []) := by
    intro b
    split
    · exact plain_cons _ _ (by decide) plain_nil
    · exact plain_nil
  unfold format_g
  simp only
  split
  · refine plain_append _ _ (hs _) ?_
    split
    · exact plain_of_all _ (by decide)
    · exact plain_of_all _ (by decide)
  · split
    · split
      · exact plain_append _ _ (hs _) (plain_cons _ _ (by decide) plain_nil)
      · exact plain_append _ _ (hs _) (plain_format_g_positive _ _)
    · split
      · exact plain_append _ _ (hs _) (plain_format_g_positive _ _)
      · exact plain_append _ _ (hs _) (plain_format_g_positive _ _)

theorem plain_print_json_indent (indent : Int) : plain (print_json_indent indent) := by
  unfold print_json_indent
  refine plain_flatten _ fun t ht => ?_
  rw [(List.mem_replicate.1 ht).2]
  exact fun c hc => by
    simp at hc
    subst hc
    decide

theorem plain_node_type_to_string (k : NodeType) : plain (node_type_to_string k) := by
  cases k <;> exact plain_of_all _ (by decide)

theorem plain_type_name (n : ASTNode) : plain (type_name n) := by
  unfold type_name
  split
  · exact plain_node_type_to_string _
  · exact plain_nil

/-! ## Facts about the serialisation -/

theorem json_items_pos (l : List ASTNode) (indent : Int) :
    ∀ i, i > 0 → json_items l indent i
      = (l.map fun x =>
          ',' :: NL :: (print_json_indent (indent + 2) ++ ast_to_json x (indent + 2))).flatten := by
  induction l with
  | nil => intro i _; rfl
  | cons c cs ih =>
    intro i hi
    simp [json_items, hi, ih (i + 1) (Nat.succ_pos i)]

/-- The loop over a child array writes the elements as the specification
renders them. -/
theorem json_items_zero (l : List ASTNode) (indent : Int) :
    json_items l indent 0
      = array_elements
          (l.map fun x => print_json_indent (indent + 2) ++ ast_to_json x (indent + 2)) := by
  cases l with
  | nil => rfl
  | cons c cs =>
    simp [json_items, array_elements, json_items_pos cs indent 1 Nat.one_pos, List.map_map,
      Function.comp_def]

theorem json_array_eq (l : List ASTNode) (indent : Int) :
    LBRACKET :: NL :: json_items l indent 0 ++ NL :: print_json_indent (indent + 1)
        ++ [RBRACKET]
      = array_rendering (l.map fun e => ast_to_json e (indent + 2)) indent := by
  rw [json_items_zero]
  simp [array_rendering, List.map_map, Function.comp_def]

/-- The text of a node: the head, the fields of its kind, the tail. -/
theorem ast_to_json_eq (n : ASTNode) (indent : Int) (h : n ≠ .null) :
    ast_to_json n indent = json_header n indent ++ json_fields n indent ++ json_footer indent := by
  cases n <;> first
    | exact absurd rfl h
    | simp [ast_to_json, json_fields, ← json_array_eq]

theorem neutral_quoted (t : List Char) (h : neutral t) : neutral (quoted t) :=
  neutral_cons _ _ (by decide) (neutral_append _ _ h (neutral_of_plain _ (plain_of_all _ (by decide))))

theorem neutral_text (s : String) (h : (s.toList.all fun c => !is_bracket c) = true) :
    neutral s.toList :=
  neutral_of_plain _ (plain_of_all _ h)

theorem neutral_next_field (indent : Int) : neutral (next_field indent) :=
  neutral_cons _ _ (by decide) (neutral_cons _ _ (by decide)
    (neutral_of_plain _ (plain_print_json_indent _)))

theorem neutral_ite (c : Prop) [Decidable c] (a b : List Char) (ha : neutral a)
    (hb : neutral b) : neutral (if c then a else b) := by
  split
  · exact ha
  · exact hb

theorem neutral_json_literal_value (v : LiteralValue)
    (h : ∀ s, v = .string_value s → neutral s) : neutral (json_literal_value v) := by
  cases v with
  | string_value s => exact neutral_quoted s (h s rfl)
  | number_value d => exact neutral_of_plain _ (plain_format_g d)
  | boolean_value b => cases b <;> exact neutral_of_plain _ (plain_of_all _ (by decide))
  | null_value => exact neutral_of_plain _ (plain_of_all _ (by decide))

theorem neutral_json_optional_text (key : List Char) (text : Option (List Char)) (indent : Int)
    (hk : neutral key) (h : ∀ t, text = some t → neutral t) :
    neutral (json_optional_text key text indent) := by
  cases text with
  | none => exact neutral_nil
  | some t =>
    exact neutral_append _ _ (neutral_append _ _ (neutral_append _ _ (neutral_next_field _)
      (neutral_quoted _ hk)) (neutral_text ": " (by decide))) (neutral_quoted _ (h t rfl))

theorem neutral_array_elements (L : List (List Char)) (h : ∀ t ∈ L, neutral t) :
    neutral (array_elements L) := by
  cases L with
  | nil => exact neutral_nil
  | cons e es =>
    refine neutral_append _ _ (h e (List.mem_cons_self _ _)) (neutral_flatten _ ?_)
    intro t ht
    obtain ⟨x, hx, rfl⟩ := List.mem_map.1 ht
    exact neutral_cons _ _ (by decide) (neutral_cons _ _ (by decide)
      (h x (List.mem_cons_of_mem _ hx)))

theorem neutral_array_rendering (L : List (List Char)) (indent : Int)
    (h : ∀ t ∈ L, neutral t) : neutral (array_rendering L indent) := by
  have e : array_rendering L indent
      = LBRACKET :: ((NL :: array_elements (L.map fun e => print_json_indent (indent + 2) ++ e)
          ++ NL :: print_json_indent (indent + 1)) ++ [RBRACKET]) := by
    simp [array_rendering]
  rw [e]
  refine neutral_brackets _ (neutral_append _ _ (neutral_cons _ _ (by decide)
    (neutral_array_elements _ ?_))
    (neutral_cons _ _ (by decide) (neutral_of_plain _ (plain_print_json_indent _))))
  intro t ht
  obtain ⟨x, hx, rfl⟩ := List.mem_map.1 ht
  exact neutral_append _ _ (neutral_of_plain _ (plain_print_json_indent _)) (h x hx)

theorem json_header_eq (n : ASTNode) (indent : Int) (h : n ≠ .null) :
    ∃ rest, plain rest ∧ json_header n indent = LBRACE :: rest := by
  have hf : ∀ (key : String) (v : Int), (key.toList.all fun c => !is_bracket c) = true →
      plain (next_field indent ++ quoted key.toList ++ ": ".toList ++ format_d v) := by
    intro key v hkey
    refine plain_append _ _ (plain_append _ _ (plain_append _ _ ?_ ?_)
      (plain_of_all _ (by decide))) (plain_format_d v)
    · exact plain_cons _ _ (by decide) (plain_cons _ _ (by decide) (plain_print_json_indent _))
    · exact plain_cons _ _ (by decide)
        (plain_append _ _ (plain_of_all _ hkey) (plain_of_all _ (by decide)))
  cases hb : node_base n with
  | none => cases n <;> first | exact absurd rfl h | simp [node_base] at hb
  | some base =>
    refine ⟨_, ?_, by simp only [json_header, hb, List.cons_append]; rfl⟩
    refine plain_cons _ _ (by decide) (plain_append _ _ (plain_append _ _ (plain_append _ _
      (plain_append _ _ (plain_append _ _ (plain_print_json_indent _) ?_) ?_) ?_) ?_) ?_)
    · exact plain_of_all _ (by decide)
    · exact plain_of_all _ (by decide)
    · exact plain_cons _ _ (by decide)
        (plain_append _ _ (plain_type_name n) (plain_of_all _ (by decide)))
    · split
      · exact hf "line" _ (by decide)
      · exact plain_nil
    · split
      · exact hf "column" _ (by decide)
      · exact plain_nil

theorem neutral_object (n : ASTNode) (indent : Int) (fields : List Char) (h : n ≠ .null)
    (hf : neutral fields) :
    neutral (json_header n indent ++ fields ++ json_footer indent) := by
  obtain ⟨rest, hrest, e⟩ := json_header_eq n indent h
  have e2 : json_header n indent ++ fields ++ json_footer indent
      = LBRACE :: ((rest ++ fields ++ NL :: print_json_indent indent) ++ [RBRACE]) := by
    rw [e]
    simp [json_footer]
  rw [e2]
  exact neutral_braces _ (neutral_append _ _ (neutral_append _ _ (neutral_of_plain _ hrest) hf)
    (neutral_cons _ _ (by decide) (neutral_of_plain _ (plain_print_json_indent _))))

theorem texts_balanced_self (n : ASTNode) (h : texts_balanced n = true) (hn : n ≠ .null) :
    ∀ t ∈ texts n, neutral t := by
  intro t ht
  unfold texts_balanced at h
  have := List.all_eq_true.1 h n (mem_preorder_self n hn)
  exact neutral_of_balanced t (List.all_eq_true.1 this t ht)

theorem texts_balanced_child (n c : ASTNode) (h : texts_balanced n = true) (hn : n ≠ .null)
    (hc : c ∈ children n) : texts_balanced c = true := by
  unfold texts_balanced at h ⊢
  rw [List.all_eq_true] at h ⊢
  exact fun x hx => h x (preorder_child_subset n c hn hc hx)

theorem neutral_json_fields (n : ASTNode) (indent : Int)
    (hc : ∀ c ∈ children n, ∀ k, neutral (ast_to_json c k))
    (ht : ∀ t ∈ texts n, neutral t) : neutral (json_fields n indent) := by
  have key : ∀ s : String, (s.toList.all fun c => !is_bracket c) = true →
      neutral (next_field indent ++ quoted s.toList ++ ": ".toList) := fun s hs =>
    neutral_append _ _ (neutral_append _ _ (neutral_next_field _)
      (neutral_quoted _ (neutral_text s hs))) (neutral_text ": " (by decide))
  have arr : ∀ l : List ASTNode, (∀ c ∈ l, c ∈ children n) →
      neutral (array_rendering (l.map fun e => ast_to_json e (indent + 2)) indent) := by
    intro l hl
    refine neutral_array_rendering _ _ fun t ht => ?_
    obtain ⟨x, hx, rfl⟩ := List.mem_map.1 ht
    exact hc x (hl x hx) _
  cases n with
  | identifier b name =>
    exact neutral_append _ _ (key "name" (by decide))
      (neutral_quoted _ (ht name (by simp [texts])))
  | literal b value raw =>
    refine neutral_append _ _ (neutral_append _ _ (key "value" (by decide))
      (neutral_json_literal_value _ ?_))
      (neutral_json_optional_text _ _ _ (neutral_text "raw" (by decide)) ?_)
    · intro s hs
      subst hs
      exact ht s (by simp [texts])
    · intro t e
      subst e
      exact ht t (by cases value <;> simp [texts])
  | binary_expression b op left right =>
    exact neutral_append _ _ (neutral_append _ _
      (neutral_append _ _ (key "operator" (by decide))
        (neutral_quoted _ (ht op (by simp [texts]))))
      (neutral_append _ _ (key "left" (by decide)) (hc left (by simp [children]) _)))
      (neutral_append _ _ (key "right" (by decide)) (hc right (by simp [children]) _))
  | unary_expression b op argument =>
    exact neutral_append _ _
      (neutral_append _ _ (key "operator" (by decide))
        (neutral_quoted _ (ht op (by simp [texts]))))
      (neutral_append _ _ (key "argument" (by decide)) (hc argument (by simp [children]) _))
  | variable_declaration b declarations kind =>
    refine neutral_append _ _
      (neutral_append _ _ (key "kind" (by decide)) (neutral_quoted _ ?_))
      (neutral_append _ _ (key "declarations" (by decide))
        (arr declarations (by simp [children])))
    cases kind <;> exact neutral_of_plain _ (plain_of_all _ (by decide))
  | variable_declarator b id init =>
    exact neutral_append _ _
      (neutral_append _ _ (key "id" (by decide)) (hc id (by simp [children]) _))
      (neutral_ite _ _ _ neutral_nil
        (neutral_append _ _ (key "init" (by decide)) (hc init (by simp [children]) _)))
  | function_declaration b id params body return_type =>
    refine neutral_append _ _ (neutral_append _ _ (neutral_append _ _
      (neutral_append _ _ (key "id" (by decide)) (hc id (by simp [children]) _))
      (neutral_append _ _ (key "params" (by decide))
        (arr params (by simp [children]; tauto))))
      (neutral_append _ _ (key "body" (by decide)) (hc body (by simp [children]) _)))
      (neutral_json_optional_text _ _ _ (neutral_text "returnType" (by decide)) ?_)
    intro t e
    subst e
    exact ht t (by simp [texts])
  | parameter b name param_type default_value =>
    refine neutral_append _ _ (neutral_append _ _
      (neutral_append _ _ (key "name" (by decide)) (hc name (by simp [children]) _))
      (neutral_json_optional_text _ _ _ (neutral_text "paramType" (by decide)) ?_))
      (neutral_ite _ _ _ neutral_nil
        (neutral_append _ _ (key "defaultValue" (by decide))
          (hc default_value (by simp [children]) _)))
    intro t e
    subst e
    exact ht t (by simp [texts])
  | block_statement b body =>
    exact neutral_append _ _ (key "body" (by decide)) (arr body (by simp [children]))
  | return_statement b argument =>
    exact neutral_ite _ _ _ neutral_nil
      (neutral_append _ _ (key "argument" (by decide)) (hc argument (by simp [children]) _))
  | program b body source_type =>
    refine neutral_append _ _
      (neutral_append _ _ (key "sourceType" (by decide)) (neutral_quoted _ ?_))
      (neutral_append _ _ (key "body" (by decide)) (arr body (by simp [children])))
    cases source_type <;> exact neutral_of_plain _ (plain_of_all _ (by decide))
  | _ => exact neutral_nil

/-- When every text payload of a tree has balanced braces and brackets, the
text `ast_to_json` writes for the tree is neutral. -/
theorem neutral_ast_to_json (n : ASTNode) :
    texts_balanced n = true → ∀ indent, neutral (ast_to_json n indent) := by
  induction n using children_induction with
  | hnull =>
    intro _ indent
    have e : ast_to_json .null indent = "null".toList := by simp [ast_to_json]
    rw [e]
    exact neutral_text "null" (by decide)
  | hnode n hn ih =>
    intro ht indent
    rw [ast_to_json_eq n indent hn]
    exact neutral_object n indent _ hn (neutral_json_fields n indent
      (fun c hc k => ih c hc (texts_balanced_child n c ht hn hc) k)
      (texts_balanced_self n ht hn))

/-- The fields particular to a kind, when there are any, start with the
separator, a new line at the indent of the fields and the quote that opens a
key. -/
theorem json_fields_start (n : ASTNode) (indent : Int) :
    json_fields n indent = [] ∨
    (',' :: NL :: print_json_indent (indent + 1) ++ [DQUOTE]) <+: json_fields n indent := by
  have key : ∀ (s t : List Char),
      (',' :: NL :: print_json_indent (indent + 1) ++ [DQUOTE])
        <+: next_field indent ++ (quoted s ++ t) := by
    intro s t
    refine ⟨s ++ [DQUOTE] ++ t, ?_⟩
    simp [next_field, quoted]
  cases n with
  | return_statement b argument =>
    by_cases h : argument.is_null = true
    · left
      simp [json_fields, h]
    · right
      simp only [json_fields, h, Bool.false_eq_true, ↓reduceIte, List.append_assoc]
      exact key _ _
  | identifier | literal | binary_expression | unary_expression | variable_declaration
  | variable_declarator | function_declaration | parameter | block_statement | program =>
    right
    simp only [json_fields, List.append_assoc]
    exact key _ _
  | _ => exact Or.inl rfl

theorem is_null_of_ne (n : ASTNode) (h : n ≠ .null) : n.is_null = false := by
  cases n <;> first | exact absurd rfl h | rfl

/-! ## Facts about the columns a token covers -/

theorem whitespace_loop_span (inp : List Char) (idx line column : Nat) :
    line < (whitespace_loop inp idx line column).line ∨
      (line = (whitespace_loop inp idx line column).line ∧
        column + (whitespace_loop inp idx line column).buf.length
          ≤ (whitespace_loop inp idx line column).column) := by
  induction inp generalizing idx line column with
  | nil => simp [whitespace_loop]
  | cons c cs ih =>
    simp only [whitespace_loop]
    split
    · have h := ih (idx + 1) (advance_line c line) (advance_column c column)
      have h1 := whitespace_loop_pos cs (idx + 1) (advance_line c line) (advance_column c column)
      simp only [List.length_cons]
      by_cases hc : c = NL
      · subst hc
        simp only [advance_line, advance_column, beq_self_eq_true, ↓reduceIte] at h h1 ⊢
        omega
      · rw [advance_line_of_ne c line hc, advance_column_of_ne c column hc] at h ⊢
        omega
    · simp

theorem line_comment_loop_span (inp : List Char) (idx line column : Nat) :
    column + (line_comment_loop inp idx line column).buf.length
      ≤ (line_comment_loop inp idx line column).column := by
  induction inp generalizing idx column with
  | nil => simp [line_comment_loop]
  | cons c cs ih =>
    simp only [line_comment_loop]
    split
    · have h := ih (idx + 1) (column + 1)
      simp only [List.length_cons]
      omega
    · simp

theorem number_loop_span (inp : List Char) (idx line column : Nat) :
    column + (number_loop inp idx line column).buf.length
      ≤ (number_loop inp idx line column).column := by
  induction inp generalizing idx column with
  | nil => simp [number_loop]
  | cons c cs ih =>
    simp only [number_loop]
    split
    · have h := ih (idx + 1) (column + 1)
      simp only [List.length_cons]
      omega
    · simp

theorem ident_loop_span (inp : List Char) (idx line column : Nat) :
    column + (ident_loop inp idx line column).buf.length
      ≤ (ident_loop inp idx line column).column := by
  induction inp generalizing idx column with
  | nil => simp [ident_loop]
  | cons c cs ih =>
    simp only [ident_loop]
    split
    · have h := ih (idx + 1) (column + 1)
      simp only [List.length_cons]
      omega
    · simp

theorem block_comment_loop_span (inp : List Char) (idx line column : Nat) :
    line < (block_comment_loop inp idx line column).line ∨
      (line = (block_comment_loop inp idx line column).line ∧
        column + (block_comment_loop inp idx line column).buf.length
          ≤ (block_comment_loop inp idx line column).column) := by
  induction inp, idx, line, column using block_comment_loop.induct with
  | case1 a b cs idx line column hi hab => simp [block_comment_loop, hi, hab]
  | case2 a b cs idx line column hi hab ih =>
    have h1 := block_comment_loop_pos (b :: cs) (idx + 1) (advance_line a line)
      (advance_column a column)
    simp only [block_comment_loop, hi, hab, ↓reduceIte, Bool.false_eq_true, List.length_cons]
    by_cases hc : a = NL
    · subst hc
      simp only [advance_line, advance_column, beq_self_eq_true, ↓reduceIte] at ih h1 ⊢
      omega
    · rw [advance_line_of_ne a line hc, advance_column_of_ne a column hc] at ih ⊢
      omega
  | case3 a b cs idx line column hi => simp [block_comment_loop, hi]
  | case4 rest idx line column hne =>
    unfold block_comment_loop
    split
    · exact absurd rfl (hne _ _ _)
    · simp

theorem string_loop_span (quote : Char) (inp : List Char) (idx line column : Nat) :
    column + (string_loop quote inp idx line column).buf.length
      ≤ (string_loop quote inp idx line column).column := by
  induction inp, idx, line, column using string_loop.induct quote with
  | case1 idx line column => simp [string_loop]
  | case2 c idx line column hc d ds hb hi ih =>
    simp only [string_loop, hc, hb, hi, ↓reduceIte, List.length_cons]
    omega
  | case3 c idx line column hc d ds hb hi ih =>
    simp only [string_loop, hc, hb, hi, ↓reduceIte, List.length_cons]
    omega
  | case4 c idx line column hc d ds hb ih =>
    simp only [string_loop, hc, hb, ↓reduceIte, Bool.false_eq_true, List.length_cons]
    omega
  | case5 c idx line column hc => simp [string_loop, hc]
  | case6 c cs idx line column hc =>
    unfold string_loop
    simp [hc]

/-- The token an iteration adds ends, laid out from its column on, at or
before the position the iteration leaves. -/
theorem scan_step_span (tk : Tokenizer) (ch : Char) (rest : List Char) (sl sc : Nat)
    (t : Token) (h : (scan_step tk ch rest sl sc).emit = some t) :
    sl < (scan_step tk ch rest sl sc).line ∨
      (sl = (scan_step tk ch rest sl sc).line ∧
        sc + t.value.length ≤ (scan_step tk ch rest sl sc).column) := by
  revert t
  have hne : isspace ch = false → advance_line ch sl = sl ∧ advance_column ch sc = sc + 1 :=
    fun hs => ⟨advance_line_of_ne ch sl (ne_newline_of_not_isspace ch hs),
      advance_column_of_ne ch sc (ne_newline_of_not_isspace ch hs)⟩
  apply scan_step_cases (fun r => ∀ t, r.emit = some t →
    sl < r.line ∨ (sl = r.line ∧ sc + t.value.length ≤ r.column))
  case h1 =>
    intro _ t
    unfold step_whitespace
    split
    · intro e
      simp only [Option.some.injEq] at e
      subst e
      have h1 := whitespace_loop_span (ch :: rest) 0 (advance_line ch sl) (advance_column ch sc)
      have h2 := advance_pos ch sl sc
      simp only [create_token]
      by_cases hc : ch = NL
      · subst hc
        simp only [advance_line, advance_column, beq_self_eq_true, ↓reduceIte] at h1 ⊢
        omega
      · rw [advance_line_of_ne ch sl hc, advance_column_of_ne ch sc hc] at h1 ⊢
        omega
    · intro e
      simp at e
  case h2 =>
    intro hs _ _ t
    obtain ⟨e1, e2⟩ := hne hs
    have h1 := line_comment_loop_line (ch :: rest) 0 sl (sc + 1)
    have h2 := line_comment_loop_span (ch :: rest) 0 sl (sc + 1)
    simp only [step_line_comment, e1, e2]
    split
    · intro e
      simp only [Option.some.injEq] at e
      subst e
      simp only [create_token]
      omega
    · intro e
      simp at e
  case h3 =>
    intro hs _ _ t
    obtain ⟨e1, e2⟩ := hne hs
    have h1 := block_comment_loop_span rest.tail 2 sl (sc + 1 + 2)
    simp only [step_block_comment, e1, e2]
    split
    · intro e
      simp only [Option.some.injEq] at e
      subst e
      simp only [create_token, List.length_cons]
      omega
    · intro e
      simp at e
  case h4 =>
    intro hs _ _ _ t
    obtain ⟨e1, e2⟩ := hne hs
    have h1 := number_loop_line (ch :: rest) 0 sl (sc + 1)
    have h2 := number_loop_span (ch :: rest) 0 sl (sc + 1)
    simp only [step_number, e1, e2]
    intro e
    simp only [Option.some.injEq] at e
    subst e
    simp only [create_token]
    omega
  case h5 =>
    intro hs _ _ _ _ t
    obtain ⟨e1, e2⟩ := hne hs
    have h1 := ident_loop_line (ch :: rest) 0 sl (sc + 1)
    have h2 := ident_loop_span (ch :: rest) 0 sl (sc + 1)
    simp only [step_ident, e1, e2]
    intro e
    simp only [Option.some.injEq] at e
    subst e
    simp only [create_token]
    omega
  case h6 =>
    intro hs _ _ _ _ _ t
    obtain ⟨e1, e2⟩ := hne hs
    have h1 := string_loop_line ch rest 0 sl (sc + 1 + 1)
    have h2 := string_loop_span ch rest 0 sl (sc + 1 + 1)
    simp only [step_string, e1, e2]
    intro e
    simp only [Option.some.injEq] at e
    subst e
    simp only [create_token]
    split <;> omega
  case h7 =>
    intro op hs _ _ _ _ _ _ _ t
    obtain ⟨e1, e2⟩ := hne hs
    simp only [step_operator, e1, e2]
    intro e
    simp only [Option.some.injEq] at e
    subst e
    simp only [create_token]
    exact Or.inr ⟨trivial, by omega⟩
  case h8 =>
    intro hs _ _ _ _ _ _ _ _ t
    obtain ⟨e1, e2⟩ := hne hs
    simp only [step_delimiter, e1, e2]
    intro e
    simp only [Option.some.injEq] at e
    subst e
    simp [create_token]
  case h9 =>
    intro hs _ _ _ _ _ _ _ _ t
    obtain ⟨e1, e2⟩ := hne hs
    simp only [step_unknown, e1, e2]
    split
    · intro e
      simp at e
    · intro e
      simp only [Option.some.injEq] at e
      subst e
      simp [create_token]

/-- In a stream `tokenize` returns, every token ends before the start of
every later one. -/
theorem tokenize_loop_ends_before (tk : Tokenizer) (fuel : Nat) :
    ∀ (inp : List Char) (line column : Nat) (ts : List Token),
      tokenize_loop tk fuel inp line column = some ts → ts.Pairwise Token.ends_before := by
  induction fuel with
  | zero =>
    intro inp line column ts h
    simp [tokenize_loop] at h
  | succ fuel ih =>
    intro inp line column ts h
    cases inp with
    | nil =>
      rw [tokenize_loop_nil] at h
      simp only [Option.some.injEq] at h
      subst h
      simp
    | cons ch rest =>
      obtain ⟨ts', h1, h2⟩ := tokenize_loop_cons_some tk fuel ch rest line column ts h
      have hpw := ih _ _ _ _ h1
      have hlater := (tokenize_loop_before tk fuel _ _ _ ts' h1).1
      subst h2
      cases he : (scan_step tk ch rest line column).emit with
      | none => simpa using hpw
      | some t =>
        simp only [Option.toList, List.singleton_append, List.pairwise_cons]
        refine ⟨?_, hpw⟩
        intro b hb
        have hspan := scan_step_span tk ch rest line column t he
        have hpos := scan_step_emit tk ch rest line column t he
        have hb2 := hlater b hb
        unfold Token.ends_before
        omega

/-! ## Facts about the utility functions on token streams -/

theorem get_token_at_position_self (s : List Token) (t : Token)
    (hpw : s.Pairwise Token.ends_before) (ht : t ∈ s) (hv : t.value ≠ []) :
    get_token_at_position s t.line t.column = some t := by
  induction s with
  | nil => simp at ht
  | cons a s ih =>
    rw [List.pairwise_cons] at hpw
    have hlen : 0 < t.value.length := List.length_pos.2 hv
    rcases List.mem_cons.1 ht with e | e
    · subst e
      unfold get_token_at_position
      rw [if_pos ⟨rfl, le_refl _, by omega⟩]
    · have h := hpw.1 t e
      unfold get_token_at_position
      rw [if_neg, ih hpw.2 e]
      unfold Token.ends_before at h
      omega

theorem get_token_at_position_some (s : List Token) (line column : Int) (t : Token)
    (h : get_token_at_position s line column = some t) :
    t ∈ s ∧ (t.line : Int) = line ∧ (t.column : Int) ≤ column ∧
      column < (t.column : Int) + (t.value.length : Int) ∧ t.value ≠ [] := by
  induction s with
  | nil => simp [get_token_at_position] at h
  | cons a s ih =>
    unfold get_token_at_position at h
    split at h
    · rename_i hc
      simp only [Option.some.injEq] at h
      subst h
      refine ⟨List.mem_cons_self _ _, hc.1, hc.2.1, hc.2.2, ?_⟩
      intro e
      rw [e] at hc
      simp only [List.length_nil, Int.Nat.cast_ofNat_Int] at hc
      omega
    · obtain ⟨h1, h2⟩ := ih h
      exact ⟨List.mem_cons_of_mem _ h1, h2⟩

theorem find_tokens_by_type_eq_filter (s : List Token) (k : TokenType) :
    find_tokens_by_type s k = s.filter fun t => decide (t.type = k) := by
  induction s with
  | nil => rfl
  | cons t ts ih =>
    unfold find_tokens_by_type
    by_cases h : t.type = k
    · have e : create_token t.type t.value t.line t.column = t := by
        cases t
        rfl
      rw [if_pos h, e, ih, List.filter_cons_of_pos (by simpa using h)]
    · rw [if_neg h, ih, List.filter_cons_of_neg (by simpa using h)]

/-! ## Facts about inputs without quotes -/

theorem scan_step_string_quote (tk : Tokenizer) (ch : Char) (rest : List Char) (sl sc : Nat)
    (t : Token) (h : (scan_step tk ch rest sl sc).emit = some t)
    (ht : t.type = .TOKEN_STRING) : ch = DQUOTE ∨ ch = SQUOTE := by
  revert t
  apply scan_step_cases (fun r => ∀ t, r.emit = some t → t.type = .TOKEN_STRING →
    ch = DQUOTE ∨ ch = SQUOTE)
  case h1 =>
    intro _ t
    unfold step_whitespace
    split
    · intro e ht
      simp only [Option.some.injEq] at e
      subst e
      simp [create_token] at ht
    · intro e
      simp at e
  case h2 =>
    intro _ _ _ t
    simp only [step_line_comment]
    split
    · intro e ht
      simp only [Option.some.injEq] at e
      subst e
      simp [create_token] at ht
    · intro e
      simp at e
  case h3 =>
    intro _ _ _ t
    simp only [step_block_comment]
    split
    · intro e ht
      simp only [Option.some.injEq] at e
      subst e
      simp [create_token] at ht
    · intro e
      simp at e
  case h4 =>
    intro _ _ _ _ t e ht
    simp only [step_number, Option.some.injEq] at e
    subst e
    simp [create_token] at ht
  case h5 =>
    intro _ _ _ _ _ t e ht
    simp only [step_ident, Option.some.injEq] at e
    subst e
    simp only [create_token] at ht
    split at ht <;> simp at ht
  case h6 =>
    intro _ _ _ _ _ hq t _ _
    exact hq
  case h7 =>
    intro op _ _ _ _ _ _ _ _ t e ht
    simp only [step_operator, Option.some.injEq] at e
    subst e
    simp [create_token] at ht
  case h8 =>
    intro _ _ _ _ _ _ _ _ _ t e ht
    simp only [step_delimiter, Option.some.injEq] at e
    subst e
    simp [create_token] at ht
  case h9 =>
    intro _ _ _ _ _ _ _ _ _ t
    simp only [step_unknown]
    split
    · intro e
      simp at e
    · intro e ht
      simp only [Option.some.injEq] at e
      subst e
      simp [create_token] at ht

/-- An input without quote characters gives a stream without string
tokens. -/
theorem tokenize_loop_no_string (tk : Tokenizer) (fuel : Nat) :
    ∀ (inp : List Char) (line column : Nat) (ts : List Token),
      DQUOTE ∉ inp → SQUOTE ∉ inp →
      tokenize_loop tk fuel inp line column = some ts →
      ∀ t ∈ ts, t.type ≠ .TOKEN_STRING := by
  induction fuel with
  | zero =>
    intro inp line column ts _ _ h
    simp [tokenize_loop] at h
  | succ fuel ih =>
    intro inp line column ts hd hq h
    cases inp with
    | nil =>
      rw [tokenize_loop_nil] at h
      simp only [Option.some.injEq] at h
      subst h
      intro t ht
      simp only [List.mem_singleton] at ht
      subst ht
      simp [create_token]
    | cons ch rest =>
      obtain ⟨ts', h1, h2⟩ := tokenize_loop_cons_some tk fuel ch rest line column ts h
      have hsuf := scan_step_suffix tk ch rest line column
      have hrest := ih _ _ _ ts' (fun e => hd (hsuf.subset e)) (fun e => hq (hsuf.subset e)) h1
      subst h2
      intro t ht
      rcases List.mem_append.1 ht with e | e
      · intro hty
        have he : (scan_step tk ch rest line column).emit = some t := by
          cases hem : (scan_step tk ch rest line column).emit with
          | none => simp [hem] at e
          | some t' =>
            simp only [hem, Option.toList, List.mem_singleton] at e
            rw [e]
        rcases scan_step_string_quote tk ch rest line column t he hty with hc | hc
        · exact hd (by simp [hc])
        · exact hq (by simp [hc])
      · exact hrest t e

/-! ## Facts about the operator table -/

theorem qsort_insert_perm (x : List Char) (ys : List (List Char)) :
    (qsort_insert x ys).Perm (x :: ys) := by
  induction ys with
  | nil => exact List.Perm.refl _
  | cons y ys ih =>
    unfold qsort_insert
    split
    · exact List.Perm.refl _
    · exact (ih.cons y).trans (List.Perm.swap x y ys)

theorem qsort_operators_perm (l : List (List Char)) : (qsort_operators l).Perm l := by
  induction l with
  | nil => exact List.Perm.refl _
  | cons x xs ih =>
    unfold qsort_operators
    exact (qsort_insert_perm x _).trans (ih.cons x)

/-! ## More facts about the traversal and the clone -/

/-- No visitor is ever called on `NULL`. -/
theorem trace_node_ne_null (n : ASTNode) :
    ∀ (p : ASTNode) (e : Event), e ∈ trace n p → e.node ≠ .null := by
  induction n using children_induction with
  | hnull =>
    intro p e he
    simp [trace_null] at he
  | hnode n hn ih =>
    intro p e he
    rw [trace_eq n p hn] at he
    simp only [List.cons_append, List.mem_cons, List.mem_append, List.mem_flatten,
      List.mem_map, List.mem_singleton, List.not_mem_nil, or_false] at he
    rcases he with e1 | ⟨l, ⟨c, hc, rfl⟩, hel⟩ | e1
    · subst e1
      exact hn
    · exact ih c ((traversed_sublist n).subset hc) n e hel
    · subst e1
      exact hn

theorem parents_absent_binary (b : NodeBase) (op : List Char) (left right : ASTNode)
    (hb : b.parent = none) (hl : parents_absent left = true)
    (hr : parents_absent right = true) :
    parents_absent (.binary_expression b op left right) = true := by
  unfold parents_absent at hl hr ⊢
  rw [preorder_eq _ (by simp)]
  simp only [children, List.map_cons, List.map_nil, List.flatten_cons, List.flatten_nil,
    List.append_nil, List.all_cons, List.all_append, Bool.and_eq_true]
  exact ⟨by simp [node_base, hb], hl, hr⟩

/-- The clone of any tree has an absent parent at every node. -/
theorem clone_parents_absent (n : ASTNode) : parents_absent (clone_ast_node n) = true := by
  induction n using children_induction with
  | hnull => rfl
  | hnode n hn ih =>
    cases n with
    | identifier b name => rfl
    | literal b value raw => cases value <;> rfl
    | binary_expression b op left right =>
      simp only [clone_ast_node, create_binary_expression]
      exact parents_absent_binary _ _ _ _ rfl (ih left (by simp [children]))
        (ih right (by simp [children]))
    | _ => rfl

/-- On a tree of identifiers, literals and binary expressions the clone is the
tree with the parent of every node absent. -/
theorem clone_eq_erase_parents (n : ASTNode) :
    all_kinds clone_kind n = true → clone_ast_node n = erase_parents n := by
  induction n using children_induction with
  | hnull => intro _; rfl
  | hnode n hn ih =>
    intro hk
    cases n with
    | identifier b name => rfl
    | literal b value raw => cases value <;> rfl
    | binary_expression b op left right =>
      have hl := ih left (by simp [children])
        (all_kinds_child _ _ left hk hn (by simp [children]))
      have hr := ih right (by simp [children])
        (all_kinds_child _ _ right hk hn (by simp [children]))
      simp only [clone_ast_node, create_binary_expression, erase_parents, hl, hr, new_base]
    | null => exact absurd rfl hn
    | _ =>
      have := all_kinds_self _ _ _ hk rfl
      simp [clone_kind] at this

/-- C1: `quick_tokenize` applied to `int x = 10 + 20;` returns exactly eight
tokens, in this order: keyword `int`, identifier `x`, operator `=`, number
`10`, operator `+`, number `20`, delimiter `;`, end-of-input; and the column
numbers of these eight tokens are strictly increasing. -/
theorem C1_quick_tokenize_example :
    ∃ ts, quick_tokenize "int x = 10 + 20;".toList = some ts ∧
      ts = [create_token .TOKEN_KEYWORD "int".toList 1 1,
            create_token .TOKEN_IDENTIFIER "x".toList 1 6,
            create_token .TOKEN_OPERATOR "=".toList 1 9,
            create_token .TOKEN_NUMBER "10".toList 1 12,
            create_token .TOKEN_OPERATOR "+".toList 1 16,
            create_token .TOKEN_NUMBER "20".toList 1 19,
            create_token .TOKEN_DELIMITER ";".toList 1 22,
            create_token .TOKEN_EOF [] 1 23] ∧
      (ts.map Token.column).Pairwise (fun a b => a < b) :=
  ⟨_, by decide!, rfl, by decide⟩

/-- C2: whenever `tokenize` returns, for any input and any configuration, the
stream is a body without end-of-input token followed by exactly one
end-of-input token with empty text; `tokenize` returns whenever no operator of
the table is empty; and the empty input yields just the end-of-input token. -/
theorem C2_stream_ends_with_one_eof (tk : Tokenizer) (input : List Char) :
    (∀ ts, tokenize tk input = some ts →
      ∃ body line column, ts = body ++ [create_token .TOKEN_EOF [] line column] ∧
        ∀ t ∈ body, t.type ≠ .TOKEN_EOF) ∧
    ([] ∉ tk.operators → ∃ ts, tokenize tk input = some ts) ∧
    tokenize tk [] = some [create_token .TOKEN_EOF [] 1 1] :=
  ⟨fun ts h => tokenize_loop_eof tk _ _ _ _ ts h, fun h => tokenize_total tk h input, rfl⟩

/-- C3: for every configuration and input, every operator token that
`tokenize` emits at an input position is a member of the operator table, is a
prefix of the input remaining at that position, and is at least as long as
every member of the table that is such a prefix (so it is the longest one);
scanning `==` with the default configuration yields one operator `==` and the
end-of-input token. -/
theorem C3_operator_longest_match (options : Option TokenizerOptions) (input : List Char)
    (spans : List (Nat × Token))
    (h : tokenize_spans (create_tokenizer options) input = some spans) :
    tokenize (create_tokenizer options) input = some (spans.map Prod.snd) ∧
    (∀ p ∈ spans, p.2.type = .TOKEN_OPERATOR →
      p.2.value ∈ (create_tokenizer options).operators ∧
      p.2.value <+: input.drop p.1 ∧
      ∀ op ∈ (create_tokenizer options).operators, op <+: input.drop p.1 →
        op.length ≤ p.2.value.length ∧ (op.length = p.2.value.length → op = p.2.value)) ∧
    quick_tokenize "==".toList =
      some [create_token .TOKEN_OPERATOR "==".toList 1 1, create_token .TOKEN_EOF [] 1 4] := by
  refine ⟨?_, ?_, by decide!⟩
  · rw [← tokenize_spans_snd, h]
    rfl
  · intro p hp ht
    have hf := tokenize_spans_loop_operator (create_tokenizer options) input _ input 1 1 spans
      (List.suffix_refl _) h p hp ht
    refine ⟨(find_operator_some _ _ _ hf).1, (find_operator_some _ _ _ hf).2, ?_⟩
    intro op hop hpre
    have hle := find_operator_longest _ _ _ (create_tokenizer_operators_sorted options) hf
      op hop hpre
    refine ⟨hle, fun hlen => ?_⟩
    have h1 := List.prefix_iff_eq_take.1 hpre
    have h2 := List.prefix_iff_eq_take.1 (find_operator_some _ _ _ hf).2
    rw [h1, h2, hlen]

/-- Witness of C3 on the text `==` with the default configuration: the
operator token at offset 0 is `==`, a member of the table and a prefix of the
input, and the shorter member `=`, a prefix too, is not longer. -/
theorem C3_operator_longest_match_witness :
    "==".toList ∈ (create_tokenizer none).operators ∧
    "==".toList <+: "==".toList.drop 0 ∧
    "=".toList.length ≤ "==".toList.length :=
  have h := (C3_operator_longest_match none "==".toList
    [(0, create_token .TOKEN_OPERATOR "==".toList 1 1), (2, create_token .TOKEN_EOF [] 1 4)]
    (by decide!)).2.1 (0, create_token .TOKEN_OPERATOR "==".toList 1 1)
    (List.mem_cons_self _ _) rfl
  ⟨h.1, h.2.1, (h.2.2 "=".toList (by decide) ⟨"=".toList, rfl⟩).1⟩

/-- C4: for every configuration and every non-empty word `w` of at most 255
letters, digits and underscores that does not start with a digit, scanning `w`
yields exactly one token and the end-of-input token; the token has text `w`
unchanged and is a keyword if and only if `w` is in the keyword table,
compared exactly when `case_sensitive` is set and after lower-casing both
sides otherwise; else it is an identifier. With the default keywords `let` is
a keyword and `LET` an identifier when `case_sensitive` is set, both are
keywords when it is not, and `intx` is an identifier. -/
theorem C4_keyword_classification (tk : Tokenizer) (w : List Char) (hne : w ≠ [])
    (hchars : ∀ c ∈ w, isalnum c = true ∨ c = '_')
    (hhead : ∀ c, w.head? = some c → isdigit c = false) (hlen : w.length ≤ 255) :
    (∃ t, tokenize tk w = some [t, create_token .TOKEN_EOF [] 1 (w.length + 2)] ∧
      t.value = w ∧ t.line = 1 ∧ t.column = 1 ∧
      (t.type = .TOKEN_KEYWORD ↔
        if tk.options.case_sensitive = true then w ∈ tk.keywords
        else w.map tolower ∈ tk.keywords.map (List.map tolower)) ∧
      (t.type ≠ .TOKEN_KEYWORD → t.type = .TOKEN_IDENTIFIER)) ∧
    quick_tokenize "let".toList = some
      [create_token .TOKEN_KEYWORD "let".toList 1 1, create_token .TOKEN_EOF [] 1 5] ∧
    quick_tokenize "LET".toList = some
      [create_token .TOKEN_IDENTIFIER "LET".toList 1 1, create_token .TOKEN_EOF [] 1 5] ∧
    tokenize (create_tokenizer (some { default_options with case_sensitive := false }))
      "let".toList = some
      [create_token .TOKEN_KEYWORD "let".toList 1 1, create_token .TOKEN_EOF [] 1 5] ∧
    tokenize (create_tokenizer (some { default_options with case_sensitive := false }))
      "LET".toList = some
      [create_token .TOKEN_KEYWORD "LET".toList 1 1, create_token .TOKEN_EOF [] 1 5] ∧
    quick_tokenize "intx".toList = some
      [create_token .TOKEN_IDENTIFIER "intx".toList 1 1, create_token .TOKEN_EOF [] 1 6] := by
  refine ⟨⟨_, tokenize_word tk w hne hchars hhead hlen, rfl, rfl, rfl, ?_, ?_⟩,
    by decide!, by decide!, by decide!, by decide!, by decide!⟩
  · rw [← is_keyword_iff]
    simp only [create_token]
    cases is_keyword tk w <;> simp
  · simp only [create_token]
    cases is_keyword tk w <;> simp

/-- Witness of C4 on the word `let` with the default configuration. -/
theorem C4_keyword_classification_witness :
    ∃ t, tokenize (create_tokenizer none) "let".toList
        = some [t, create_token .TOKEN_EOF [] 1 ("let".toList.length + 2)] ∧
      t.value = "let".toList ∧ t.line = 1 ∧ t.column = 1 ∧
      (t.type = .TOKEN_KEYWORD ↔
        if (create_tokenizer none).options.case_sensitive = true
        then "let".toList ∈ (create_tokenizer none).keywords
        else "let".toList.map tolower ∈ (create_tokenizer none).keywords.map (List.map tolower)) ∧
      (t.type ≠ .TOKEN_KEYWORD → t.type = .TOKEN_IDENTIFIER) :=
  (C4_keyword_classification (create_tokenizer none) "let".toList (by decide) (by decide)
    (by decide) (by decide)).1

/-- C5: for each quote character `q` and every body `s` of at most 998
characters in which, every backslash pairing with the character after it, no
unpaired `q` occurs and no backslash is left unpaired, scanning `q s q` with
the default configuration yields exactly a string token with text `s`,
verbatim and without the quotes, and the end-of-input token; scanning
`"a\"b"` gives the string token with text `a\"b`. -/
theorem C5_raw_escape_passthrough (q : Char) (s : List Char)
    (hq : q = DQUOTE ∨ q = SQUOTE) (hlen : s.length ≤ 998)
    (hs : escapes_paired q s = true) :
    quick_tokenize (q :: (s ++ [q])) = some
      [create_token .TOKEN_STRING s 1 1, create_token .TOKEN_EOF [] 1 (s.length + 4)] ∧
    quick_tokenize [DQUOTE, 'a', BSLASH, DQUOTE, 'b', DQUOTE] = some
      [create_token .TOKEN_STRING ['a', BSLASH, DQUOTE, 'b'] 1 1,
       create_token .TOKEN_EOF [] 1 8] :=
  ⟨tokenize_string _ q s hq hlen hs, by decide!⟩

/-- Witness of C5 on the body `a\"b` between double quotes. -/
theorem C5_raw_escape_passthrough_witness :
    quick_tokenize (DQUOTE :: (['a', BSLASH, DQUOTE, 'b'] ++ [DQUOTE])) = some
      [create_token .TOKEN_STRING ['a', BSLASH, DQUOTE, 'b'] 1 1,
       create_token .TOKEN_EOF [] 1 (['a', BSLASH, DQUOTE, 'b'].length + 4)] :=
  (C5_raw_escape_passthrough DQUOTE ['a', BSLASH, DQUOTE, 'b'] (Or.inl rfl) (by decide)
    (by decide)).1

/-- C6: for every input of at most 99 characters that starts with a digit and
consists only of digits and dots, scanning it with the default configuration
yields exactly a number token holding the whole input and the end-of-input
token; `1.2.3` is one number token with text `1.2.3`. -/
theorem C6_greedy_number (input : List Char) (hne : input ≠ [])
    (hhead : ∀ c, input.head? = some c → isdigit c = true)
    (hchars : ∀ c ∈ input, isdigit c = true ∨ c = '.') (hlen : input.length ≤ 99) :
    quick_tokenize input = some
      [create_token .TOKEN_NUMBER input 1 1,
       create_token .TOKEN_EOF [] 1 (input.length + 2)] ∧
    quick_tokenize "1.2.3".toList = some
      [create_token .TOKEN_NUMBER "1.2.3".toList 1 1, create_token .TOKEN_EOF [] 1 7] :=
  ⟨tokenize_number _ input hne hhead hchars hlen, by decide!⟩

/-- Witness of C6 on the text `1.2.3`. -/
theorem C6_greedy_number_witness :
    quick_tokenize "1.2.3".toList = some
      [create_token .TOKEN_NUMBER "1.2.3".toList 1 1,
       create_token .TOKEN_EOF [] 1 ("1.2.3".toList.length + 2)] :=
  (C6_greedy_number "1.2.3".toList (by decide) (by decide) (by decide) (by decide)).1

/-- C7, as stated, fails: with a configuration that excludes nothing, the
three-character text `"a"` (a quoted `a`) scans to a string token with text
`a` and the end-of-input token, and the concatenation of the token texts is
`a`, not the input. -/
theorem C7_quotes_are_dropped :
    (create_tokenizer (some all_options)).options.include_whitespace = true ∧
    (create_tokenizer (some all_options)).options.include_comments = true ∧
    (create_tokenizer (some all_options)).options.skip_unknown = false ∧
    tokenize (create_tokenizer (some all_options)) [DQUOTE, 'a', DQUOTE] = some
      [create_token .TOKEN_STRING ['a'] 1 1, create_token .TOKEN_EOF [] 1 5] ∧
    ([create_token .TOKEN_STRING ['a'] 1 1, create_token .TOKEN_EOF [] 1 5].map
      Token.value).flatten ≠ [DQUOTE, 'a', DQUOTE] :=
  ⟨rfl, rfl, rfl, by decide!, by decide⟩

/-- C7, amended: for every input and every configuration that excludes
nothing (`include_whitespace` and `include_comments` set, `skip_unknown` not
set), when the stream `tokenize` returns holds no string token, concatenating
the texts of all its tokens in stream order reproduces the input exactly. -/
theorem C7_reconstruction_without_string_tokens (tk : Tokenizer) (input : List Char)
    (ts : List Token)
    (hw : tk.options.include_whitespace = true) (hc : tk.options.include_comments = true)
    (hu : tk.options.skip_unknown = false)
    (h : tokenize tk input = some ts)
    (hs : ∀ t ∈ ts, t.type ≠ .TOKEN_STRING) :
    (ts.map Token.value).flatten = input :=
  tokenize_loop_text tk _ _ _ _ ts hw hc hu h hs

/-- Witness of the amended C7 on the text `x = 1;`. -/
theorem C7_reconstruction_without_string_tokens_witness :
    ([create_token .TOKEN_IDENTIFIER "x".toList 1 1,
      create_token .TOKEN_WHITESPACE " ".toList 1 3,
      create_token .TOKEN_OPERATOR "=".toList 1 5,
      create_token .TOKEN_WHITESPACE " ".toList 1 7,
      create_token .TOKEN_NUMBER "1".toList 1 9,
      create_token .TOKEN_DELIMITER ";".toList 1 11,
      create_token .TOKEN_EOF [] 1 12].map Token.value).flatten = "x = 1;".toList :=
  C7_reconstruction_without_string_tokens (create_tokenizer (some all_options))
    "x = 1;".toList _ rfl rfl rfl (by decide!) (by decide)

/-- C8 fails on the code: scanning `int x` with the default configuration,
the identifier `x` starts at offset 4, that is at column 5 of line 1, and its
token carries column 6: the column is advanced once at the top of the loop
body and once more by the identifier loop for the first character of `int`. -/
theorem C8_column_counts_first_character_twice :
    tokenize_spans (create_tokenizer none) "int x".toList = some
      [(0, create_token .TOKEN_KEYWORD "int".toList 1 1),
       (4, create_token .TOKEN_IDENTIFIER "x".toList 1 6),
       (5, create_token .TOKEN_EOF [] 1 8)] ∧
    start_column "int x".toList 4 = 5 :=
  ⟨by decide!, by decide⟩

/-- C9 fails on the code. With the default configuration, in the text made of
a quoted newline followed by `x`, the identifier `x` starts at offset 3, on
line 2, and its token carries line 1: the string loop never advances the
line. With `include_whitespace` set, in the text made of a newline followed by
`x`, the identifier starts at offset 1, on line 2, and its token carries
line 3: the newline is counted at the top of the loop body and again by the
whitespace loop. -/
theorem C9_line_miscounts_newlines :
    (tokenize_spans (create_tokenizer none) [DQUOTE, NL, DQUOTE, 'x'] = some
      [(0, create_token .TOKEN_STRING [NL] 1 1),
       (3, create_token .TOKEN_IDENTIFIER ['x'] 1 5),
       (4, create_token .TOKEN_EOF [] 1 7)] ∧
     start_line [DQUOTE, NL, DQUOTE, 'x'] 3 = 2) ∧
    (tokenize_spans (create_tokenizer (some all_options)) [NL, 'x'] = some
      [(0, create_token .TOKEN_WHITESPACE [NL] 1 1),
       (1, create_token .TOKEN_IDENTIFIER ['x'] 3 1),
       (2, create_token .TOKEN_EOF [] 3 3)] ∧
     start_line [NL, 'x'] 1 = 2) :=
  ⟨⟨by decide!, by decide⟩, ⟨by decide!, by decide⟩⟩

/-- C10: whenever `tokenize` returns, the positions (line, column) of the
tokens of the stream, the end-of-input token included, are strictly increasing
in lexicographic order; and on an input without newline character every token
is on line 1 and the columns are strictly increasing along the stream. -/
theorem C10_positions_strictly_increase (tk : Tokenizer) (input : List Char) (ts : List Token)
    (h : tokenize tk input = some ts) :
    ts.Pairwise Token.before ∧
    (NL ∉ input → (ts.map Token.column).Pairwise (fun a b => a < b)) := by
  have hb := (tokenize_loop_before tk _ _ _ _ ts h).2
  refine ⟨hb, fun hnl => ?_⟩
  have hl := tokenize_loop_line tk _ _ _ _ ts hnl h
  rw [List.pairwise_map]
  refine (List.Pairwise.and_mem.1 hb).imp ?_
  intro a b hab
  have ha := hl a hab.1
  have hb' := hl b hab.2.1
  have := hab.2.2
  unfold Token.before at this
  omega

/-- Witness of C10 on the text `int x = 10 + 20;` with the default
configuration. -/
theorem C10_positions_strictly_increase_witness :
    [create_token .TOKEN_KEYWORD "int".toList 1 1,
     create_token .TOKEN_IDENTIFIER "x".toList 1 6,
     create_token .TOKEN_OPERATOR "=".toList 1 9,
     create_token .TOKEN_NUMBER "10".toList 1 12,
     create_token .TOKEN_OPERATOR "+".toList 1 16,
     create_token .TOKEN_NUMBER "20".toList 1 19,
     create_token .TOKEN_DELIMITER ";".toList 1 22,
     create_token .TOKEN_EOF [] 1 23].Pairwise Token.before :=
  (C10_positions_strictly_increase (create_tokenizer none) "int x = 10 + 20;".toList _
    (by decide!)).1

/-- C11, as stated, fails: with the operator table made of the empty string,
the scan of `@` never returns. The iteration at `@` adds the empty operator as
a token and leaves the input where it is, so no amount of fuel ends the run. -/
theorem C11_empty_operator_never_returns :
    (create_tokenizer (some empty_operator_options)).operators = [[]] ∧
    scan_step (create_tokenizer (some empty_operator_options)) '@' [] 1 1
      = ⟨some (create_token .TOKEN_OPERATOR [] 1 1), ['@'], 1, 2⟩ ∧
    tokenize (create_tokenizer (some empty_operator_options)) ['@'] = none ∧
    ¬ ∃ fuel ts,
      tokenize_loop (create_tokenizer (some empty_operator_options)) fuel ['@'] 1 1
        = some ts := by
  have hst : ∀ l c, (scan_step (create_tokenizer (some empty_operator_options)) '@' [] l c).rest
      = ['@'] := by
    intro l c
    rw [scan_step_operator_eq _ '@' [] l c [] (by decide) (by decide) (by decide) (by decide)
      (by decide) (by decide) (by decide) (by decide)]
    rfl
  refine ⟨by decide, by decide!, by decide!, ?_⟩
  rintro ⟨fuel, ts, h⟩
  rw [tokenize_loop_stuck _ '@' [] hst] at h
  exact absurd h (by simp)

/-- C11, amended: for every configuration whose operator table holds no empty
string (any keyword and delimiter tables) and every input, `tokenize`
terminates and returns a token stream, and every iteration of the scanning
loop consumes at least one input character. -/
theorem C11_total_without_empty_operator (tk : Tokenizer) (input : List Char)
    (hne : [] ∉ tk.operators) :
    (∃ ts, tokenize tk input = some ts) ∧
    ∀ ch rest line column,
      (scan_step tk ch rest line column).rest.length < (ch :: rest).length := by
  refine ⟨tokenize_total tk hne input, fun ch rest line column => ?_⟩
  rcases scan_step_rest_length tk ch rest line column with h | ⟨h, _⟩
  · simp only [List.length_cons]
    omega
  · exact absurd h hne

/-- Witness of the amended C11 on the text `a+b` with the default
configuration. -/
theorem C11_total_without_empty_operator_witness :
    (∃ ts, tokenize (create_tokenizer none) "a+b".toList = some ts) ∧
    ∀ ch rest line column,
      (scan_step (create_tokenizer none) ch rest line column).rest.length
        < (ch :: rest).length :=
  C11_total_without_empty_operator (create_tokenizer none) "a+b".toList (by decide)

/-- The last character of a short block comment that is not closed is scanned
on its own: with the default configuration `/*abc` gives the identifier `c`. -/
theorem open_comment_leaves_last_character :
    quick_tokenize "/*abc".toList = some
      [create_token .TOKEN_IDENTIFIER ['c'] 1 6, create_token .TOKEN_EOF [] 1 8] ∧
    tokenize (create_tokenizer (some comment_options)) "/*abc".toList = some
      [create_token .TOKEN_COMMENT "/*ab".toList 1 1,
       create_token .TOKEN_IDENTIFIER ['c'] 1 6, create_token .TOKEN_EOF [] 1 8] :=
  ⟨by decide!, by decide!⟩

/-- C13: for each quote character `q` and every body `s` of at most 998
characters in which, every backslash pairing with the character after it, no
unpaired `q` occurs, scanning `q s`, without closing quote, with the default
configuration yields exactly a string token with text `s` and the
end-of-input token. -/
theorem C13_unterminated_string (q : Char) (s : List Char)
    (hq : q = DQUOTE ∨ q = SQUOTE) (hlen : s.length ≤ 998)
    (hs : no_unpaired_quote q s = true) :
    quick_tokenize (q :: s) = some
      [create_token .TOKEN_STRING s 1 1, create_token .TOKEN_EOF [] 1 (s.length + 3)] :=
  tokenize_open_string _ q s hq hlen hs

/-- Witness of C13 on the text made of a single quote, `ab` and a backslash. -/
theorem C13_unterminated_string_witness :
    quick_tokenize (SQUOTE :: ['a', 'b', BSLASH]) = some
      [create_token .TOKEN_STRING ['a', 'b', BSLASH] 1 1,
       create_token .TOKEN_EOF [] 1 (['a', 'b', BSLASH].length + 3)] :=
  C13_unterminated_string SQUOTE ['a', 'b', BSLASH] (Or.inr rfl) (by decide) (by decide)

set_option maxRecDepth 100000 in
/-- C14, as stated, fails: with `include_whitespace` set, a run of 1000 spaces
is emitted as two whitespace tokens, of 999 characters and of one, next to one
another in the stream. -/
theorem C14_long_run_is_split :
    (create_tokenizer (some whitespace_options)).options.include_whitespace = true ∧
    tokenize (create_tokenizer (some whitespace_options)) (List.replicate 1000 ' ') = some
      [create_token .TOKEN_WHITESPACE (List.replicate 999 ' ') 1 1,
       create_token .TOKEN_WHITESPACE [' '] 1 1001,
       create_token .TOKEN_EOF [] 1 1003] := by
  exact ⟨rfl, by decide!⟩

/-- C14, amended: without `include_whitespace` no whitespace token is ever
emitted. With `include_whitespace`, wherever the scanner stands on a
whitespace character it emits exactly one whitespace token, whose text is the
run of whitespace characters that starts there, cut to 999 characters (the
whole run when it has at most 999 characters), and goes on after that text;
every whitespace token of the stream is such a run, taken at its start index
and not empty; and two whitespace tokens follow one another in the stream
only when the first holds 999 characters or when dropped characters lie
between them in the input. -/
theorem C14_whitespace_tokens (tk : Tokenizer) (input : List Char) :
    (tk.options.include_whitespace = false →
      ∀ ts, tokenize tk input = some ts → ∀ t ∈ ts, t.type ≠ .TOKEN_WHITESPACE) ∧
    (tk.options.include_whitespace = true →
      ∀ ch rest line column, isspace ch = true →
        (scan_step tk ch rest line column).emit
            = some (create_token .TOKEN_WHITESPACE (whitespace_run (ch :: rest)) line column) ∧
          (scan_step tk ch rest line column).rest
            = (ch :: rest).drop (whitespace_run (ch :: rest)).length) ∧
    (∀ inp : List Char, (inp.takeWhile isspace).length ≤ 999 →
      whitespace_run inp = inp.takeWhile isspace) ∧
    (∀ spans, tokenize_spans tk input = some spans →
      tokenize tk input = some (spans.map Prod.snd) ∧
      (∀ p ∈ spans, p.2.type = .TOKEN_WHITESPACE →
        p.2.value = whitespace_run (input.drop p.1) ∧ p.2.value ≠ []) ∧
      spans.Chain' whitespace_split) ∧
    tokenize (create_tokenizer (some whitespace_options)) "a \tb".toList = some
      [create_token .TOKEN_IDENTIFIER ['a'] 1 1,
       create_token .TOKEN_WHITESPACE [' ', '\t'] 1 3,
       create_token .TOKEN_IDENTIFIER ['b'] 1 6,
       create_token .TOKEN_EOF [] 1 8] := by
  refine ⟨fun hw ts h => tokenize_loop_no_whitespace tk _ _ _ _ ts hw h,
    fun hw ch rest line column hs => scan_step_whitespace tk ch rest line column hw hs,
    fun inp h => List.take_of_length_le h, fun spans h => ?_, by decide!⟩
  obtain ⟨_, h2, h3, _⟩ := tokenize_spans_loop_whitespace tk input _ input 1 1 spans
    (List.suffix_refl _) h
  refine ⟨?_, h2, h3⟩
  rw [← tokenize_spans_snd, h]
  rfl

set_option maxRecDepth 100000 in
/-- C15, as stated, fails: with comments included, the text made of `//` and
998 letters `a`, without newline, does not scan to one comment token: the
comment buffer is full after 999 characters and the last letter is scanned
as an identifier. -/
theorem C15_long_line_comment_is_cut :
    tokenize (create_tokenizer (some comment_options)) ('/' :: '/' :: List.replicate 998 'a')
      = some
        [create_token .TOKEN_COMMENT ('/' :: '/' :: List.replicate 997 'a') 1 1,
         create_token .TOKEN_IDENTIFIER ['a'] 1 1001,
         create_token .TOKEN_EOF [] 1 1003] := by
  decide!

/-- C15, amended: for every configuration and every input of at most 999
characters made of `//` followed by characters none of which is a newline,
the comment runs to the end of the line: scanning yields exactly the
end-of-input token when `include_comments` is not set, and exactly the comment
token holding the input and the end-of-input token when it is set. -/
theorem C15_line_comment (tk : Tokenizer) (body : List Char) (hnl : NL ∉ body)
    (hlen : ('/' :: '/' :: body).length ≤ 999) :
    (tk.options.include_comments = false →
      tokenize tk ('/' :: '/' :: body) = some
        [create_token .TOKEN_EOF [] 1 (body.length + 4)]) ∧
    (tk.options.include_comments = true →
      tokenize tk ('/' :: '/' :: body) = some
        [create_token .TOKEN_COMMENT ('/' :: '/' :: body) 1 1,
         create_token .TOKEN_EOF [] 1 (body.length + 4)]) := by
  have h := tokenize_line_comment tk body hnl (by simpa using hlen)
  constructor
  · intro hc
    rw [h, hc]
    rfl
  · intro hc
    rw [h, hc]
    rfl

/-- Witness of the amended C15 on the text `// hi` with the default
configuration and with comments included. -/
theorem C15_line_comment_witness :
    tokenize (create_tokenizer none) ('/' :: '/' :: " hi".toList) = some
      [create_token .TOKEN_EOF [] 1 (" hi".toList.length + 4)] ∧
    tokenize (create_tokenizer (some comment_options)) ('/' :: '/' :: " hi".toList) = some
      [create_token .TOKEN_COMMENT ('/' :: '/' :: " hi".toList) 1 1,
       create_token .TOKEN_EOF [] 1 (" hi".toList.length + 4)] :=
  ⟨(C15_line_comment (create_tokenizer none) " hi".toList (by decide) (by decide)).1 rfl,
   (C15_line_comment (create_tokenizer (some comment_options)) " hi".toList (by decide)
     (by decide)).2 rfl⟩

/-- C16, as stated, fails: with the operator table made of `+` and the empty
string, the character `#` is no whitespace, digit, letter, underscore or
quote, is no delimiter and is the first character of no operator, and the
scan of `#` never returns: the operator loop finds the empty operator. -/
theorem C16_empty_operator_catches_unknown :
    isspace '#' = false ∧ isdigit '#' = false ∧ isalpha '#' = false ∧ '#' ≠ '_' ∧
    '#' ≠ DQUOTE ∧ '#' ≠ SQUOTE ∧
    ['#'] ∉ (create_tokenizer (some plus_and_empty_operator_options)).delimiters ∧
    (∀ op ∈ (create_tokenizer (some plus_and_empty_operator_options)).operators,
      op.head? ≠ some '#') ∧
    tokenize (create_tokenizer (some plus_and_empty_operator_options)) ['#'] = none ∧
    ¬ ∃ fuel ts,
      tokenize_loop (create_tokenizer (some plus_and_empty_operator_options)) fuel ['#'] 1 1
        = some ts := by
  have hst : ∀ l c,
      (scan_step (create_tokenizer (some plus_and_empty_operator_options)) '#' [] l c).rest
        = ['#'] := by
    intro l c
    rw [scan_step_operator_eq _ '#' [] l c [] (by decide) (by decide) (by decide) (by decide)
      (by decide) (by decide) (by decide) (by decide)]
    rfl
  refine ⟨by decide, by decide, by decide, by decide, by decide, by decide, by decide,
    by decide, by decide!, ?_⟩
  rintro ⟨fuel, ts, h⟩
  rw [tokenize_loop_stuck _ '#' [] hst] at h
  exact absurd h (by simp)

/-- C16, amended: for every configuration whose operator table holds no empty
string and every character `c` that is not whitespace, not a digit, letter or
underscore, not a quote, not a member of the delimiter table and not the
first character of any operator of the table, scanning the one-character text
`c` yields exactly the end-of-input token when `skip_unknown` is set, and
exactly one token with the text `c` followed by the end-of-input token when it
is not. -/
theorem C16_unknown_character (tk : Tokenizer) (c : Char)
    (hne : [] ∉ tk.operators)
    (h1 : isspace c = false) (h2 : isdigit c = false) (h3 : isalpha c = false)
    (h4 : c ≠ '_') (h5 : c ≠ DQUOTE) (h6 : c ≠ SQUOTE) (h7 : [c] ∉ tk.delimiters)
    (h8 : ∀ op ∈ tk.operators, op.head? ≠ some c) :
    (tk.options.skip_unknown = true →
      tokenize tk [c] = some [create_token .TOKEN_EOF [] 1 2]) ∧
    (tk.options.skip_unknown = false →
      tokenize tk [c] = some
        [create_token .TOKEN_IDENTIFIER [c] 1 1, create_token .TOKEN_EOF [] 1 2]) := by
  have h := tokenize_unknown tk c h1 h2 h3 h4 h5 h6 h7
    (fun op hop => ⟨fun e => hne (e ▸ hop), h8 op hop⟩)
  constructor
  · intro hs
    rw [h, hs]
    rfl
  · intro hs
    rw [h, hs]
    rfl

/-- Witness of the amended C16 on the character `@` with the built-in tables,
unknown characters skipped and kept. -/
theorem C16_unknown_character_witness :
    tokenize (create_tokenizer none) ['@'] = some [create_token .TOKEN_EOF [] 1 2] ∧
    tokenize (create_tokenizer (some all_options)) ['@'] = some
      [create_token .TOKEN_IDENTIFIER ['@'] 1 1, create_token .TOKEN_EOF [] 1 2] :=
  ⟨(C16_unknown_character (create_tokenizer none) '@' (by decide) (by decide) (by decide)
      (by decide) (by decide) (by decide) (by decide) (by decide) (by decide)).1 rfl,
   (C16_unknown_character (create_tokenizer (some all_options)) '@' (by decide) (by decide)
      (by decide) (by decide) (by decide) (by decide) (by decide) (by decide) (by decide)).2
      rfl⟩

/-! ## Claims C17 to C20: traversal, query and cloning of syntax trees -/

/-- Claim C17. For every tree whose nodes are all of kinds `ast.c` has a
constructor for, and every target kind `k`, `find_nodes_by_type` returns the
nodes of kind `k` of the tree, each occurrence once, in pre-order (a node
before its children, the children from left to right). For the demonstration
program the query for identifiers returns the identifiers `x`, `add`, `a`,
`b`, `a`, `b`, in that order. -/
theorem C17_find_nodes_by_type (root : ASTNode) (k : NodeType)
    (hbuilt : all_kinds has_constructor root = true) :
    (find_nodes_by_type root k).items
        = (preorder root).filter (fun m => decide (node_type m = some k)) ∧
    (find_nodes_by_type demo_program .NODE_IDENTIFIER).items
        = [create_identifier "x".toList 1 1, create_identifier "add".toList 3 10,
           create_identifier "a".toList 3 15, create_identifier "b".toList 3 25,
           create_identifier "a".toList 4 12, create_identifier "b".toList 4 16] := by
  refine ⟨?_, rfl⟩
  rw [find_nodes_by_type_items,
    entered_trace_preorder root .null
      (all_kinds_mono _ _ has_constructor_traversal_kind root hbuilt)]

/-- The demonstration program is built with the constructors, and the query
for its parameters returns the two parameters of `add`, in order. -/
theorem C17_find_nodes_by_type_witness :
    all_kinds has_constructor demo_program = true ∧
    (find_nodes_by_type demo_program .NODE_PARAMETER).items
        = (preorder demo_program).filter
            (fun m => decide (node_type m = some .NODE_PARAMETER)) :=
  ⟨by decide, (C17_find_nodes_by_type demo_program .NODE_PARAMETER (by decide)).1⟩

/-- Claim C18. On every node, with every parent passed, the traversal calls
`enter` on the node, then makes the calls of the traversal of the children it
descends into, which are children of the node taken in declared order, each
with the node as parent, then calls `exit` on the node. So the nodes entered
are the node followed by the nodes entered below each visited child in turn
(pre-order), the nodes exited are the nodes exited below each visited child in
turn followed by the node (post-order), the nodes exited are the nodes entered,
each as many times, and with any callbacks, absent ones included,
`traverse_ast` has the effect of making exactly these calls in this order. -/
theorem C18_traversal_order (node parent : ASTNode) (hnode : node ≠ .null) :
    trace node parent
        = Event.enter node parent :: ((traversed node).map fun c => trace c node).flatten
            ++ [Event.exit node parent] ∧
    (traversed node).Sublist (children node) ∧
    entered (trace node parent)
        = node :: ((traversed node).map fun c => entered (trace c node)).flatten ∧
    exited (trace node parent)
        = ((traversed node).map fun c => exited (trace c node)).flatten ++ [node] ∧
    (entered (trace node parent)).Perm (exited (trace node parent)) ∧
    (∀ (σ : Type) (enter exit : Option (VisitorFunc σ)) (data : σ),
      traverse_ast_with_parent enter exit node parent data
        = run_events enter exit (trace node parent) data) ∧
    (∀ (σ : Type) (enter exit : Option (VisitorFunc σ)) (data : σ),
      traverse_ast node enter exit data = run_events enter exit (trace node .null) data) :=
  ⟨trace_eq node parent hnode, traversed_sublist node, entered_trace node parent hnode,
    exited_trace node parent hnode, entered_perm_exited node parent,
    fun _ enter exit data => traverse_run enter exit node parent data,
    fun _ enter exit data => traverse_run enter exit node .null data⟩

/-- The traversal of the demonstration program enters the program first and
exits it last. -/
theorem C18_traversal_order_witness :
    demo_program ≠ .null ∧
    trace demo_program .null
        = Event.enter demo_program .null
            :: ((traversed demo_program).map fun c => trace c demo_program).flatten
            ++ [Event.exit demo_program .null] ∧
    (entered (trace demo_program .null)).Perm (exited (trace demo_program .null)) :=
  ⟨by simp [demo_program, create_program],
    (C18_traversal_order demo_program .null (by simp [demo_program, create_program])).1,
    (C18_traversal_order demo_program .null
      (by simp [demo_program, create_program])).2.2.2.2.1⟩

/-- Claim C19, counterexample. On the assignment `x = 1` the traversal calls
`enter` and `exit` on the assignment and on neither of its two children: one
node is entered, of the three of the tree. -/
theorem C19_assignment_children_not_entered :
    traverse_ast assignment_example (some record_enter) (some record_exit) []
        = [Event.enter assignment_example .null, Event.exit assignment_example .null] ∧
    entered (traverse_ast assignment_example (some record_enter) (some record_exit) [])
        = [assignment_example] ∧
    preorder assignment_example
        = [assignment_example, create_identifier "x".toList 1 1,
           create_literal_number ⟨0x3FF0000000000000⟩ (some "1".toList) 1 5] ∧
    (find_nodes_by_type assignment_example .NODE_IDENTIFIER).items = [] :=
  ⟨rfl, rfl, rfl, rfl⟩

/-- Claim C19, amended. For every tree whose nodes are all of the kinds
program, identifier, literal, binary, unary, call, array, object, property,
variable declaration, variable declarator, function declaration, parameter,
block, return, if and while, `traverse_ast` enters the nodes of the tree, each
occurrence once, in pre-order, and exits the same nodes; and on a node of any
other kind it calls `enter` and `exit` on the node and descends into none of
its children. -/
theorem C19_traversal_coverage (root : ASTNode)
    (hkinds : all_kinds traversal_kind root = true) :
    entered (traverse_ast root (some record_enter) (some record_exit) []) = preorder root ∧
    (exited (traverse_ast root (some record_enter) (some record_exit) [])).Perm
        (preorder root) ∧
    (∀ (n parent : ASTNode) (k : NodeType), node_type n = some k → traversal_kind k = false →
      traverse_ast_with_parent (some record_enter) (some record_exit) n parent []
        = [Event.enter n parent, Event.exit n parent]) :=
  ⟨entered_trace_preorder root .null hkinds, exited_perm_preorder root .null hkinds,
    fun n parent k hk h => trace_other n parent k hk h⟩

/-- The demonstration program is of the covered kinds, and its sixteen nodes
are entered in pre-order. -/
theorem C19_traversal_coverage_witness :
    all_kinds traversal_kind demo_program = true ∧
    entered (traverse_ast demo_program (some record_enter) (some record_exit) [])
        = preorder demo_program ∧
    (preorder demo_program).length = 16 :=
  ⟨by decide, (C19_traversal_coverage demo_program (by decide)).1, by decide⟩

/-- Claim C20, counterexample. The negation `-x`, built with the constructors,
is cloned to `NULL`; the clone of the sum `a + -x` is a sum whose right operand
is `NULL`; and the demonstration program is cloned to `NULL`. -/
theorem C20_clone_of_negation_is_null :
    node_type negation_example = some .NODE_UNARY_EXPRESSION ∧
    clone_ast_node negation_example = .null ∧
    clone_ast_node sum_example
        = create_binary_expression "+".toList (create_identifier "a".toList 1 1) .null 1 3 ∧
    children (clone_ast_node sum_example) ≠ children sum_example ∧
    clone_ast_node demo_program = .null := by
  refine ⟨rfl, rfl, rfl, ?_, rfl⟩
  simp [sum_example, negation_example, clone_ast_node, create_binary_expression,
    create_unary_expression, create_identifier, children]

/-- Claim C20, amended. For every tree made of identifiers, literals and
binary expressions only, as the constructors build them (an operand may be
absent), `clone_ast_node` returns a tree equal to its input: the same kind,
line and column at every node, the same texts and values, and the clones of
the children in the same order. A node of any other kind is cloned to
`NULL`. -/
theorem C20_clone_ast_node (root : ASTNode)
    (hkinds : all_kinds clone_kind root = true) (hbuilt : parents_absent root = true) :
    clone_ast_node root = root ∧
    (∀ (n : ASTNode) (k : NodeType), node_type n = some k → clone_kind k = false →
      clone_ast_node n = .null) :=
  ⟨clone_ast_node_eq root hkinds hbuilt, fun n k hk h => clone_ast_node_other n k hk h⟩

/-- The sum `a + b` of the demonstration program is its own clone. -/
theorem C20_clone_ast_node_witness :
    all_kinds clone_kind
        (create_binary_expression "+".toList (create_identifier "a".toList 4 12)
          (create_identifier "b".toList 4 16) 4 14) = true ∧
    parents_absent
        (create_binary_expression "+".toList (create_identifier "a".toList 4 12)
          (create_identifier "b".toList 4 16) 4 14) = true ∧
    clone_ast_node
        (create_binary_expression "+".toList (create_identifier "a".toList 4 12)
          (create_identifier "b".toList 4 16) 4 14)
      = create_binary_expression "+".toList (create_identifier "a".toList 4 12)
          (create_identifier "b".toList 4 16) 4 14 :=
  ⟨by decide, by decide,
    (C20_clone_ast_node
      (create_binary_expression "+".toList (create_identifier "a".toList 4 12)
        (create_identifier "b".toList 4 16) 4 14) (by decide) (by decide)).1⟩

/-! ## Claims C21 to C30: release, printing, serialisation, constructors -/

/-- Claim C21, at the failing input. `free_ast_node` on the demonstration
program, the call `demonstrate_ast` makes to clean up, hands the program node
to `free` and nothing else, while `traverse_ast` enters the sixteen nodes of
the program; on the call `f(x)` it releases the call node and neither the
callee nor the argument, which the traversal enters. -/
theorem C21_release_leaves_children :
    released (free_ast_node demo_program) = [demo_program] ∧
    entered (traverse_ast demo_program (some record_enter) (some record_exit) [])
        = preorder demo_program ∧
    (preorder demo_program).length = 16 ∧
    released (free_ast_node call_example) = [call_example] ∧
    entered (traverse_ast call_example (some record_enter) (some record_exit) [])
        = [call_example, create_identifier "f".toList 1 1, create_identifier "x".toList 1 3] :=
  ⟨rfl, rfl, by decide, rfl, rfl⟩

/-- Claim C22, counterexample. For the number literal `42` of the
demonstration program the line written is `Literal = 42`: the inline value of
a number literal is not empty, and it is none of the values the claim
lists. -/
theorem C22_number_literal_line :
    pretty_print_ast (create_literal_number ⟨0x4045000000000000⟩ (some "42".toList) 1 7) 0
        = "Literal = 42".toList ++ [NL] ∧
    pretty_print_ast (create_literal_number ⟨0x4045000000000000⟩ (some "42".toList) 1 7) 0
        ≠ "Literal".toList ++ [NL] ∧
    all_kinds has_constructor
        (create_literal_number ⟨0x4045000000000000⟩ (some "42".toList) 1 7) = true := by
  decide

/-- Claim C22, amended. For every tree whose nodes are all of kinds `ast.c`
has a constructor for and every starting depth `d`, `pretty_print_ast` writes,
for each node of the tree in pre-order, one line made of twice (`d` plus the
depth of the node below the root) spaces, the display name of the kind, the
inline value and a newline. The inline value is the name between double quotes
after a space for an identifier; ` = ` followed by the text between double
quotes for a string literal, by the number in the format `%g` for a number
literal, by `true` or `false` for a boolean literal, by `null` for a null
literal; the operator between parentheses after a space for a binary or unary
expression; nothing for the other kinds. -/
theorem C22_pretty_print_format (root : ASTNode) (d : Nat)
    (hbuilt : all_kinds has_constructor root = true) :
    pretty_print_ast root d
        = ((preorder_depth root d).map fun p =>
            List.replicate (2 * p.2) ' ' ++ type_name p.1 ++ inline_value p.1 ++ [NL]).flatten ∧
    (∀ n k, node_type n = some k → type_name n = node_type_to_string k) ∧
    (∀ b name, inline_value (.identifier b name) = ' ' :: DQUOTE :: name ++ [DQUOTE]) ∧
    (∀ b s raw, inline_value (.literal b (.string_value s) raw)
        = " = ".toList ++ DQUOTE :: s ++ [DQUOTE]) ∧
    (∀ b x raw, inline_value (.literal b (.number_value x) raw) = " = ".toList ++ format_g x) ∧
    (∀ b raw, inline_value (.literal b (.boolean_value true) raw) = " = true".toList) ∧
    (∀ b raw, inline_value (.literal b (.boolean_value false) raw) = " = false".toList) ∧
    (∀ b raw, inline_value (.literal b .null_value raw) = " = null".toList) ∧
    (∀ b op left right, inline_value (.binary_expression b op left right)
        = " (".toList ++ op ++ [')']) ∧
    (∀ b op argument, inline_value (.unary_expression b op argument)
        = " (".toList ++ op ++ [')']) ∧
    (∀ n k, node_type n = some k → k ≠ .NODE_IDENTIFIER → k ≠ .NODE_LITERAL →
      k ≠ .NODE_BINARY_EXPRESSION → k ≠ .NODE_UNARY_EXPRESSION → inline_value n = []) := by
  refine ⟨?_, ?_, fun _ _ => rfl, fun _ _ _ => rfl, fun _ _ _ => rfl, fun _ _ => rfl,
    fun _ _ => rfl, fun _ _ => rfl, fun _ _ _ _ => rfl, fun _ _ _ => rfl, ?_⟩
  · unfold pretty_print_ast
    rw [lines_eq_preorder_depth root d hbuilt, List.map_map]
    congr 1
    refine List.map_congr_left fun p _ => ?_
    simp [print_line, print_json_indent_nat]
  · intro n k hk
    simp [type_name, hk]
  · intro n k hk h1 h2 h3 h4
    cases n <;> simp [node_type] at hk <;> subst hk <;> first | rfl | contradiction

/-- The two lines written for the negation `-x` at depth 1. -/
theorem C22_pretty_print_format_witness :
    all_kinds has_constructor negation_example = true ∧
    pretty_print_ast negation_example (1 : Nat)
        = ((preorder_depth negation_example 1).map fun p =>
            List.replicate (2 * p.2) ' ' ++ type_name p.1 ++ inline_value p.1 ++ [NL]).flatten ∧
    pretty_print_ast negation_example 1
        = "  UnaryExpression (-)".toList ++ [NL] ++ "    Identifier ".toList
            ++ [DQUOTE, 'x', DQUOTE, NL] :=
  ⟨by decide, (C22_pretty_print_format negation_example 1 (by decide)).1, by decide⟩

/-- Claim C23, counterexample. For the loop `while (c) ...` the printer writes
the line of the loop and no other, while the traversal enters the loop, its
test and its body. -/
theorem C23_while_children_not_printed :
    pretty_print_ast while_example 0 = "WhileStatement".toList ++ [NL] ∧
    (pretty_print_lines while_example 0).map Prod.fst = [while_example] ∧
    entered (traverse_ast while_example (some record_enter) (some record_exit) [])
        = [while_example, create_identifier "c".toList 1 8,
           create_block_statement (array_create 1) 1 11] :=
  ⟨by decide, rfl, rfl⟩

/-- Claim C23, amended. For every tree without if, while, array, object and
property nodes, so for every tree the node constructors can build, and every
starting indent, the nodes for which `pretty_print_ast` writes a line are, in
the same order, the nodes on which `traverse_ast` calls `enter`; the text
written is made of the lines of these nodes. -/
theorem C23_print_matches_traversal (root : ASTNode) (indent : Int)
    (hkinds : all_kinds print_kind root = true) :
    (pretty_print_lines root indent).map Prod.fst
        = entered (traverse_ast root (some record_enter) (some record_exit) []) ∧
    pretty_print_ast root indent
        = ((pretty_print_lines root indent).map fun p => print_line p.1 p.2).flatten ∧
    (∀ k, has_constructor k = true → print_kind k = true) :=
  ⟨printed_nodes_eq_entered root indent .null hkinds, rfl,
    fun k hk => by cases k <;> first | rfl | simp [has_constructor] at hk⟩

/-- The demonstration program is printed node by node as it is traversed. -/
theorem C23_print_matches_traversal_witness :
    all_kinds print_kind demo_program = true ∧
    (pretty_print_lines demo_program 0).map Prod.fst
        = entered (traverse_ast demo_program (some record_enter) (some record_exit) []) :=
  ⟨by decide, (C23_print_matches_traversal demo_program 0 (by decide)).1⟩

/-- Claim C24. For every node and every indent `k`, the text `ast_to_json`
writes is: an opening brace, a newline, `k + 1` indents of two spaces and the
field `type` with the display name of the kind; then the field `line` when
the line is positive and the field `column` when the column is positive, each
after a comma and a newline at `k + 1` indents; then the fields particular to
the kind, which start, when there are any, with a comma, a newline and
`k + 1` indents; then a newline, `k` indents and the closing brace. The
fields of a binary expression are `operator`, `left`, `right` in this order
and those of a variable declaration `kind`, `declarations`. The identifier
`x` at line 1, column 1 is written at indent 0 as the six lines of the
claim. -/
theorem C24_serialization_header (n : ASTNode) (k : Int) (base : NodeBase)
    (hbase : node_base n = some base) :
    ast_to_json n k
        = LBRACE :: NL :: print_json_indent (k + 1)
          ++ quoted "type".toList ++ ": ".toList ++ quoted (type_name n)
          ++ (if base.line > 0 then
                ',' :: NL :: print_json_indent (k + 1)
                ++ quoted "line".toList ++ ": ".toList ++ format_d base.line
              else [])
          ++ (if base.column > 0 then
                ',' :: NL :: print_json_indent (k + 1)
                ++ quoted "column".toList ++ ": ".toList ++ format_d base.column
              else [])
          ++ json_fields n k
          ++ NL :: print_json_indent k ++ [RBRACE] ∧
    (json_fields n k = [] ∨
      (',' :: NL :: print_json_indent (k + 1) ++ [DQUOTE]) <+: json_fields n k) ∧
    (∀ kind, node_type n = some kind → type_name n = node_type_to_string kind) ∧
    (∀ m : Nat, print_json_indent m = List.replicate (2 * m) ' ') ∧
    (∀ b op left right, json_fields (.binary_expression b op left right) k
        = ',' :: NL :: print_json_indent (k + 1)
          ++ quoted "operator".toList ++ ": ".toList ++ quoted op
          ++ ',' :: NL :: print_json_indent (k + 1)
          ++ quoted "left".toList ++ ": ".toList ++ ast_to_json left (k + 1)
          ++ ',' :: NL :: print_json_indent (k + 1)
          ++ quoted "right".toList ++ ": ".toList ++ ast_to_json right (k + 1)) ∧
    (∀ b declarations kind, json_fields (.variable_declaration b declarations kind) k
        = ',' :: NL :: print_json_indent (k + 1)
          ++ quoted "kind".toList ++ ": ".toList ++ quoted (json_kind kind)
          ++ ',' :: NL :: print_json_indent (k + 1)
          ++ quoted "declarations".toList ++ ": ".toList
          ++ array_rendering (declarations.map fun e => ast_to_json e (k + 2)) k) ∧
    ast_to_json (create_identifier "x".toList 1 1) 0
        = [LBRACE, NL] ++ "  ".toList ++ quoted "type".toList ++ ": ".toList
          ++ quoted "Identifier".toList ++ [',', NL]
          ++ "  ".toList ++ quoted "line".toList ++ ": 1,".toList ++ [NL]
          ++ "  ".toList ++ quoted "column".toList ++ ": 1,".toList ++ [NL]
          ++ "  ".toList ++ quoted "name".toList ++ ": ".toList ++ quoted "x".toList
          ++ [NL, RBRACE] := by
  have hn : n ≠ .null := by
    intro e
    subst e
    simp [node_base] at hbase
  refine ⟨?_, json_fields_start n k, ?_, print_json_indent_nat, ?_, ?_, by decide⟩
  · rw [ast_to_json_eq n k hn]
    simp [json_header, hbase, next_field, json_footer]
  · intro kind hk
    simp [type_name, hk]
  · intro b op left right
    simp [json_fields, next_field]
  · intro b declarations kind
    simp [json_fields, next_field]

/-- The head and the tail of the text written for the demonstration program
at indent 0: its line and column are zero and are left out. -/
theorem C24_serialization_header_witness :
    node_base demo_program = some (new_base 0 0) ∧
    ast_to_json demo_program 0
        = LBRACE :: NL :: print_json_indent (0 + 1)
          ++ quoted "type".toList ++ ": ".toList ++ quoted (type_name demo_program)
          ++ (if (new_base 0 0).line > 0 then
                ',' :: NL :: print_json_indent (0 + 1)
                ++ quoted "line".toList ++ ": ".toList ++ format_d (new_base 0 0).line
              else [])
          ++ (if (new_base 0 0).column > 0 then
                ',' :: NL :: print_json_indent (0 + 1)
                ++ quoted "column".toList ++ ": ".toList ++ format_d (new_base 0 0).column
              else [])
          ++ json_fields demo_program 0
          ++ NL :: print_json_indent 0 ++ [RBRACE] :=
  ⟨rfl, (C24_serialization_header demo_program 0 (new_base 0 0) rfl).1⟩

set_option maxRecDepth 100000 in
/-- Claim C25. For every program, block, variable declaration and function
declaration written at indent `k`, the array field holds the rendering of the
child list: an opening bracket, a newline, then for each element in order
`k + 2` indents of two spaces and the text of the element written at indent
`k + 2`, with a comma and a newline before every element except the first,
then a newline, `k + 1` indents and the closing bracket. -/
theorem C25_serialization_of_arrays (k : Int) :
    (∀ b body source_type,
      ast_to_json (.program b body source_type) k
        = json_header (.program b body source_type) k
          ++ next_field k ++ quoted "sourceType".toList ++ ": ".toList
          ++ quoted (json_source_type source_type)
          ++ next_field k ++ quoted "body".toList ++ ": ".toList
          ++ array_rendering (body.map fun e => ast_to_json e (k + 2)) k
          ++ json_footer k) ∧
    (∀ b body,
      ast_to_json (.block_statement b body) k
        = json_header (.block_statement b body) k
          ++ next_field k ++ quoted "body".toList ++ ": ".toList
          ++ array_rendering (body.map fun e => ast_to_json e (k + 2)) k
          ++ json_footer k) ∧
    (∀ b declarations kind,
      ast_to_json (.variable_declaration b declarations kind) k
        = json_header (.variable_declaration b declarations kind) k
          ++ next_field k ++ quoted "kind".toList ++ ": ".toList ++ quoted (json_kind kind)
          ++ next_field k ++ quoted "declarations".toList ++ ": ".toList
          ++ array_rendering (declarations.map fun e => ast_to_json e (k + 2)) k
          ++ json_footer k) ∧
    (∀ b id params body return_type,
      ast_to_json (.function_declaration b id params body return_type) k
        = json_header (.function_declaration b id params body return_type) k
          ++ next_field k ++ quoted "id".toList ++ ": ".toList ++ ast_to_json id (k + 1)
          ++ next_field k ++ quoted "params".toList ++ ": ".toList
          ++ array_rendering (params.map fun e => ast_to_json e (k + 2)) k
          ++ next_field k ++ quoted "body".toList ++ ": ".toList ++ ast_to_json body (k + 1)
          ++ json_optional_text "returnType".toList return_type k
          ++ json_footer k) ∧
    array_rendering [] k = LBRACKET :: NL :: NL :: print_json_indent (k + 1) ++ [RBRACKET] ∧
    (∀ e es, array_rendering (e :: es) k
        = LBRACKET :: NL :: print_json_indent (k + 2) ++ e
          ++ (es.map fun x => ',' :: NL :: print_json_indent (k + 2) ++ x).flatten
          ++ NL :: print_json_indent (k + 1) ++ [RBRACKET]) ∧
    ast_to_json
        (create_block_statement
          (array_push (array_push (array_create 2) (create_literal_null none 0 0))
            (create_literal_boolean true none 0 0)) 0 0) 0
      = [LBRACE, NL] ++ "  ".toList ++ quoted "type".toList ++ ": ".toList
        ++ quoted "BlockStatement".toList ++ [',', NL]
        ++ "  ".toList ++ quoted "body".toList ++ ": ".toList ++ [LBRACKET, NL]
        ++ "    ".toList ++ [LBRACE, NL]
        ++ "      ".toList ++ quoted "type".toList ++ ": ".toList
        ++ quoted "Literal".toList ++ [',', NL]
        ++ "      ".toList ++ quoted "value".toList ++ ": null".toList ++ [NL]
        ++ "    ".toList ++ [RBRACE, ',', NL]
        ++ "    ".toList ++ [LBRACE, NL]
        ++ "      ".toList ++ quoted "type".toList ++ ": ".toList
        ++ quoted "Literal".toList ++ [',', NL]
        ++ "      ".toList ++ quoted "value".toList ++ ": true".toList ++ [NL]
        ++ "    ".toList ++ [RBRACE, NL]
        ++ "  ".toList ++ [RBRACKET, NL, RBRACE] := by
  refine ⟨?_, ?_, ?_, ?_, ?_, ?_, by decide!⟩
  · intro b body source_type
    simp [ast_to_json, ← json_array_eq]
  · intro b body
    simp [ast_to_json, ← json_array_eq]
  · intro b declarations kind
    simp [ast_to_json, ← json_array_eq]
  · intro b id params body return_type
    simp [ast_to_json, ← json_array_eq]
  · simp [array_rendering, array_elements]
  · intro e es
    simp [array_rendering, array_elements, List.map_map, Function.comp_def]

/-- Claim C26, counterexample. The identifier whose name is a double quote
followed by an opening brace is built by `create_identifier`, and the text
written for it opens two braces and closes one. -/
theorem C26_brace_in_name_unbalanced :
    all_kinds has_constructor brace_identifier = true ∧
    ast_to_json brace_identifier 0
        = [LBRACE, NL] ++ "  ".toList ++ quoted "type".toList ++ ": ".toList
          ++ quoted "Identifier".toList ++ [',', NL]
          ++ "  ".toList ++ quoted "line".toList ++ ": 1,".toList ++ [NL]
          ++ "  ".toList ++ quoted "column".toList ++ ": 1,".toList ++ [NL]
          ++ "  ".toList ++ quoted "name".toList ++ ": ".toList ++ quoted [DQUOTE, LBRACE]
          ++ [NL, RBRACE] ∧
    balanced (ast_to_json brace_identifier 0) = false := by
  decide

/-- Claim C26, amended. For every tree in which every text payload (name,
string value, raw text, operator, type annotation) has balanced braces and
brackets by itself, as every text without braces and brackets has, and for
every indent, the text `ast_to_json` writes has balanced braces and brackets:
every opening brace is closed by a matching closing brace and every opening
bracket by a matching closing bracket, properly nested. -/
theorem C26_serialization_balanced (root : ASTNode) (k : Int)
    (htexts : texts_balanced root = true) :
    balanced (ast_to_json root k) = true ∧
    (∀ t : List Char, plain t → balanced t = true) :=
  ⟨balanced_of_neutral _ (neutral_ast_to_json root htexts k),
    fun t ht => balanced_of_neutral t (neutral_of_plain t ht)⟩

/-- The text written for the demonstration program is balanced. -/
theorem C26_serialization_balanced_witness :
    texts_balanced demo_program = true ∧ balanced (ast_to_json demo_program 0) = true :=
  ⟨by decide, (C26_serialization_balanced demo_program 0 (by decide)).1⟩

/-- Claim C27, at the failing input. For the call `f(x)`, built with the
constructors, `pretty_print_ast` writes the lines of the call, of the callee
`f` and of the argument `x`, and `ast_to_json` writes the type, the line and
the column of the call and neither the callee nor the argument. -/
theorem C27_call_children_not_serialised :
    all_kinds has_constructor call_example = true ∧
    (pretty_print_lines call_example 0).map Prod.fst
        = [call_example, create_identifier "f".toList 1 1, create_identifier "x".toList 1 3] ∧
    pretty_print_ast call_example 0
        = "CallExpression".toList ++ [NL]
          ++ "  Identifier ".toList ++ quoted "f".toList ++ [NL]
          ++ "  Identifier ".toList ++ quoted "x".toList ++ [NL] ∧
    ast_to_json call_example 0
        = [LBRACE, NL] ++ "  ".toList ++ quoted "type".toList ++ ": ".toList
          ++ quoted "CallExpression".toList ++ [',', NL]
          ++ "  ".toList ++ quoted "line".toList ++ ": 1,".toList ++ [NL]
          ++ "  ".toList ++ quoted "column".toList ++ ": 2".toList
          ++ [NL, RBRACE] :=
  ⟨by decide, rfl, by decide, by decide⟩

/-- Claim C28. In the text `ast_to_json` writes at any indent for a node the
constructors build, an absent initialiser of a variable declarator, an absent
type or default value of a parameter, an absent return type of a function
declaration, an absent raw text of a literal and an absent argument of a
return statement leave no field: the text is the head, the fields of what is
present and the tail, with no key and no `null` for what is absent. When
present, each of them is written as a field of its own, after the fields
before it. -/
theorem C28_absent_optional_children (k : Int) :
    (∀ id line column,
      ast_to_json (create_variable_declarator id .null line column) k
        = json_header (create_variable_declarator id .null line column) k
          ++ next_field k ++ quoted "id".toList ++ ": ".toList ++ ast_to_json id (k + 1)
          ++ json_footer k) ∧
    (∀ id init line column, init ≠ .null →
      ast_to_json (create_variable_declarator id init line column) k
        = json_header (create_variable_declarator id init line column) k
          ++ next_field k ++ quoted "id".toList ++ ": ".toList ++ ast_to_json id (k + 1)
          ++ next_field k ++ quoted "init".toList ++ ": ".toList ++ ast_to_json init (k + 1)
          ++ json_footer k) ∧
    (∀ name line column,
      ast_to_json (create_parameter name none .null line column) k
        = json_header (create_parameter name none .null line column) k
          ++ next_field k ++ quoted "name".toList ++ ": ".toList ++ ast_to_json name (k + 1)
          ++ json_footer k) ∧
    (∀ name type line column,
      ast_to_json (create_parameter name (some type) .null line column) k
        = json_header (create_parameter name (some type) .null line column) k
          ++ next_field k ++ quoted "name".toList ++ ": ".toList ++ ast_to_json name (k + 1)
          ++ next_field k ++ quoted "paramType".toList ++ ": ".toList ++ quoted type
          ++ json_footer k) ∧
    (∀ name default_value line column, default_value ≠ .null →
      ast_to_json (create_parameter name none default_value line column) k
        = json_header (create_parameter name none default_value line column) k
          ++ next_field k ++ quoted "name".toList ++ ": ".toList ++ ast_to_json name (k + 1)
          ++ next_field k ++ quoted "defaultValue".toList ++ ": ".toList
          ++ ast_to_json default_value (k + 1)
          ++ json_footer k) ∧
    (∀ name type default_value line column, default_value ≠ .null →
      ast_to_json (create_parameter name (some type) default_value line column) k
        = json_header (create_parameter name (some type) default_value line column) k
          ++ next_field k ++ quoted "name".toList ++ ": ".toList ++ ast_to_json name (k + 1)
          ++ next_field k ++ quoted "paramType".toList ++ ": ".toList ++ quoted type
          ++ next_field k ++ quoted "defaultValue".toList ++ ": ".toList
          ++ ast_to_json default_value (k + 1)
          ++ json_footer k) ∧
    (∀ id params body line column,
      ast_to_json (create_function_declaration id params body none line column) k
        = json_header (create_function_declaration id params body none line column) k
          ++ next_field k ++ quoted "id".toList ++ ": ".toList ++ ast_to_json id (k + 1)
          ++ next_field k ++ quoted "params".toList ++ ": ".toList
          ++ array_rendering (params.items.map fun e => ast_to_json e (k + 2)) k
          ++ next_field k ++ quoted "body".toList ++ ": ".toList ++ ast_to_json body (k + 1)
          ++ json_footer k) ∧
    (∀ id params body type line column,
      ast_to_json (create_function_declaration id params body (some type) line column) k
        = json_header (create_function_declaration id params body (some type) line column) k
          ++ next_field k ++ quoted "id".toList ++ ": ".toList ++ ast_to_json id (k + 1)
          ++ next_field k ++ quoted "params".toList ++ ": ".toList
          ++ array_rendering (params.items.map fun e => ast_to_json e (k + 2)) k
          ++ next_field k ++ quoted "body".toList ++ ": ".toList ++ ast_to_json body (k + 1)
          ++ next_field k ++ quoted "returnType".toList ++ ": ".toList ++ quoted type
          ++ json_footer k) ∧
    (∀ base value,
      ast_to_json (.literal base value none) k
        = json_header (.literal base value none) k
          ++ next_field k ++ quoted "value".toList ++ ": ".toList ++ json_literal_value value
          ++ json_footer k) ∧
    (∀ base value raw,
      ast_to_json (.literal base value (some raw)) k
        = json_header (.literal base value (some raw)) k
          ++ next_field k ++ quoted "value".toList ++ ": ".toList ++ json_literal_value value
          ++ next_field k ++ quoted "raw".toList ++ ": ".toList ++ quoted raw
          ++ json_footer k) ∧
    (∀ line column,
      ast_to_json (create_return_statement .null line column) k
        = json_header (create_return_statement .null line column) k ++ json_footer k) ∧
    (∀ argument line column, argument ≠ .null →
      ast_to_json (create_return_statement argument line column) k
        = json_header (create_return_statement argument line column) k
          ++ next_field k ++ quoted "argument".toList ++ ": ".toList
          ++ ast_to_json argument (k + 1)
          ++ json_footer k) := by
  refine ⟨?_, ?_, ?_, ?_, ?_, ?_, ?_, ?_, ?_, ?_, ?_, ?_⟩
  · intro id line column
    simp [ast_to_json, create_variable_declarator, ASTNode.is_null]
  · intro id init line column h
    simp [ast_to_json, create_variable_declarator, is_null_of_ne init h]
  · intro name line column
    simp [ast_to_json, create_parameter, ASTNode.is_null, json_optional_text]
  · intro name type line column
    simp [ast_to_json, create_parameter, ASTNode.is_null, json_optional_text]
  · intro name default_value line column h
    simp [ast_to_json, create_parameter, is_null_of_ne default_value h, json_optional_text]
  · intro name type default_value line column h
    simp [ast_to_json, create_parameter, is_null_of_ne default_value h, json_optional_text]
  · intro id params body line column
    simp [ast_to_json, create_function_declaration, json_optional_text, ← json_array_eq]
  · intro id params body type line column
    simp [ast_to_json, create_function_declaration, json_optional_text, ← json_array_eq]
  · intro base value
    simp [ast_to_json, json_optional_text]
  · intro base value raw
    simp [ast_to_json, json_optional_text]
  · intro line column
    simp [ast_to_json, create_return_statement, ASTNode.is_null]
  · intro argument line column h
    simp [ast_to_json, create_return_statement, is_null_of_ne argument h]

/-- Claim C29. Every node constructor returns a node whose kind tag is the
kind the constructor is named for, whose line and column are the arguments
given, whose parent is absent, and whose payload fields are the children,
scalars and texts given, an absent optional text staying absent; a child
array holds the items of the array given, in order; for a literal the
subtype stored is that of the value stored. -/
theorem C29_constructor_postcondition (line column : Int) :
    (∀ name,
      node_type (create_identifier name line column) = some .NODE_IDENTIFIER ∧
      node_base (create_identifier name line column) = some ⟨line, column, none⟩ ∧
      create_identifier name line column = .identifier ⟨line, column, none⟩ name) ∧
    (∀ value raw,
      node_type (create_literal_string value raw line column) = some .NODE_LITERAL ∧
      node_base (create_literal_string value raw line column) = some ⟨line, column, none⟩ ∧
      create_literal_string value raw line column
        = .literal ⟨line, column, none⟩ (.string_value value) raw ∧
      (LiteralValue.string_value value).literal_type = .LITERAL_STRING) ∧
    (∀ value raw,
      node_type (create_literal_number value raw line column) = some .NODE_LITERAL ∧
      node_base (create_literal_number value raw line column) = some ⟨line, column, none⟩ ∧
      create_literal_number value raw line column
        = .literal ⟨line, column, none⟩ (.number_value value) raw ∧
      (LiteralValue.number_value value).literal_type = .LITERAL_NUMBER) ∧
    (∀ value raw,
      node_type (create_literal_boolean value raw line column) = some .NODE_LITERAL ∧
      node_base (create_literal_boolean value raw line column) = some ⟨line, column, none⟩ ∧
      create_literal_boolean value raw line column
        = .literal ⟨line, column, none⟩ (.boolean_value value) raw ∧
      (LiteralValue.boolean_value value).literal_type = .LITERAL_BOOLEAN) ∧
    (∀ raw,
      node_type (create_literal_null raw line column) = some .NODE_LITERAL ∧
      node_base (create_literal_null raw line column) = some ⟨line, column, none⟩ ∧
      create_literal_null raw line column = .literal ⟨line, column, none⟩ .null_value raw ∧
      LiteralValue.null_value.literal_type = .LITERAL_NULL) ∧
    (∀ operator left right,
      node_type (create_binary_expression operator left right line column)
        = some .NODE_BINARY_EXPRESSION ∧
      node_base (create_binary_expression operator left right line column)
        = some ⟨line, column, none⟩ ∧
      create_binary_expression operator left right line column
        = .binary_expression ⟨line, column, none⟩ operator left right) ∧
    (∀ operator argument,
      node_type (create_unary_expression operator argument line column)
        = some .NODE_UNARY_EXPRESSION ∧
      node_base (create_unary_expression operator argument line column)
        = some ⟨line, column, none⟩ ∧
      create_unary_expression operator argument line column
        = .unary_expression ⟨line, column, none⟩ operator argument) ∧
    (∀ callee (arguments : CArray ASTNode),
      node_type (create_call_expression callee arguments line column)
        = some .NODE_CALL_EXPRESSION ∧
      node_base (create_call_expression callee arguments line column)
        = some ⟨line, column, none⟩ ∧
      create_call_expression callee arguments line column
        = .call_expression ⟨line, column, none⟩ callee arguments.items) ∧
    (∀ id init,
      node_type (create_variable_declarator id init line column)
        = some .NODE_VARIABLE_DECLARATOR ∧
      node_base (create_variable_declarator id init line column)
        = some ⟨line, column, none⟩ ∧
      create_variable_declarator id init line column
        = .variable_declarator ⟨line, column, none⟩ id init) ∧
    (∀ (declarations : CArray ASTNode) kind,
      node_type (create_variable_declaration declarations kind line column)
        = some .NODE_VARIABLE_DECLARATION ∧
      node_base (create_variable_declaration declarations kind line column)
        = some ⟨line, column, none⟩ ∧
      create_variable_declaration declarations kind line column
        = .variable_declaration ⟨line, column, none⟩ declarations.items kind) ∧
    (∀ name param_type default_value,
      node_type (create_parameter name param_type default_value line column)
        = some .NODE_PARAMETER ∧
      node_base (create_parameter name param_type default_value line column)
        = some ⟨line, column, none⟩ ∧
      create_parameter name param_type default_value line column
        = .parameter ⟨line, column, none⟩ name param_type default_value) ∧
    (∀ body : CArray ASTNode,
      node_type (create_block_statement body line column) = some .NODE_BLOCK_STATEMENT ∧
      node_base (create_block_statement body line column) = some ⟨line, column, none⟩ ∧
      create_block_statement body line column
        = .block_statement ⟨line, column, none⟩ body.items) ∧
    (∀ id (params : CArray ASTNode) body return_type,
      node_type (create_function_declaration id params body return_type line column)
        = some .NODE_FUNCTION_DECLARATION ∧
      node_base (create_function_declaration id params body return_type line column)
        = some ⟨line, column, none⟩ ∧
      create_function_declaration id params body return_type line column
        = .function_declaration ⟨line, column, none⟩ id params.items body return_type) ∧
    (∀ argument,
      node_type (create_return_statement argument line column)
        = some .NODE_RETURN_STATEMENT ∧
      node_base (create_return_statement argument line column)
        = some ⟨line, column, none⟩ ∧
      create_return_statement argument line column
        = .return_statement ⟨line, column, none⟩ argument) ∧
    (∀ (body : CArray ASTNode) source_type,
      node_type (create_program body source_type line column) = some .NODE_PROGRAM ∧
      node_base (create_program body source_type line column)
        = some ⟨line, column, none⟩ ∧
      create_program body source_type line column
        = .program ⟨line, column, none⟩ body.items source_type) :=
  ⟨fun _ => ⟨rfl, rfl, rfl⟩, fun _ _ => ⟨rfl, rfl, rfl, rfl⟩, fun _ _ => ⟨rfl, rfl, rfl, rfl⟩,
    fun _ _ => ⟨rfl, rfl, rfl, rfl⟩, fun _ => ⟨rfl, rfl, rfl, rfl⟩,
    fun _ _ _ => ⟨rfl, rfl, rfl⟩, fun _ _ => ⟨rfl, rfl, rfl⟩, fun _ _ => ⟨rfl, rfl, rfl⟩,
    fun _ _ => ⟨rfl, rfl, rfl⟩, fun _ _ => ⟨rfl, rfl, rfl⟩, fun _ _ _ => ⟨rfl, rfl, rfl⟩,
    fun _ => ⟨rfl, rfl, rfl⟩, fun _ _ _ _ => ⟨rfl, rfl, rfl⟩, fun _ => ⟨rfl, rfl, rfl⟩,
    fun _ _ => ⟨rfl, rfl, rfl⟩⟩

/-- Claim C30. In the traversal of a tree from its root, the first call is
`enter` on the root and the last is `exit` on the root, both with an absent
parent; every other call is made on a node with, as parent, a node that was
entered and that holds the node in one of the child slots the traversal
descends into; the calls made below the root are those of the traversal of
each visited child with the root handed as parent; and these are the calls
`traverse_ast` makes whatever the callbacks. -/
theorem C30_traversal_passes_parent (root : ASTNode) (hroot : root ≠ .null) :
    (trace root .null).head? = some (Event.enter root .null) ∧
    (trace root .null).getLast? = some (Event.exit root .null) ∧
    (∀ e ∈ trace root .null,
      (e.node = root ∧ e.parent = .null) ∨
      (e.node ∈ traversed e.parent ∧ e.node ∈ children e.parent ∧
        e.parent ∈ entered (trace root .null))) ∧
    trace root .null
        = Event.enter root .null :: ((traversed root).map fun c => trace c root).flatten
            ++ [Event.exit root .null] ∧
    (∀ (σ : Type) (enter exit : Option (VisitorFunc σ)) (data : σ),
      traverse_ast root enter exit data = run_events enter exit (trace root .null) data) := by
  refine ⟨(trace_ends root .null hroot).1, (trace_ends root .null hroot).2, ?_,
    trace_eq root .null hroot, fun _ enter exit data => traverse_run enter exit root .null data⟩
  intro e he
  rcases trace_parent root .null e he with h | ⟨h1, h2⟩
  · exact Or.inl h
  · exact Or.inr ⟨h1, (traversed_sublist _).subset h1, h2⟩

/-- In the traversal of the negation `-x` the calls on `x` are handed the
negation as parent. -/
theorem C30_traversal_passes_parent_witness :
    negation_example ≠ .null ∧
    trace negation_example .null
        = Event.enter negation_example .null
            :: ((traversed negation_example).map fun c => trace c negation_example).flatten
            ++ [Event.exit negation_example .null] ∧
    (traversed negation_example).map (fun c => trace c negation_example)
        = [[Event.enter (create_identifier "x".toList 1 2) negation_example,
            Event.exit (create_identifier "x".toList 1 2) negation_example]] :=
  ⟨by simp [negation_example, create_unary_expression],
    (C30_traversal_passes_parent negation_example
      (by simp [negation_example, create_unary_expression])).2.2.2.1, rfl⟩

/-! ## Claims C31 to C40 -/

/-- Claim C31. The traversal of an absent node calls neither `enter` nor
`exit` and leaves the data of the visitor as it is, so `find_nodes_by_type`
on an absent root returns an empty array; no visitor is ever called on an
absent node; and in the traversal of a variable declarator without
initialiser, of a parameter without default value, of a return statement
without argument and of an if statement without alternate, the absent child
causes no call. -/
theorem C31_absent_node_is_no_op :
    (∀ (σ : Type) (enter exit : Option (VisitorFunc σ)) (parent : ASTNode) (data : σ),
      traverse_ast_with_parent enter exit .null parent data = data) ∧
    (∀ (σ : Type) (enter exit : Option (VisitorFunc σ)) (data : σ),
      traverse_ast .null enter exit data = data) ∧
    (∀ parent, trace .null parent = []) ∧
    (∀ k, (find_nodes_by_type .null k).items = [] ∧ (find_nodes_by_type .null k).count = 0) ∧
    (∀ n p, ∀ e ∈ trace n p, e.node ≠ .null) ∧
    (∀ b id p,
      trace (.variable_declarator b id .null) p
        = Event.enter (.variable_declarator b id .null) p
            :: trace id (.variable_declarator b id .null)
            ++ [Event.exit (.variable_declarator b id .null) p]) ∧
    (∀ b name param_type p,
      trace (.parameter b name param_type .null) p
        = Event.enter (.parameter b name param_type .null) p
            :: trace name (.parameter b name param_type .null)
            ++ [Event.exit (.parameter b name param_type .null) p]) ∧
    (∀ b p,
      trace (.return_statement b .null) p
        = [Event.enter (.return_statement b .null) p,
           Event.exit (.return_statement b .null) p]) ∧
    (∀ b test consequent p,
      trace (.if_statement b test consequent .null) p
        = Event.enter (.if_statement b test consequent .null) p
            :: (trace test (.if_statement b test consequent .null)
              ++ trace consequent (.if_statement b test consequent .null))
            ++ [Event.exit (.if_statement b test consequent .null) p]) := by
  refine ⟨fun _ enter exit parent data => traverse_null enter exit parent data,
    fun _ enter exit data => traverse_null enter exit .null data,
    trace_null, fun k => ⟨rfl, rfl⟩, trace_node_ne_null, ?_, ?_, ?_, ?_⟩
  · intro b id p
    rw [trace_eq _ p (by simp)]
    simp [traversed, trace_null]
  · intro b name param_type p
    rw [trace_eq _ p (by simp)]
    simp [traversed, trace_null]
  · intro b p
    rw [trace_eq _ p (by simp)]
    simp [traversed, trace_null]
  · intro b test consequent p
    rw [trace_eq _ p (by simp)]
    simp [traversed, trace_null]

/-- Claim C32. For every configuration, the operator table of the tokenizer
`create_tokenizer` returns is a permutation of the operator list in use (the
configured entries, or the built-in list when the configured array is absent
or its count is not positive) and is ordered by non-increasing length. -/
theorem C32_operator_table_sorted_permutation (options : Option TokenizerOptions) :
    (create_tokenizer options).operators.Pairwise (fun a b => b.length ≤ a.length) ∧
    (options = none → (create_tokenizer options).operators.Perm default_operators) ∧
    (∀ o, options = some o → (o.operators = none ∨ o.operators_count ≤ 0) →
      (create_tokenizer options).operators.Perm default_operators) ∧
    (∀ o t, options = some o → o.operators = some t → 0 < o.operators_count →
      (create_tokenizer options).operators.Perm (t.take o.operators_count.toNat)) ∧
    (∀ o t, options = some o → o.operators = some t → t ≠ [] →
      o.operators_count = t.length → (create_tokenizer options).operators.Perm t) := by
  refine ⟨create_tokenizer_operators_sorted options, ?_, ?_, ?_, ?_⟩
  · intro e
    subst e
    exact qsort_operators_perm _
  · intro o e h
    subst e
    have : setup_table o.operators o.operators_count default_operators = default_operators := by
      unfold setup_table
      rcases h with h | h
      · rw [h]
      · cases o.operators with
        | none => rfl
        | some t => simp only [if_neg (not_lt.2 h)]
    simp only [create_tokenizer, this]
    exact qsort_operators_perm _
  · intro o t e h hc
    subst e
    simp only [create_tokenizer, setup_table, h, if_pos hc]
    exact qsort_operators_perm _
  · intro o t e h hne hc
    subst e
    have hpos : 0 < o.operators_count := by
      rw [hc]
      exact_mod_cast List.length_pos.2 hne
    have e2 : setup_table o.operators o.operators_count default_operators = t := by
      simp only [setup_table, h, if_pos hpos]
      rw [hc, Int.toNat_ofNat, List.take_length]
    simp only [create_tokenizer, e2]
    exact qsort_operators_perm _

/-- Claim C33, at the failing input. The built-in delimiter table holds the
entry `->`, of two characters. `is_delimiter` compares the table with the
one-character text of the character at hand, so it answers yes for no
character on account of this entry, and scanning `->` with the default
configuration yields the operator tokens `-` and `>` and no delimiter token.
Every other entry of the table has exactly one character and scans, with the
default configuration, to its delimiter token and the end-of-input token. -/
theorem C33_arrow_is_no_single_character :
    "->".toList ∈ default_delimiters ∧ "->".toList.length = 2 ∧
    (create_tokenizer none).delimiters = default_delimiters ∧
    (∀ ch, is_delimiter (create_tokenizer none) ch = true →
      [ch] ∈ default_delimiters ∧ [ch] ≠ "->".toList) ∧
    quick_tokenize "->".toList = some
      [create_token .TOKEN_OPERATOR ['-'] 1 1, create_token .TOKEN_OPERATOR ['>'] 1 3,
       create_token .TOKEN_EOF [] 1 5] ∧
    (∀ d ∈ default_delimiters, d ≠ "->".toList →
      d.length = 1 ∧
      quick_tokenize d = some
        [create_token .TOKEN_DELIMITER d 1 1, create_token .TOKEN_EOF [] 1 2]) := by
  refine ⟨by decide, by decide, rfl, ?_, by decide, ?_⟩
  · intro ch h
    have hm : [ch] ∈ default_delimiters := by
      simp only [is_delimiter, List.any_eq_true, beq_iff_eq] at h
      obtain ⟨d, hd, e⟩ := h
      exact e ▸ hd
    exact ⟨hm, fun e => absurd (congrArg List.length e) (by simp)⟩
  · intro d hd harrow
    simp only [default_delimiters, List.map_cons, List.map_nil, List.mem_cons,
      List.mem_singleton, List.not_mem_nil, or_false] at hd
    rcases hd with e | e | e | e | e | e | e | e | e | e <;> subst e <;>
      first | exact ⟨rfl, by decide⟩ | exact absurd rfl harrow

/-- Claim C34. `create_tokenizer` without options gives a tokenizer with
`include_whitespace` and `include_comments` not set, `skip_unknown` and
`case_sensitive` set, and the built-in keyword, operator and delimiter
tables, the operators ordered by non-increasing length. With options, the
tokenizer holds these options as they are; a table whose configured array is
absent or whose count is not positive is the built-in one; a table whose
configured array is present with a positive count is made of the configured
entries, the first `count` of the array, and of nothing else: of the whole
array when the count is its length. The operator table is in each case a
permutation of these entries. -/
theorem C34_configuration_defaults (o : TokenizerOptions) :
    (create_tokenizer none).options.include_whitespace = false ∧
    (create_tokenizer none).options.include_comments = false ∧
    (create_tokenizer none).options.skip_unknown = true ∧
    (create_tokenizer none).options.case_sensitive = true ∧
    (create_tokenizer none).keywords = default_keywords ∧
    (create_tokenizer none).operators.Perm default_operators ∧
    (create_tokenizer none).delimiters = default_delimiters ∧
    (create_tokenizer (some o)).options = o ∧
    ((o.keywords = none ∨ o.keywords_count ≤ 0) →
      (create_tokenizer (some o)).keywords = default_keywords) ∧
    ((o.operators = none ∨ o.operators_count ≤ 0) →
      (create_tokenizer (some o)).operators.Perm default_operators) ∧
    ((o.delimiters = none ∨ o.delimiters_count ≤ 0) →
      (create_tokenizer (some o)).delimiters = default_delimiters) ∧
    (∀ t, o.keywords = some t → 0 < o.keywords_count →
      (create_tokenizer (some o)).keywords = t.take o.keywords_count.toNat) ∧
    (∀ t, o.operators = some t → 0 < o.operators_count →
      (create_tokenizer (some o)).operators.Perm (t.take o.operators_count.toNat)) ∧
    (∀ t, o.delimiters = some t → 0 < o.delimiters_count →
      (create_tokenizer (some o)).delimiters = t.take o.delimiters_count.toNat) ∧
    (∀ t : List (List Char), t.take ((t.length : Int)).toNat = t) := by
  have hdef : ∀ (table : Option (List (List Char))) (count : Int) (dflt : List (List Char)),
      (table = none ∨ count ≤ 0) → setup_table table count dflt = dflt := by
    intro table count dflt h
    unfold setup_table
    rcases h with h | h
    · rw [h]
    · cases table with
      | none => rfl
      | some t => simp only [if_neg (not_lt.2 h)]
  have hset : ∀ (table : Option (List (List Char))) (count : Int) (dflt t : List (List Char)),
      table = some t → 0 < count → setup_table table count dflt = t.take count.toNat := by
    intro table count dflt t h hc
    simp only [setup_table, h, if_pos hc]
  refine ⟨rfl, rfl, rfl, rfl, rfl, qsort_operators_perm _, rfl, rfl, ?_, ?_, ?_, ?_, ?_, ?_, ?_⟩
  · intro h
    simp only [create_tokenizer, hdef _ _ _ h]
  · intro h
    simp only [create_tokenizer, hdef _ _ _ h]
    exact qsort_operators_perm _
  · intro h
    simp only [create_tokenizer, hdef _ _ _ h]
  · intro t h hc
    simp only [create_tokenizer, hset _ _ _ t h hc]
  · intro t h hc
    simp only [create_tokenizer, hset _ _ _ t h hc]
    exact qsort_operators_perm _
  · intro t h hc
    simp only [create_tokenizer, hset _ _ _ t h hc]
  · intro t
    rw [Int.toNat_ofNat, List.take_length]

/-- Claim C35. For every input without single and double quote characters and
every tokenizer with `include_whitespace` and `include_comments` set,
`skip_unknown` not set and no empty operator in its table, `tokenize` returns
a stream, and concatenating the texts of its tokens in stream order gives the
input exactly. -/
theorem C35_reconstruction_without_quotes (tk : Tokenizer) (input : List Char)
    (hdq : DQUOTE ∉ input) (hsq : SQUOTE ∉ input)
    (hw : tk.options.include_whitespace = true) (hc : tk.options.include_comments = true)
    (hu : tk.options.skip_unknown = false) (hne : [] ∉ tk.operators) :
    ∃ ts, tokenize tk input = some ts ∧ (ts.map Token.value).flatten = input := by
  obtain ⟨ts, h⟩ := tokenize_total tk hne input
  exact ⟨ts, h, tokenize_loop_text tk _ _ _ _ ts hw hc hu h
    (tokenize_loop_no_string tk _ _ _ _ ts hdq hsq h)⟩

/-- The text `a /*b*/ 12 @` is put together again from its tokens. -/
theorem C35_reconstruction_without_quotes_witness :
    DQUOTE ∉ "a /*b*/ 12 @".toList ∧ SQUOTE ∉ "a /*b*/ 12 @".toList ∧
    [] ∉ (create_tokenizer (some all_options)).operators ∧
    ∃ ts, tokenize (create_tokenizer (some all_options)) "a /*b*/ 12 @".toList = some ts ∧
      (ts.map Token.value).flatten = "a /*b*/ 12 @".toList :=
  ⟨by decide, by decide, by decide,
    C35_reconstruction_without_quotes (create_tokenizer (some all_options))
      "a /*b*/ 12 @".toList (by decide) (by decide) rfl rfl rfl (by decide)⟩

/-- Claim C36, at the failing input. On the text `a b` the two configurations
differ in `include_whitespace` only; without whitespace tokens `b` is at
column 4 and the end of input at column 6, with them `b` is at column 5 and
the end of input at column 7. On `a`, newline, `b` the line of `b` is 2
without whitespace tokens and 3 with them. -/
theorem C36_whitespace_tokens_shift_positions :
    whitespace_options = { default_options with include_whitespace := true } ∧
    tokenize (create_tokenizer (some default_options)) "a b".toList = some
      [create_token .TOKEN_IDENTIFIER ['a'] 1 1, create_token .TOKEN_IDENTIFIER ['b'] 1 4,
       create_token .TOKEN_EOF [] 1 6] ∧
    (tokenize (create_tokenizer (some whitespace_options)) "a b".toList).map
        (fun ts => ts.filter fun t => decide (t.type ≠ .TOKEN_WHITESPACE)) = some
      [create_token .TOKEN_IDENTIFIER ['a'] 1 1, create_token .TOKEN_IDENTIFIER ['b'] 1 5,
       create_token .TOKEN_EOF [] 1 7] ∧
    tokenize (create_tokenizer (some default_options)) ['a', NL, 'b'] = some
      [create_token .TOKEN_IDENTIFIER ['a'] 1 1, create_token .TOKEN_IDENTIFIER ['b'] 2 1,
       create_token .TOKEN_EOF [] 2 3] ∧
    (tokenize (create_tokenizer (some whitespace_options)) ['a', NL, 'b']).map
        (fun ts => ts.filter fun t => decide (t.type ≠ .TOKEN_WHITESPACE)) = some
      [create_token .TOKEN_IDENTIFIER ['a'] 1 1, create_token .TOKEN_IDENTIFIER ['b'] 3 1,
       create_token .TOKEN_EOF [] 3 3] :=
  ⟨rfl, by decide, by decide, by decide, by decide⟩

/-- Claim C37. In every stream `tokenize` returns, for any input and any
configuration, the lookup at the line and column of a token with a text that
is not empty returns this token; and every token a lookup returns is a token
of the stream whose text is not empty and covers the position asked for, and
is not the end-of-input token. -/
theorem C37_position_lookup (tk : Tokenizer) (input : List Char) (s : List Token) (t : Token)
    (hs : tokenize tk input = some s) (ht : t ∈ s) (hv : t.value ≠ []) :
    get_token_at_position s t.line t.column = some t ∧
    (∀ line column u, get_token_at_position s line column = some u →
      u ∈ s ∧ u.value ≠ [] ∧ u.type ≠ .TOKEN_EOF ∧
      (u.line : Int) = line ∧ (u.column : Int) ≤ column ∧
      column < (u.column : Int) + (u.value.length : Int)) := by
  refine ⟨get_token_at_position_self s t (tokenize_loop_ends_before tk _ _ _ _ s hs) ht hv, ?_⟩
  intro line column u hu
  obtain ⟨h1, h2, h3, h4, h5⟩ := get_token_at_position_some s line column u hu
  refine ⟨h1, h5, ?_, h2, h3, h4⟩
  obtain ⟨body, l, c, e, hbody⟩ := tokenize_loop_eof tk _ _ _ _ s hs
  subst e
  rcases List.mem_append.1 h1 with hm | hm
  · exact hbody u hm
  · simp only [List.mem_singleton] at hm
    subst hm
    exact absurd rfl h5

/-- In the stream of `int x = 10 + 20;` the lookup at column 6 of line 1, the
position of the identifier `x`, returns `x`. -/
theorem C37_position_lookup_witness :
    quick_tokenize "int x = 10 + 20;".toList = some
      [create_token .TOKEN_KEYWORD "int".toList 1 1,
       create_token .TOKEN_IDENTIFIER "x".toList 1 6,
       create_token .TOKEN_OPERATOR "=".toList 1 9,
       create_token .TOKEN_NUMBER "10".toList 1 12,
       create_token .TOKEN_OPERATOR "+".toList 1 16,
       create_token .TOKEN_NUMBER "20".toList 1 19,
       create_token .TOKEN_DELIMITER ";".toList 1 22,
       create_token .TOKEN_EOF [] 1 23] ∧
    get_token_at_position
      [create_token .TOKEN_KEYWORD "int".toList 1 1,
       create_token .TOKEN_IDENTIFIER "x".toList 1 6,
       create_token .TOKEN_OPERATOR "=".toList 1 9,
       create_token .TOKEN_NUMBER "10".toList 1 12,
       create_token .TOKEN_OPERATOR "+".toList 1 16,
       create_token .TOKEN_NUMBER "20".toList 1 19,
       create_token .TOKEN_DELIMITER ";".toList 1 22,
       create_token .TOKEN_EOF [] 1 23]
      (create_token .TOKEN_IDENTIFIER "x".toList 1 6).line
      (create_token .TOKEN_IDENTIFIER "x".toList 1 6).column
      = some (create_token .TOKEN_IDENTIFIER "x".toList 1 6) :=
  ⟨by decide!,
    (C37_position_lookup (create_tokenizer none) "int x = 10 + 20;".toList _
      (create_token .TOKEN_IDENTIFIER "x".toList 1 6) (by decide!) (by decide)
      (by decide)).1⟩

/-- Claim C38. For every token stream and every kind, `find_tokens_by_type`
returns the tokens of the stream of that kind, in their order in the stream,
each with the type, text, line and column it has in the stream, and no
other. The stream is a value the function only reads. -/
theorem C38_find_tokens_by_type (s : List Token) (k : TokenType) :
    find_tokens_by_type s k = s.filter (fun t => decide (t.type = k)) ∧
    (find_tokens_by_type s k).Sublist s ∧
    (∀ t, t ∈ find_tokens_by_type s k ↔ t ∈ s ∧ t.type = k) ∧
    (quick_tokenize "int x = 10 + 20;".toList).map (fun ts => find_tokens_by_type ts .TOKEN_NUMBER)
      = some [create_token .TOKEN_NUMBER "10".toList 1 12,
              create_token .TOKEN_NUMBER "20".toList 1 19] := by
  refine ⟨find_tokens_by_type_eq_filter s k, ?_, ?_, by decide!⟩
  · rw [find_tokens_by_type_eq_filter]
    exact List.filter_sublist _
  · intro t
    rw [find_tokens_by_type_eq_filter]
    simp [List.mem_filter]

/-- Claim C39. For every tree made only of identifiers, literals of the four
subtypes and binary expressions, whether or not an operand is absent,
`clone_ast_node` returns the tree with the same kinds, lines, columns, names,
operators, literal values and raw texts, the operands in the same order, and
an absent parent at every node; when the parents of the input are absent, as
the constructors leave them, the clone equals the input. -/
theorem C39_clone_exact_on_implemented_kinds (root : ASTNode)
    (hkinds : all_kinds clone_kind root = true) :
    clone_ast_node root = erase_parents root ∧
    parents_absent (clone_ast_node root) = true ∧
    (parents_absent root = true → clone_ast_node root = root) ∧
    (∀ b name, erase_parents (.identifier b name) = .identifier ⟨b.line, b.column, none⟩ name) ∧
    (∀ b value raw,
      erase_parents (.literal b value raw) = .literal ⟨b.line, b.column, none⟩ value raw) ∧
    (∀ b op left right,
      erase_parents (.binary_expression b op left right)
        = .binary_expression ⟨b.line, b.column, none⟩ op (erase_parents left)
            (erase_parents right)) ∧
    erase_parents .null = .null :=
  ⟨clone_eq_erase_parents root hkinds, clone_parents_absent root,
    fun hp => clone_ast_node_eq root hkinds hp, fun _ _ => rfl, fun _ _ _ => rfl,
    fun _ _ _ _ => rfl, rfl⟩

/-- The sum `a + 1` with a parent address stored in every node is cloned to
the same sum with absent parents. -/
theorem C39_clone_exact_on_implemented_kinds_witness :
    all_kinds clone_kind
        (.binary_expression ⟨4, 14, some 7⟩ "+".toList (.identifier ⟨4, 12, some 8⟩ "a".toList)
          (.literal ⟨4, 16, some 8⟩ (.boolean_value true) none)) = true ∧
    clone_ast_node
        (.binary_expression ⟨4, 14, some 7⟩ "+".toList (.identifier ⟨4, 12, some 8⟩ "a".toList)
          (.literal ⟨4, 16, some 8⟩ (.boolean_value true) none))
      = erase_parents
        (.binary_expression ⟨4, 14, some 7⟩ "+".toList (.identifier ⟨4, 12, some 8⟩ "a".toList)
          (.literal ⟨4, 16, some 8⟩ (.boolean_value true) none)) :=
  ⟨by decide,
    (C39_clone_exact_on_implemented_kinds
      (.binary_expression ⟨4, 14, some 7⟩ "+".toList (.identifier ⟨4, 12, some 8⟩ "a".toList)
        (.literal ⟨4, 16, some 8⟩ (.boolean_value true) none)) (by decide)).1⟩

/-- Claim C40, at the failing input. On the array `array_create(0)`, whose
count 0 is within its capacity 0, `array_push` doubles the capacity to 0 and
stores the item at index 0: the count is 1 and the capacity 0, so the write
lies outside the allocation. With a capacity that is positive, the items are
the previous ones followed by the new one, the count grows by one and stays
within the capacity. -/
theorem C40_array_push_at_capacity_zero :
    (array_create 0 : CArray Nat).count ≤ (array_create 0 : CArray Nat).capacity ∧
    (array_push (array_create 0 : CArray Nat) 7).items = [7] ∧
    (array_push (array_create 0 : CArray Nat) 7).count = 1 ∧
    (array_push (array_create 0 : CArray Nat) 7).capacity = 0 ∧
    (∀ (α : Type) (arr : CArray α) (item : α),
      (array_push arr item).items = arr.items ++ [item] ∧
      (array_push arr item).count = arr.count + 1 ∧
      (arr.count ≤ arr.capacity → 0 < arr.capacity →
        (array_push arr item).count ≤ (array_push arr item).capacity)) := by
  refine ⟨by decide, rfl, rfl, rfl, ?_⟩
  intro α arr item
  refine ⟨rfl, by simp [array_push, CArray.count], ?_⟩
  intro h1 h2
  simp only [array_push, CArray.count, List.length_append, List.length_singleton] at h1 ⊢
  split <;> omega

end Sybau
